import Mathlib

set_option maxHeartbeats 1000000

/-!
Verification of the dens archetype-based ECS registry.

The registry operations are translated from `src/include/dens/registry.hpp`
and the entity handle from `src/include/dens/entity.hpp`.  The archetype
storage layer (`dens/detail/archetype.hpp`: type signatures, component
columns, archetypes, and the archetype map) is not present under `src/`;
those definitions are modelled from the specification (spec.md §3, §4.1-§4.4)
and are marked as such in their doc comments.

Modelling conventions:
* machine integers (`std::size_t`) are `Nat` (no overflow is relevant here);
* component type signatures are `Nat` tokens (spec §4.1);
* component values live in a single domain `Value := Nat`; C++ move-assignment
  of a component value is modelled as plain assignment;
* C++ pointers to archetypes are modelled as the archetype's id, looked up in
  the registry's archetype map (ids are unique keys, invariant I4);
* `std::unordered_map` containers are association lists with unique keys;
* fatal `assert`s are modelled by `Option`-returning checked wrappers
  (`attachChecked`, `getChecked`); the unchecked functions give the
  straight-line semantics of the code.
-/

namespace Dens

/-- Component type signatures: the process-wide integer token assigned to each
component type (spec §4.1, "TypeSignature"). -/
abbrev Sig := Nat

/-- Component values.  The C++ code stores per-type movable values; the model
uses one value domain for all signatures. -/
abbrev Value := Nat

/-- Entity handle (`src/include/dens/entity.hpp`, lines 9-21). -/
structure entity where
  id : Nat
  registry_id : Nat
deriving DecidableEq

instance : Inhabited entity := ⟨⟨0, 0⟩⟩

/-- `entity::null_id` (`src/include/dens/entity.hpp`, line 10). -/
def null_id : Nat := 0

/-- Swap the elements at positions `i` and `j` of a list; identity when either
index is out of range.  Auxiliary list operation used to model the
swap-with-last step of `swap_back` (spec §4.3). -/
def swapIdx (l : List α) (i j : Nat) : List α :=
  match l[i]?, l[j]? with
  | some x, some y => (l.set i y).set j x
  | _, _ => l

/-- Modelled from the spec: a ComponentColumn (§4.2) of
`dens/detail/archetype.hpp` (not under `src/`): the erased vector
(`m_storage`) of component values for one type signature. -/
structure column where
  sign : Sig
  values : List Value
deriving DecidableEq

/-- Modelled from the spec: ArchetypeId (§3), the canonically sorted sequence
of type signatures composing an archetype; `registry.hpp` accesses its
`types` field (line 324). -/
structure archetype_id where
  types : List Sig
deriving DecidableEq

/-- Insert a signature into a sorted signature list, keeping it sorted and
duplicate-free.  Modelled from the spec: ArchetypeId `insert(sig)` (§3),
"sorted by signature value to canonicalise identity". -/
def insertSorted (x : Sig) : List Sig → List Sig
  | [] => [x]
  | y :: ys => if x < y then x :: y :: ys else if x = y then y :: ys else y :: insertSorted x ys

/-- Canonicalise a list of signatures: sorted, duplicate-free (spec §3). -/
def canon (l : List Sig) : List Sig := l.foldr insertSorted []

/-- Modelled from the spec: ArchetypeId `insert(sig)` → new id with the
signature added (spec §3). -/
def archetype_id.insert (k : archetype_id) (sg : Sig) : archetype_id :=
  ⟨insertSorted sg k.types⟩

/-- Modelled from the spec: `rec.arch->id().make(sign_t::make<T>())` used by
`registry::do_detach` (registry.hpp line 328) produces the id of the target
archetype of a detach, i.e. the id with the given signature removed
(spec §4.5.3: "target B = `ArchetypeMap.get_or_make(A.id.remove(sig<T>))`"). -/
def archetype_id.make (k : archetype_id) (sg : Sig) : archetype_id :=
  ⟨k.types.filter (fun x => decide (x ≠ sg))⟩

/-- Modelled from the spec: an Archetype (§3, §4.3) of
`dens/detail/archetype.hpp` (not under `src/`): its id, one entity handle per
row, and one column per type in the id. -/
structure archetype where
  id : archetype_id
  entities : List entity
  columns : List column
deriving DecidableEq

namespace archetype

/-- Modelled from the spec: number of rows (§4.3 `size()`). -/
def size (a : archetype) : Nat := a.entities.length

/-- Modelled from the spec: `find_column(sig)` (§4.3); `registry.hpp` calls it
as `arch->find<T>()` returning a pointer to the column. -/
def find (a : archetype) (sg : Sig) : Option column :=
  a.columns.find? (fun c => c.sign == sg)

/-- Length of the column for `sg` (0 when absent). -/
def colLen (a : archetype) (sg : Sig) : Nat :=
  match a.find sg with
  | some c => c.values.length
  | none => 0

/-- Modelled from the spec: `has_all(sigs)` — subset test on the id (§3). -/
def has_all (a : archetype) (sgs : List Sig) : Bool :=
  sgs.all (fun sg => a.id.types.contains sg)

/-- Modelled from the spec: `has_any(sigs)` — intersection test on the id (§3). -/
def has_any (a : archetype) (sgs : List Sig) : Bool :=
  sgs.any (fun sg => a.id.types.contains sg)

/-- Modelled from the spec: `is_last_row(row)` (§4.3); `registry.hpp` calls it
as `is_last(index)`. -/
def is_last (a : archetype) (i : Nat) : Bool :=
  i + 1 == a.entities.length

/-- Modelled from the spec: `push_entity(e)` (§4.3) — append `e` to `entities`
only, columns unchanged; `registry.hpp` calls it as `push_back(e)`. -/
def push_back (a : archetype) (e : entity) : archetype :=
  { a with entities := a.entities ++ [e] }

/-- Modelled from the spec: the append half of `emplace_default`/`append_move`
(§4.2, §4.3): append a value to the column for `sg` (no-op on other columns;
precondition: `sg` is in the id).  `registry.hpp` calls it as
`emplace_back<T>(value)` and reads the resulting column length. -/
def emplace_back (a : archetype) (sg : Sig) (v : Value) : archetype :=
  { a with columns := a.columns.map (fun c =>
      if c.sign = sg then { c with values := c.values ++ [v] } else c) }

/-- Overwrite the value at `row` of the column for `sg` — the move-assign
`array->m_storage.at(rec.index) = std::move(t)` of `registry::attach`
(registry.hpp line 213). -/
def set_val (a : archetype) (sg : Sig) (row : Nat) (v : Value) : archetype :=
  { a with columns := a.columns.map (fun c =>
      if c.sign = sg then { c with values := c.values.set row v } else c) }

/-- Modelled from the spec: the swap half of `swap_remove_row(row)` (§4.3 (b)):
swap `entities[row]` with `entities[last]` and likewise in every column;
return the entity that now occupies `row` (the old last row's entity).
`registry.hpp` calls it as `swap_back(index)` (lines 307, 321) and pops the
back separately. -/
def swap_back (a : archetype) (i : Nat) : entity × archetype :=
  let last := a.entities.length - 1
  (a.entities[last]?.getD default,
   { a with
      entities := swapIdx a.entities i last,
      columns := a.columns.map (fun c => { c with values := swapIdx c.values i last }) })

/-- Modelled from the spec: drop the last row — entity slot and the last
element of every column.  This is `migrate_back_row_to(none)` (§4.3);
`registry.hpp` calls it as `pop_back()` (line 325). -/
def pop_back (a : archetype) : archetype :=
  { a with
     entities := a.entities.dropLast,
     columns := a.columns.map (fun c => { c with values := c.values.dropLast }) }

/-- Modelled from the spec: `migrate_back_row_to(other_archetype_or_none)`
(§4.3): move the last row out of this archetype.  For each column of the
target that this archetype also has, the source column's last element is
appended to the target column (columns only in the source are dropped; a
target column whose signature the source lacks is untouched).  The migrated
entity is appended to the target's entities.  The source loses its last row.
Returns (migrated entity, updated source, updated target). -/
def migrate_back (a : archetype) (t? : Option archetype) :
    entity × archetype × Option archetype :=
  let e := a.entities.getLast?.getD default
  let t1? := t?.map (fun t =>
    { t with
       entities := t.entities ++ [e],
       columns := t.columns.map (fun c =>
         match a.find c.sign with
         | some src =>
           match src.values.getLast? with
           | some v => { c with values := c.values ++ [v] }
           | none => c
         | none => c) })
  let a1 := { a with
     entities := a.entities.dropLast,
     columns := a.columns.map (fun c => { c with values := c.values.dropLast }) }
  (e, a1, t1?)

/-- Modelled from the spec: `ArchetypeMap.get_or_make` creates "an empty one
with the appropriate columns" (§4.4). -/
def create (k : archetype_id) : archetype :=
  { id := k, entities := [], columns := k.types.map (fun sg => ⟨sg, []⟩) }

end archetype

/-- Modelled from the spec: lookup in the ArchetypeMap (§4.4), keyed by
ArchetypeId (unique keys, invariant I4). -/
def lookupArch (m : List archetype) (k : archetype_id) : Option archetype :=
  m.find? (fun a => a.id == k)

/-- Replace the archetype stored under key `k` by `f` of it (models mutation
through the C++ `archetype*` / `archetype&`). -/
def updateArch (m : List archetype) (k : archetype_id) (f : archetype → archetype) :
    List archetype :=
  m.map (fun a => if a.id = k then f a else a)

/-- Modelled from the spec: `ArchetypeMap.get_or_make(id)` (§4.4) — return the
map, guaranteed to contain an archetype for `k` (freshly created when
missing). -/
def getOrMake (m : List archetype) (k : archetype_id) : List archetype :=
  if (lookupArch m k).isSome then m else m ++ [archetype.create k]

/-- Per-entity record (`registry.hpp` lines 133-137).  `arch` models the
`detail::archetype*` as the archetype's id (or `none` for null). -/
structure record where
  name : String
  arch : Option archetype_id
  index : Nat
deriving DecidableEq

instance : Inhabited record := ⟨⟨"", none, 0⟩⟩

/-- The registry (`registry.hpp` lines 31-157).  `m_map` is the archetype map's
underlying container; `m_records` the entity-record table. -/
structure registry where
  m_map : List archetype
  m_records : List (entity × record)
  m_next_id : Nat
  m_id : Nat
deriving DecidableEq

namespace registry

/-- A fresh registry; `registry::registry()` (line 161) tags it with a
process-monotonic id, which the model takes as a parameter. -/
def new (rid : Nat) : registry :=
  { m_map := [], m_records := [], m_next_id := 0, m_id := rid }

/-- Lookup of `e`'s record in a record table. -/
def findRec (recs : List (entity × record)) (e : entity) : Option record :=
  (recs.find? (fun p => p.1 == e)).map (·.2)

/-- `m_records.find(e)` — lookup of the record of `e`. -/
def findRecord (s : registry) (e : entity) : Option record :=
  findRec s.m_records e

/-- In-place update of the record stored under key `e` (models mutation
through `record&` / `m_records[e]`). -/
def setRecords (recs : List (entity × record)) (e : entity) (f : record → record) :
    List (entity × record) :=
  recs.map (fun p => if p.1 = e then (p.1, f p.2) else p)

/-- `registry::contains` (line 50). -/
def contains (s : registry) (e : entity) : Bool :=
  (s.findRecord e).isSome

/-- `registry::size` (line 68). -/
def size (s : registry) : Nat := s.m_records.length

/-- `registry::empty` (line 74). -/
def empty (s : registry) : Bool := s.m_records.isEmpty

/-- `registry::name` (lines 177-180); a missing record yields the empty
string (`std::string_view{}`). -/
def name (s : registry) (e : entity) : String :=
  match s.findRecord e with
  | some r => r.name
  | none => ""

/-- `registry::rename` (lines 192-198). -/
def rename (s : registry) (e : entity) (nm : String) : Bool × registry :=
  match s.findRecord e with
  | some _ => (true, { s with m_records := setRecords s.m_records e (fun r => { r with name := nm }) })
  | none => (false, s)

/-- `registry::clear` (lines 200-203): drop all archetypes and all records;
`m_next_id` and `m_id` are untouched. -/
def clear (s : registry) : registry :=
  { s with m_map := [], m_records := [] }

/-- `registry::make_name` (lines 347-351) with the default name prefix
`"entity_"` (line 36). -/
def make_name (id : Nat) : String := "entity_" ++ toString id

/-- `registry::get_or_make` (lines 279-286): the record for `e`, default
(empty-named, archetype-less) when absent.  `m_records.emplace` does not
overwrite an existing record. -/
def get_or_make (s : registry) (e : entity) : registry :=
  if (s.findRecord e).isSome then s
  else { s with m_records := s.m_records ++ [(e, { name := "", arch := none, index := 0 })] }

/-- `registry::send_to_back` (lines 304-312): if `e`'s row is not the last of
its archetype, swap it with the last row and reindex the displaced entity's
record.  The `none` fallbacks are unreachable in the C++ (the caller holds a
valid `record&` with a set archetype pointer). -/
def send_to_back (s : registry) (e : entity) : registry :=
  match s.findRecord e with
  | none => s
  | some r =>
    match r.arch with
    | none => s
    | some k =>
      match lookupArch s.m_map k with
      | none => s
      | some a =>
        if a.is_last r.index then s
        else
          let sw := a.swap_back r.index
          { s with
             m_map := updateArch s.m_map k (fun _ => sw.2),
             m_records := setRecords s.m_records sw.1 (fun rd => { rd with index := r.index }) }

/-- `registry::migrate_to` (lines 296-302): rotate `e`'s row to the back of its
archetype, migrate the back row to the target archetype (or drop it when the
target is `none`), and repoint the record's archetype; the record's `index` is
left for the caller to update. -/
def migrate_to (s : registry) (e : entity) (tk : Option archetype_id) : registry :=
  let s1 := s.send_to_back e
  match s1.findRecord e with
  | none => s1
  | some r =>
    match r.arch with
    | none => s1
    | some k =>
      match lookupArch s1.m_map k with
      | none => s1
      | some a =>
        let t? := tk.bind (fun tkey => lookupArch s1.m_map tkey)
        let m := a.migrate_back t?
        let s2 := { s1 with m_map := updateArch s1.m_map k (fun _ => m.2.1) }
        let s3 :=
          match tk, m.2.2 with
          | some tkey, some t1 => { s2 with m_map := updateArch s2.m_map tkey (fun _ => t1) }
          | _, _ => s2
        { s3 with m_records := setRecords s3.m_records e (fun rd => { rd with arch := tk }) }

/-- `registry::destroy` (lines 182-190). -/
def destroy (s : registry) (e : entity) : Bool × registry :=
  match s.findRecord e with
  | some r =>
    let s1 := if r.arch.isSome then s.migrate_to e none else s
    (true, { s1 with m_records := s1.m_records.filter (fun p => !(p.1 == e)) })
  | none => (false, s)

/-- The common tail of `registry::attach` (lines 224-230): push the new `T`
instance (`emplace_back<T>(std::move(t))`) onto the record's archetype `k` and
set the record's index to the new column length minus one. -/
def pushVal (s : registry) (e : entity) (k : archetype_id) (sg : Sig) (v : Value) : registry :=
  let s1 := { s with m_map := updateArch s.m_map k (fun a => a.emplace_back sg v) }
  let len :=
    match lookupArch s1.m_map k with
    | some a => a.colLen sg
    | none => 0
  { s1 with m_records := setRecords s1.m_records e (fun rd => { rd with index := len - 1 }) }

/-- `registry::attach` (lines 205-231), minus the entry assertion (see
`attachChecked`).  `m_map.register_types<T>()` registers the type in the
process-wide type table and does not alter the archetype map; it has no
counterpart in the model.  The `none` fallbacks are unreachable (get_or_make
guarantees a record; a set archetype pointer is valid). -/
def attach (s : registry) (e : entity) (sg : Sig) (v : Value) : registry :=
  let s1 := s.get_or_make e
  match s1.findRecord e with
  | none => s1
  | some r =>
    match r.arch with
    | some k =>
      match lookupArch s1.m_map k with
      | none => s1
      | some a =>
        if (a.find sg).isSome then
          -- component T already exists, move assign and return
          { s1 with m_map := updateArch s1.m_map k (fun a0 => a0.set_val sg r.index v) }
        else
          -- migrate record to archetype with existing components + T, to be pushed
          let k' := k.insert sg
          let s2 := { s1 with m_map := getOrMake s1.m_map k' }
          let s3 := s2.migrate_to e (some k')
          s3.pushVal e k' sg v
    | none =>
      -- no existing components, use archetype with only T, to be pushed
      let k : archetype_id := ⟨canon [sg]⟩
      let s2 := { s1 with m_map := getOrMake s1.m_map k }
      let s3 := { s2 with
         m_map := updateArch s2.m_map k (fun a => a.push_back e),
         m_records := setRecords s2.m_records e (fun rd => { rd with arch := some k }) }
      s3.pushVal e k sg v

/-- The entry assertion of `registry::attach` (line 207):
`assert(e.id > entity::null_id && e.registry_id == m_id)`.  `none` models the
fatal assertion firing. -/
def attachChecked (s : registry) (e : entity) (sg : Sig) (v : Value) : Option registry :=
  if e.id > null_id ∧ e.registry_id = s.m_id then some (s.attach e sg v) else none

/-- `registry::attached` (lines 233-237). -/
def attached (s : registry) (e : entity) (sg : Sig) : Bool :=
  match s.findRecord e with
  | some r =>
    match r.arch with
    | some k =>
      match lookupArch s.m_map k with
      | some a => (a.find sg).isSome
      | none => false
    | none => false
  | none => false

/-- `registry::all_attached` (lines 239-244). -/
def all_attached (s : registry) (e : entity) (sgs : List Sig) : Bool :=
  match s.findRecord e with
  | some r =>
    match r.arch with
    | some k =>
      match lookupArch s.m_map k with
      | some a => a.has_all sgs
      | none => false
    | none => false
  | none => false

/-- `registry::any_attached` (lines 246-251). -/
def any_attached (s : registry) (e : entity) (sgs : List Sig) : Bool :=
  match s.findRecord e with
  | some r =>
    match r.arch with
    | some k =>
      match lookupArch s.m_map k with
      | some a => a.has_any sgs
      | none => false
    | none => false
  | none => false

/-- `registry::find` (lines 253-260).  The `m_storage.at(r.index)` access
throws only when the index is out of the column's bounds, which cannot happen
under the registry invariant; the model reads the optional element. -/
def find (s : registry) (e : entity) (sg : Sig) : Option Value :=
  match s.findRecord e with
  | some r =>
    match r.arch with
    | some k =>
      match lookupArch s.m_map k with
      | some a =>
        match a.find sg with
        | some c => c.values[r.index]?
        | none => none
      | none => none
    | none => none
  | none => none

/-- `registry::get` (lines 262-268) with its two assertions
(`e.id > null_id && e.registry_id == m_id`, then `assert(ret)` on the result
of `find`); `none` models a fatal assertion firing. -/
def getChecked (s : registry) (e : entity) (sg : Sig) : Option Value :=
  if e.id > null_id ∧ e.registry_id = s.m_id then s.find e sg else none

/-- `registry::do_detach` (lines 314-338). -/
def do_detach (s : registry) (e : entity) (sg : Sig) : Bool × registry :=
  if e.registry_id ≠ s.m_id then (false, s) else
  match s.findRecord e with
  | none => (false, s)
  | some r =>
    match r.arch with
    | none => (false, s)
    | some k =>
      match lookupArch s.m_map k with
      | none => (false, s)
      | some a =>
        -- rotate the record's row to the back (swap with last, reindex displaced)
        let s1 :=
          if a.is_last r.index then s
          else
            let sw := a.swap_back r.index
            { s with
               m_map := updateArch s.m_map k (fun _ => sw.2),
               m_records := setRecords s.m_records sw.1 (fun rd => { rd with index := r.index }) }
        if k.types.length = 1 then
          -- single-type archetype: pop the row and reset the whole record (rec = {})
          let s2 := { s1 with m_map := updateArch s1.m_map k (fun a1 => a1.pop_back) }
          let recs := setRecords s2.m_records e (fun _ => { name := "", arch := none, index := 0 })
          (true, { s2 with m_records := recs })
        else
          let k' := k.make sg
          let s2 := { s1 with m_map := getOrMake s1.m_map k' }
          let t? := lookupArch s2.m_map k'
          match lookupArch s2.m_map k with
          | none => (true, s2)
          | some a1 =>
            let m := a1.migrate_back t?
            let s3 := { s2 with m_map := updateArch s2.m_map k (fun _ => m.2.1) }
            let s4 :=
              match m.2.2 with
              | some t1 => { s3 with m_map := updateArch s3.m_map k' (fun _ => t1) }
              | none => s3
            let idx := (match lookupArch s4.m_map k' with | some t => t.size | none => 0) - 1
            let recs := setRecords s4.m_records e (fun rd => { rd with arch := some k', index := idx })
            (true, { s4 with m_records := recs })

/-- `registry::detach` (lines 112-114): fold the per-type `do_detach` results
with the short-circuiting `&&` of the C++ fold expression
`(do_detach<Types>(e) && ...)`. -/
def detach (s : registry) (e : entity) : List Sig → Bool × registry
  | [] => (true, s)
  | sg :: rest =>
    let d := s.do_detach e sg
    if d.1 then d.2.detach e rest else (false, d.2)

/-- `registry::emplace_back` (lines 288-294): point the record at `arch`, set
its index to the current length of the `sg` column, then append a
default-constructed value (0). -/
def emplaceDefault (s : registry) (e : entity) (k : archetype_id) (sg : Sig) : registry :=
  let len :=
    match lookupArch s.m_map k with
    | some a => a.colLen sg
    | none => 0
  { s with
     m_records := setRecords s.m_records e (fun rd => { rd with arch := some k, index := len }),
     m_map := updateArch s.m_map k (fun a => a.emplace_back sg 0) }

/-- `registry::make_entity` (lines 163-175).  `m_records.emplace` leaves an
existing record in place (the returned iterator then refers to it). -/
def make_entity (s : registry) (nm : String) (sigs : List Sig) : entity × registry :=
  let nid := s.m_next_id + 1
  let nm1 := if nm = "" then make_name nid else nm
  let e : entity := { id := nid, registry_id := s.m_id }
  let s0 := { s with m_next_id := nid }
  let s1 :=
    if (s0.findRecord e).isSome then s0
    else { s0 with m_records := s0.m_records ++ [(e, { name := nm1, arch := none, index := 0 })] }
  if sigs.isEmpty then (e, s1)
  else
    let k : archetype_id := ⟨canon sigs⟩
    let s2 := { s1 with m_map := getOrMake s1.m_map k }
    let s3 := { s2 with m_map := updateArch s2.m_map k (fun a => a.push_back e) }
    (e, sigs.foldl (fun st sg => st.emplaceDefault e k sg) s3)

/-- `archetype::at<T...>(row)` as used by `registry::append` (line 344): the
entity_view for one row — the entity handle plus the value of each required
component at that row. -/
def atRow (a : archetype) (req : List Sig) (i : Nat) : entity × List Value :=
  (a.entities[i]?.getD default,
   req.map (fun sg =>
     match a.find sg with
     | some c => c.values[i]?.getD 0
     | none => 0))

/-- `registry::append` (lines 340-345): push rows `0..size` of `arch` as
entity_views. -/
def append (out : List (entity × List Value)) (req : List Sig) (a : archetype) :
    List (entity × List Value) :=
  out ++ (List.range a.size).map (fun i => atRow a req i)

/-- `registry::view` (lines 270-277). -/
def view (s : registry) (req excl : List Sig) : List (entity × List Value) :=
  s.m_map.foldl
    (fun out a => if a.has_all req && !(a.has_any excl) then append out req a else out) []

/-- The set of component signatures currently attached to `e`: the types of
its record's archetype (empty for a record with no archetype or an unknown
entity). -/
def componentsOf (s : registry) (e : entity) : List Sig :=
  match s.findRecord e with
  | some r =>
    match r.arch with
    | some k =>
      match lookupArch s.m_map k with
      | some a => a.id.types
      | none => []
    | none => []
  | none => []

end registry

/-- The assertion inside the multi-type branch of `registry::do_detach`
(line 329, `assert(id != rec.arch->id())`): it can only fail when the entity's
archetype has more than one type and lacks the requested signature.  This
predicate says the assertion would not fire for one `do_detach<T>` call. -/
def detachAssertB (s : registry) (e : entity) (sg : Sig) : Bool :=
  match s.findRecord e with
  | none => true
  | some r =>
    match r.arch with
    | none => true
    | some k => if k.types.length = 1 then true else k.types.contains sg

/-- The assertions of a whole `registry::detach<T…>` fold would not fire:
`detachAssertB` holds at each step actually executed. -/
def detachOk (s : registry) (e : entity) : List Sig → Bool
  | [] => true
  | sg :: rest =>
    detachAssertB s e sg &&
      (if (s.do_detach e sg).1 then detachOk (s.do_detach e sg).2 e rest else true)

/-! ## Concrete fixture states (used by the witnesses) -/

/-- An empty registry with registry id 1. -/
def exReg0 : registry := registry.new 1

def exMk1 : entity × registry := exReg0.make_entity "" []

/-- Entity 1 of the fixture (`{id := 1, registry_id := 1}`). -/
def exE1 : entity := exMk1.1

def exS1 : registry := exMk1.2

/-- Fixture: entity 1 carries component `0` with value 7. -/
def exS2 : registry := exS1.attach exE1 0 7

/-- Fixture: entity 1 carries components `0 ↦ 7` and `5 ↦ 42`. -/
def exS3 : registry := exS2.attach exE1 5 42

def exMk2 : entity × registry := exS3.make_entity "bob" [0]

/-- Entity 2 of the fixture (`{id := 2, registry_id := 1}`). -/
def exE2 : entity := exMk2.1

def exS4 : registry := exMk2.2

/-- Fixture: entity 1 carries `0 ↦ 7, 5 ↦ 42`; entity 2 (named "bob")
carries `0 ↦ 11`. -/
def exS5 : registry := exS4.attach exE2 0 11

/-! ## Invariants (spec §3) -/

/-- Strictly ascending list of signatures — the canonical (sorted,
duplicate-free) form of an ArchetypeId (spec §3). -/
def strictSorted : List Sig → Bool
  | [] => true
  | [_] => true
  | x :: y :: rest => decide (x < y) && strictSorted (y :: rest)

/-- Well-formedness of one archetype: its id is canonical (strictly sorted,
hence duplicate-free), its columns are keyed exactly by the id's types in
order, and every column has one element per row (invariant I1). -/
def archWF (a : archetype) : Prop :=
  strictSorted a.id.types = true ∧
  a.columns.map column.sign = a.id.types ∧
  ∀ c ∈ a.columns, c.values.length = a.entities.length

/-- Every archetype in the map is well-formed. -/
def archesWF (s : registry) : Prop := ∀ a ∈ s.m_map, archWF a

/-- Invariant I4: no two archetypes in the map have equal ArchetypeId. -/
def archKeysNodup (s : registry) : Prop := (s.m_map.map archetype.id).Nodup

/-- The record table has unique entity keys (an `unordered_map`). -/
def recordKeysNodup (s : registry) : Prop := (s.m_records.map Prod.fst).Nodup

/-- Invariant I2 (with validity of the archetype pointer and row): for every
entity `E` with a record `R` whose `archetype_ptr` is set to `A`,
`A.entities[R.row] == E`. -/
def I2P (s : registry) : Prop :=
  ∀ p ∈ s.m_records, ∀ k ∈ p.2.arch.toList,
    ∃ a ∈ (lookupArch s.m_map k).toList,
      p.2.index < a.entities.length ∧ a.entities[p.2.index]? = some p.1

/-- Invariant I3 strengthened to the back-link form: every entity stored at
row `i` of an archetype has a record pointing back at exactly that archetype
and row. -/
def backlinkP (s : registry) : Prop :=
  ∀ a ∈ s.m_map, ∀ i ∈ List.range a.entities.length,
    ∃ r ∈ (s.findRecord (a.entities[i]?.getD default)).toList,
      r.arch = some a.id ∧ r.index = i

/-- The registry invariant: all of the above. -/
def Inv (s : registry) : Prop :=
  archesWF s ∧ archKeysNodup s ∧ recordKeysNodup s ∧ I2P s ∧ backlinkP s

instance (a : archetype) : Decidable (archWF a) :=
  inferInstanceAs (Decidable (strictSorted a.id.types = true ∧
    a.columns.map column.sign = a.id.types ∧
    ∀ c ∈ a.columns, c.values.length = a.entities.length))

instance (s : registry) : Decidable (archesWF s) :=
  inferInstanceAs (Decidable (∀ a ∈ s.m_map, archWF a))

instance (s : registry) : Decidable (archKeysNodup s) :=
  inferInstanceAs (Decidable ((s.m_map.map archetype.id).Nodup))

instance (s : registry) : Decidable (recordKeysNodup s) :=
  inferInstanceAs (Decidable ((s.m_records.map Prod.fst).Nodup))

instance (s : registry) : Decidable (I2P s) :=
  inferInstanceAs (Decidable (∀ p ∈ s.m_records, ∀ k ∈ p.2.arch.toList,
    ∃ a ∈ (lookupArch s.m_map k).toList,
      p.2.index < a.entities.length ∧ a.entities[p.2.index]? = some p.1))

instance (s : registry) : Decidable (backlinkP s) :=
  inferInstanceAs (Decidable (∀ a ∈ s.m_map, ∀ i ∈ List.range a.entities.length,
    ∃ r ∈ (s.findRecord (a.entities[i]?.getD default)).toList,
      r.arch = some a.id ∧ r.index = i))

instance (s : registry) : Decidable (Inv s) :=
  inferInstanceAs (Decidable (archesWF s ∧ archKeysNodup s ∧ recordKeysNodup s ∧ I2P s ∧ backlinkP s))

theorem I2P_iff (s : registry) : I2P s ↔
    ∀ p ∈ s.m_records, ∀ k, p.2.arch = some k →
      ∃ a, lookupArch s.m_map k = some a ∧
        p.2.index < a.entities.length ∧ a.entities[p.2.index]? = some p.1 := by
  simp only [I2P, Option.mem_toList, Option.mem_def]

theorem backlinkP_iff (s : registry) : backlinkP s ↔
    ∀ a ∈ s.m_map, ∀ i x, a.entities[i]? = some x →
      ∃ r, s.findRecord x = some r ∧ r.arch = some a.id ∧ r.index = i := by
  unfold backlinkP
  constructor
  · intro h a ha i x hx
    have hi : i < a.entities.length := by
      by_contra hge
      rw [List.getElem?_eq_none (Nat.le_of_not_lt hge)] at hx
      exact Option.noConfusion hx
    have := h a ha i (List.mem_range.mpr hi)
    rw [hx] at this
    simpa only [Option.getD_some, Option.mem_toList, Option.mem_def] using this
  · intro h a ha i hi
    rw [List.mem_range] at hi
    have hx : a.entities[i]? = some (a.entities.get ⟨i, hi⟩) :=
      List.getElem?_eq_some_iff.mpr ⟨hi, rfl⟩
    obtain ⟨r, hr, hra, hri⟩ := h a ha i _ hx
    refine ⟨r, ?_, hra, hri⟩
    rw [hx]
    simpa only [Option.getD_some, Option.mem_toList, Option.mem_def] using hr

/-! ## Lemmas about sorted signature lists -/

theorem strictSorted_cons_iff {x : Sig} {l : List Sig} :
    strictSorted (x :: l) = true ↔ (∀ y ∈ l, x < y) ∧ strictSorted l = true := by
  induction l generalizing x with
  | nil => simp [strictSorted]
  | cons z rest ih =>
    constructor
    · intro h
      have hx : x < z ∧ strictSorted (z :: rest) = true := by
        simpa [strictSorted, Bool.and_eq_true, decide_eq_true_eq] using h
      refine ⟨?_, hx.2⟩
      intro y hy
      rcases List.mem_cons.mp hy with rfl | hy'
      · exact hx.1
      · exact Nat.lt_trans hx.1 ((ih.mp hx.2).1 y hy')
    · intro h
      have : x < z := h.1 z (List.mem_cons_self z rest)
      simp [strictSorted, Bool.and_eq_true, decide_eq_true_eq, this, h.2]

theorem nodup_of_strictSorted {l : List Sig} (h : strictSorted l = true) : l.Nodup := by
  induction l with
  | nil => exact List.nodup_nil
  | cons x xs ih =>
    rcases strictSorted_cons_iff.mp h with ⟨hlt, hs⟩
    refine List.nodup_cons.mpr ⟨?_, ih hs⟩
    intro hmem
    exact Nat.lt_irrefl x (hlt x hmem)

theorem mem_insertSorted {x y : Sig} {l : List Sig} :
    y ∈ insertSorted x l ↔ y = x ∨ y ∈ l := by
  induction l with
  | nil => simp [insertSorted]
  | cons z rest ih =>
    unfold insertSorted
    by_cases h1 : x < z
    · simp [h1]
    · by_cases h2 : x = z
      · subst h2
        rw [if_neg h1, if_pos rfl]
        simp only [List.mem_cons]
        tauto
      · simp only [h1, h2, if_false, List.mem_cons, ih]
        tauto

theorem strictSorted_insertSorted {x : Sig} {l : List Sig} (h : strictSorted l = true) :
    strictSorted (insertSorted x l) = true := by
  induction l with
  | nil => rfl
  | cons z rest ih =>
    rcases strictSorted_cons_iff.mp h with ⟨hlt, hs⟩
    unfold insertSorted
    by_cases h1 : x < z
    · rw [if_pos h1]
      refine strictSorted_cons_iff.mpr ⟨?_, h⟩
      intro y hy
      rcases List.mem_cons.mp hy with rfl | hy'
      · exact h1
      · exact Nat.lt_trans h1 (hlt y hy')
    · by_cases h2 : x = z
      · simp [h1, h2, h]
      · have hzx : z < x := Nat.lt_of_le_of_ne (Nat.le_of_not_lt h1) (fun he => h2 he.symm)
        simp only [h1, h2, if_false]
        refine strictSorted_cons_iff.mpr ⟨?_, ih hs⟩
        intro y hy
        rcases mem_insertSorted.mp hy with rfl | hy'
        · exact hzx
        · exact hlt y hy'

theorem strictSorted_filter {l : List Sig} (p : Sig → Bool) (h : strictSorted l = true) :
    strictSorted (l.filter p) = true := by
  induction l with
  | nil => rfl
  | cons x xs ih =>
    rcases strictSorted_cons_iff.mp h with ⟨hlt, hs⟩
    rw [List.filter_cons]
    by_cases hp : p x
    · simp only [hp, if_true]
      refine strictSorted_cons_iff.mpr ⟨?_, ih hs⟩
      intro y hy
      exact hlt y (List.mem_of_mem_filter hy)
    · simp only [hp]
      simpa using ih hs

theorem strictSorted_canon (l : List Sig) : strictSorted (canon l) = true := by
  induction l with
  | nil => rfl
  | cons x xs ih => exact strictSorted_insertSorted ih

theorem mem_canon {y : Sig} {l : List Sig} : y ∈ canon l ↔ y ∈ l := by
  induction l with
  | nil => simp [canon]
  | cons x xs ih =>
    show y ∈ insertSorted x (canon xs) ↔ _
    rw [mem_insertSorted, ih]
    simp [List.mem_cons]

theorem insertSorted_ne_of_not_mem {x : Sig} {l : List Sig} (h : x ∉ l) :
    insertSorted x l ≠ l := by
  intro he
  exact h (he ▸ mem_insertSorted.mpr (Or.inl rfl))

theorem filter_ne_of_mem {x : Sig} {l : List Sig} (h : x ∈ l) :
    l.filter (fun y => decide (y ≠ x)) ≠ l := by
  intro he
  have := List.of_mem_filter (p := fun y => decide (y ≠ x)) (he ▸ h)
  simp at this

/-! ## Lemmas about the record table -/

theorem setRecords_keys (recs : List (entity × record)) (e : entity) (f : record → record) :
    (registry.setRecords recs e f).map Prod.fst = recs.map Prod.fst := by
  unfold registry.setRecords
  rw [List.map_map]
  congr 1
  funext p
  by_cases h : p.1 = e <;> simp [h]

theorem findRec_setRecords (recs : List (entity × record)) (e e' : entity) (f : record → record) :
    registry.findRec (registry.setRecords recs e f) e' =
      if e' = e then (registry.findRec recs e').map f else registry.findRec recs e' := by
  unfold registry.findRec registry.setRecords
  rw [List.find?_map]
  have hcomp : ((fun p : entity × record => p.1 == e') ∘
      (fun p : entity × record => if p.1 = e then (p.1, f p.2) else p)) =
      (fun p : entity × record => p.1 == e') := by
    funext p
    by_cases h : p.1 = e <;> simp [h]
  rw [hcomp]
  cases hfind : recs.find? (fun p => p.1 == e') with
  | none => simp
  | some q =>
    have hq : q.1 = e' := by simpa [beq_iff_eq] using List.find?_some hfind
    by_cases h : e' = e
    · subst h
      simp [hq]
    · have hne : ¬ q.1 = e := by rw [hq]; exact h
      simp [hne, h]

theorem findRec_append_self (recs : List (entity × record)) (e : entity) (r : record)
    (h : registry.findRec recs e = none) :
    registry.findRec (recs ++ [(e, r)]) e = some r := by
  unfold registry.findRec at h ⊢
  rw [List.find?_append]
  have h0 : recs.find? (fun p => p.1 == e) = none := by
    cases hf : recs.find? (fun p => p.1 == e) with
    | none => rfl
    | some q => rw [hf] at h; simp at h
  rw [h0]
  simp

theorem findRec_append_ne (recs : List (entity × record)) (e : entity) (r : record)
    (e' : entity) (h : e' ≠ e) :
    registry.findRec (recs ++ [(e, r)]) e' = registry.findRec recs e' := by
  unfold registry.findRec
  rw [List.find?_append]
  have h2 : List.find? (fun p => p.1 == e') [(e, r)] = none := by
    simp only [List.find?]
    have : (e == e') = false := by
      simp only [beq_eq_false_iff_ne]
      exact fun he => h he.symm
    simp [this]
  rw [h2, Option.or_none]

theorem findRec_filter_self (recs : List (entity × record)) (e : entity) :
    registry.findRec (recs.filter (fun p => !(p.1 == e))) e = none := by
  unfold registry.findRec
  rw [List.find?_eq_none.mpr]
  · rfl
  · intro p hp
    have := List.of_mem_filter hp
    simpa using this

theorem findRec_filter_ne (recs : List (entity × record)) (e e' : entity) (h : e' ≠ e) :
    registry.findRec (recs.filter (fun p => !(p.1 == e))) e' = registry.findRec recs e' := by
  unfold registry.findRec
  congr 1
  induction recs with
  | nil => rfl
  | cons p rest ih =>
    rw [List.filter_cons]
    by_cases hp : p.1 = e
    · have hne : (p.1 == e') = false := by
        simp only [beq_eq_false_iff_ne]
        rw [hp]
        exact fun he => h he.symm
      rw [if_neg (by simp [hp] : ¬ (!(p.1 == e)) = true)]
      rw [List.find?_cons_of_neg _ (by simp [hne])]
      exact ih
    · have hpb : (!(p.1 == e)) = true := by simp [hp]
      simp only [hpb, if_true]
      by_cases hp' : p.1 = e'
      · rw [List.find?_cons_of_pos _ (by simp [hp']), List.find?_cons_of_pos _ (by simp [hp'])]
      · rw [List.find?_cons_of_neg _ (by simp [hp']), List.find?_cons_of_neg _ (by simp [hp']), ih]

/-! ## Lemmas about the archetype map -/

theorem lookupArch_updateArch (m : List archetype) (k k' : archetype_id)
    (f : archetype → archetype) (hf : ∀ a, a.id = k → (f a).id = a.id) :
    lookupArch (updateArch m k f) k' =
      if k' = k then (lookupArch m k').map f else lookupArch m k' := by
  unfold lookupArch updateArch
  rw [List.find?_map]
  have hcomp : ((fun a : archetype => a.id == k') ∘ (fun a => if a.id = k then f a else a)) =
      (fun a : archetype => a.id == k') := by
    funext a
    by_cases h : a.id = k <;> simp [h, hf]
  rw [hcomp]
  cases hfind : m.find? (fun a => a.id == k') with
  | none => simp
  | some a =>
    have ha : a.id = k' := by simpa [beq_iff_eq] using List.find?_some hfind
    by_cases h : k' = k
    · subst h
      simp [ha]
    · have hne : ¬ a.id = k := by rw [ha]; exact h
      simp [hne, h]

theorem updateArch_ids (m : List archetype) (k : archetype_id) (f : archetype → archetype)
    (hf : ∀ a, a.id = k → (f a).id = a.id) :
    (updateArch m k f).map archetype.id = m.map archetype.id := by
  unfold updateArch
  rw [List.map_map]
  congr 1
  funext a
  by_cases h : a.id = k <;> simp [h, hf]

theorem mem_updateArch {m : List archetype} {k : archetype_id} {f : archetype → archetype}
    {a' : archetype} (h : a' ∈ updateArch m k f) :
    ∃ a ∈ m, a' = if a.id = k then f a else a := by
  unfold updateArch at h
  rcases List.mem_map.mp h with ⟨a, ha, he⟩
  exact ⟨a, ha, he.symm⟩

theorem lookupArch_eq_some {m : List archetype} {k : archetype_id} {a : archetype}
    (h : lookupArch m k = some a) : a ∈ m ∧ a.id = k :=
  ⟨List.mem_of_find?_eq_some h, by simpa [beq_iff_eq] using List.find?_some h⟩

theorem lookupArch_of_mem {m : List archetype} {a : archetype}
    (hnd : (m.map archetype.id).Nodup) (ha : a ∈ m) :
    lookupArch m a.id = some a := by
  induction m with
  | nil => cases ha
  | cons b rest ih =>
    rw [List.map_cons, List.nodup_cons] at hnd
    rcases List.mem_cons.mp ha with rfl | ha'
    · unfold lookupArch
      rw [List.find?_cons_of_pos _ (by simp)]
    · unfold lookupArch
      by_cases hb : b.id = a.id
      · exact absurd (hb ▸ List.mem_map_of_mem archetype.id ha') hnd.1
      · rw [List.find?_cons_of_neg _ (by simp [hb])]
        exact ih hnd.2 ha'

theorem lookupArch_isSome_iff {m : List archetype} {k : archetype_id} :
    (lookupArch m k).isSome ↔ k ∈ m.map archetype.id := by
  unfold lookupArch
  rw [List.find?_isSome]
  constructor
  · rintro ⟨a, ha, hak⟩
    rw [beq_iff_eq] at hak
    exact hak ▸ List.mem_map_of_mem archetype.id ha
  · intro hk
    rcases List.mem_map.mp hk with ⟨a, ha, hak⟩
    exact ⟨a, ha, by simp [hak]⟩

theorem lookupArch_getOrMake_self (m : List archetype) (k : archetype_id) :
    lookupArch (getOrMake m k) k = some ((lookupArch m k).getD (archetype.create k)) := by
  unfold getOrMake
  cases hl : lookupArch m k with
  | some a => simp [hl]
  | none =>
    simp only [hl, Option.isSome_none, Bool.false_eq_true, if_false, Option.getD_none]
    unfold lookupArch at hl ⊢
    rw [List.find?_append, hl]
    simp [archetype.create]

theorem lookupArch_getOrMake_ne (m : List archetype) (k k' : archetype_id) (h : k' ≠ k) :
    lookupArch (getOrMake m k) k' = lookupArch m k' := by
  unfold getOrMake
  cases hl : lookupArch m k with
  | some a => simp [hl]
  | none =>
    simp only [hl, Option.isSome_none, Bool.false_eq_true, if_false]
    unfold lookupArch
    rw [List.find?_append]
    have h2 : List.find? (fun a => a.id == k') [archetype.create k] = none := by
      simp only [List.find?]
      have : ((archetype.create k).id == k') = false := by
        simp only [beq_eq_false_iff_ne]
        exact fun he => h he.symm
      simp [this]
    rw [h2, Option.or_none]

theorem getOrMake_ids (m : List archetype) (k : archetype_id) :
    (getOrMake m k).map archetype.id =
      if (lookupArch m k).isSome then m.map archetype.id else m.map archetype.id ++ [k] := by
  unfold getOrMake
  cases hl : lookupArch m k <;> simp [hl, archetype.create]

theorem mem_getOrMake {m : List archetype} {k : archetype_id} {a : archetype}
    (h : a ∈ getOrMake m k) : a ∈ m ∨ a = archetype.create k := by
  unfold getOrMake at h
  by_cases hl : (lookupArch m k).isSome
  · rw [if_pos hl] at h
    exact Or.inl h
  · rw [if_neg hl] at h
    rcases List.mem_append.mp h with h1 | h2
    · exact Or.inl h1
    · simp only [List.mem_singleton] at h2
      exact Or.inr h2

theorem archWF_create {k : archetype_id} (h : strictSorted k.types = true) :
    archWF (archetype.create k) := by
  refine ⟨h, ?_, ?_⟩
  · unfold archetype.create
    simp only [List.map_map]
    have : (column.sign ∘ fun sg => column.mk sg []) = id := by
      funext sg
      rfl
    rw [this, List.map_id]
  · intro c hc
    unfold archetype.create at hc
    rcases List.mem_map.mp hc with ⟨sg, _, rfl⟩
    rfl

/-! ## Lemmas about swapIdx -/

theorem swapIdx_length (l : List α) (i j : Nat) : (swapIdx l i j).length = l.length := by
  unfold swapIdx
  cases h1 : l[i]? <;> cases h2 : l[j]? <;> simp

theorem swapIdx_getElem? (l : List α) {i j : Nat} (n : Nat) (hi : i < l.length)
    (hj : j < l.length) :
    (swapIdx l i j)[n]? = if n = j then l[i]? else if n = i then l[j]? else l[n]? := by
  unfold swapIdx
  have h1 : l[i]? = some l[i] := List.getElem?_eq_some_iff.mpr ⟨hi, rfl⟩
  have h2 : l[j]? = some l[j] := List.getElem?_eq_some_iff.mpr ⟨hj, rfl⟩
  rw [h1, h2]
  by_cases hnj : n = j
  · subst hnj
    rw [if_pos rfl, List.getElem?_set_self (by simpa using hj)]
  · rw [List.getElem?_set_ne (fun h => hnj h.symm)]
    by_cases hni : n = i
    · subst hni
      rw [if_neg hnj, if_pos rfl, List.getElem?_set_self hi]
    · rw [List.getElem?_set_ne (fun h => hni h.symm), if_neg hnj, if_neg hni]

/-! ## Shapes of the archetype operations -/

theorem push_back_id (a : archetype) (e : entity) : (a.push_back e).id = a.id := rfl

theorem emplace_back_id (a : archetype) (sg : Sig) (v : Value) :
    (a.emplace_back sg v).id = a.id := rfl

theorem set_val_id (a : archetype) (sg : Sig) (i : Nat) (v : Value) :
    (a.set_val sg i v).id = a.id := rfl

theorem pop_back_id (a : archetype) : a.pop_back.id = a.id := rfl

theorem swap_back_id (a : archetype) (i : Nat) : (a.swap_back i).2.id = a.id := rfl

theorem migrate_back_src_id (a : archetype) (t? : Option archetype) :
    (a.migrate_back t?).2.1.id = a.id := rfl

theorem setRecords_length (recs : List (entity × record)) (e : entity) (f : record → record) :
    (registry.setRecords recs e f).length = recs.length := List.length_map ..

theorem find_push_back (a : archetype) (e : entity) (sg : Sig) :
    (a.push_back e).find sg = a.find sg := rfl

theorem find_emplace_back (a : archetype) (sg : Sig) (v : Value) :
    (a.emplace_back sg v).find sg =
      (a.find sg).map (fun c => { c with values := c.values ++ [v] }) := by
  unfold archetype.find archetype.emplace_back
  simp only []
  rw [List.find?_map]
  have hcomp : ((fun c : column => c.sign == sg) ∘
      (fun c : column => if c.sign = sg then { c with values := c.values ++ [v] } else c)) =
      (fun c : column => c.sign == sg) := by
    funext c
    by_cases h : c.sign = sg <;> simp [h]
  rw [hcomp]
  cases hf : a.columns.find? (fun c => c.sign == sg) with
  | none => simp
  | some c =>
    have hc : c.sign = sg := by simpa [beq_iff_eq] using List.find?_some hf
    simp [hc]

theorem find_emplace_back_ne (a : archetype) (sg : Sig) (v : Value) (sg' : Sig) (h : sg' ≠ sg) :
    (a.emplace_back sg v).find sg' = a.find sg' := by
  unfold archetype.find archetype.emplace_back
  simp only []
  rw [List.find?_map]
  have hcomp : ((fun c : column => c.sign == sg') ∘
      (fun c : column => if c.sign = sg then { c with values := c.values ++ [v] } else c)) =
      (fun c : column => c.sign == sg') := by
    funext c
    by_cases hc : c.sign = sg <;> simp [hc]
  rw [hcomp]
  cases hf : a.columns.find? (fun c => c.sign == sg') with
  | none => simp
  | some c =>
    have hc : c.sign = sg' := by simpa [beq_iff_eq] using List.find?_some hf
    have hcs : ¬ c.sign = sg := by rw [hc]; exact h
    simp [hcs]

theorem find_set_val (a : archetype) (sg : Sig) (i : Nat) (v : Value) :
    (a.set_val sg i v).find sg =
      (a.find sg).map (fun c => { c with values := c.values.set i v }) := by
  unfold archetype.find archetype.set_val
  simp only []
  rw [List.find?_map]
  have hcomp : ((fun c : column => c.sign == sg) ∘
      (fun c : column => if c.sign = sg then { c with values := c.values.set i v } else c)) =
      (fun c : column => c.sign == sg) := by
    funext c
    by_cases h : c.sign = sg <;> simp [h]
  rw [hcomp]
  cases hf : a.columns.find? (fun c => c.sign == sg) with
  | none => simp
  | some c =>
    have hc : c.sign = sg := by simpa [beq_iff_eq] using List.find?_some hf
    simp [hc]

theorem find_set_val_ne (a : archetype) (sg : Sig) (i : Nat) (v : Value) (sg' : Sig)
    (h : sg' ≠ sg) : (a.set_val sg i v).find sg' = a.find sg' := by
  unfold archetype.find archetype.set_val
  simp only []
  rw [List.find?_map]
  have hcomp : ((fun c : column => c.sign == sg') ∘
      (fun c : column => if c.sign = sg then { c with values := c.values.set i v } else c)) =
      (fun c : column => c.sign == sg') := by
    funext c
    by_cases hc : c.sign = sg <;> simp [hc]
  rw [hcomp]
  cases hf : a.columns.find? (fun c => c.sign == sg') with
  | none => simp
  | some c =>
    have hc : c.sign = sg' := by simpa [beq_iff_eq] using List.find?_some hf
    have hcs : ¬ c.sign = sg := by rw [hc]; exact h
    simp [hcs]

theorem find_isSome_of_sign_mem {a : archetype} {sg : Sig}
    (h : a.columns.map column.sign = a.id.types) (hm : sg ∈ a.id.types) :
    ∃ c, a.find sg = some c ∧ c.sign = sg := by
  rw [← h] at hm
  rcases List.mem_map.mp hm with ⟨c, hc, hsg⟩
  have hsome : (a.columns.find? (fun c => c.sign == sg)).isSome := by
    rw [List.find?_isSome]
    exact ⟨c, hc, by simp [hsg]⟩
  rcases Option.isSome_iff_exists.mp hsome with ⟨c', hc'⟩
  refine ⟨c', hc', ?_⟩
  simpa [beq_iff_eq] using List.find?_some hc'

theorem find?_self_of_mem {sg : Sig} {l : List Sig} (h : sg ∈ l) :
    l.find? (fun t => t == sg) = some sg := by
  induction l with
  | nil => cases h
  | cons t rest ih =>
    by_cases ht : t = sg
    · rw [List.find?_cons_of_pos _ (by simp [ht]), ht]
    · rw [List.find?_cons_of_neg _ (by simp [ht])]
      exact ih ((List.mem_cons.mp h).resolve_left (fun he => ht he.symm))

theorem find_create {k : archetype_id} {sg : Sig} (h : sg ∈ k.types) :
    (archetype.create k).find sg = some ⟨sg, []⟩ := by
  unfold archetype.create archetype.find
  simp only []
  rw [List.find?_map]
  have hcomp : ((fun c : column => c.sign == sg) ∘ (fun t => column.mk t [])) =
      (fun t : Sig => t == sg) := rfl
  rw [hcomp, find?_self_of_mem h]
  rfl

/-! ## Basic facts about the registry operations -/

theorem emplaceDefault_m_next_id (s : registry) (e : entity) (k : archetype_id) (sg : Sig) :
    (registry.emplaceDefault s e k sg).m_next_id = s.m_next_id := rfl

theorem foldl_emplaceDefault_m_next_id (sigs : List Sig) (e : entity) (k : archetype_id)
    (s : registry) :
    (sigs.foldl (fun st sg => st.emplaceDefault e k sg) s).m_next_id = s.m_next_id := by
  induction sigs generalizing s with
  | nil => rfl
  | cons sg rest ih => rw [List.foldl_cons, ih, emplaceDefault_m_next_id]

/-- `make_entity` always returns the handle `{m_next_id + 1, m_id}`. -/
theorem make_entity_fst (s : registry) (nm : String) (sigs : List Sig) :
    (s.make_entity nm sigs).1 = { id := s.m_next_id + 1, registry_id := s.m_id } := by
  unfold registry.make_entity
  by_cases h : sigs.isEmpty <;> simp [h]

/-- `make_entity` advances the monotonic entity counter by one. -/
theorem make_entity_m_next_id (s : registry) (nm : String) (sigs : List Sig) :
    (s.make_entity nm sigs).2.m_next_id = s.m_next_id + 1 := by
  unfold registry.make_entity
  by_cases h : sigs.isEmpty <;>
    by_cases h2 : (({ s with m_next_id := s.m_next_id + 1 } : registry).findRecord
      { id := s.m_next_id + 1, registry_id := s.m_id }).isSome <;>
    simp [h, h2, foldl_emplaceDefault_m_next_id]

/-- A one-element `detach` list is one `do_detach` call. -/
theorem detach_single (s : registry) (e : entity) (sg : Sig) :
    s.detach e [sg] = s.do_detach e sg := by
  unfold registry.detach
  cases hd : s.do_detach e sg with
  | mk b s' =>
    cases b <;> simp [registry.detach, hd]

/-! ## Claim C1 -/

/-- C1: the claim is FALSE on the code, and the code contradicts its own doc
comment ("\returns true if T was attached to e", registry.hpp line 110).
In the fixture, entity 1 has exactly component 0 attached (and not
component 1); yet `detach<sig 1>` returns `true` — `do_detach` never checks
that the archetype has a column for the requested type — and, taking the
single-type branch, pops the row, so the unrelated component 0 is dropped.
The claim says the per-type result should be false and later/other
components stay attached. -/
theorem C1_detach_missing_type_check :
    exS2.attached exE1 0 = true ∧
    exS2.attached exE1 1 = false ∧
    (exS2.detach exE1 [1]).1 = true ∧
    ((exS2.detach exE1 [1]).2).attached exE1 0 = false := by decide

/-! ## Claim C2 -/

/-- C2: counterexample to the claim as stated.  Entity 1's archetype contains
exactly the one component type 0; before the detach its name is "entity_1";
the detach succeeds, but afterwards `name` returns "" and not the prior name:
the single-type branch of `do_detach` executes `rec = {}`, which resets the
whole record — including the name — not just the archetype pointer and row. -/
theorem C2_counterexample :
    exS2.name exE1 = "entity_1" ∧
    (exS2.detach exE1 [0]).1 = true ∧
    ((exS2.detach exE1 [0]).2).name exE1 = "" := by decide

/-- C2 (amended): for every entity `e` whose archetype contains exactly one
component type `T`, a successful `detach<T>(e)` resets the whole record:
afterwards `e` has no archetype and row 0, `contains e` is still true, and
`name e` returns the empty string (the prior name is lost). -/
theorem C2_detach_single_type_resets_record
    (s : registry) (e : entity) (r : record) (k : archetype_id) (a : archetype) (sg : Sig)
    (hrid : e.registry_id = s.m_id)
    (hr : s.findRecord e = some r)
    (hk : r.arch = some k)
    (ha : lookupArch s.m_map k = some a)
    (hone : k.types = [sg]) :
    (s.detach e [sg]).1 = true ∧
    ((s.detach e [sg]).2).findRecord e = some { name := "", arch := none, index := 0 } ∧
    ((s.detach e [sg]).2).contains e = true ∧
    ((s.detach e [sg]).2).name e = "" := by
  rw [detach_single]
  have hfr : registry.findRec s.m_records e = some r := hr
  by_cases hlast : a.is_last r.index
  · simp only [registry.do_detach, hrid, ne_eq, not_true_eq_false, if_false, hfr, hr, hk, ha,
      hone, hlast, if_true, List.length_singleton, Bool.false_eq_true, eq_self_iff_true]
    have hfind : registry.findRec
        (registry.setRecords s.m_records e (fun _ => { name := "", arch := none, index := 0 })) e
        = some { name := "", arch := none, index := 0 } := by
      rw [findRec_setRecords, if_pos rfl, hfr]
      rfl
    refine ⟨trivial, hfind, ?_, ?_⟩
    · simp [registry.contains, registry.findRecord, hfind]
    · simp [registry.name, registry.findRecord, hfind]
  · simp only [registry.do_detach, hrid, ne_eq, not_true_eq_false, if_false, hfr, hr, hk, ha,
      hone, hlast, if_true, List.length_singleton, Bool.false_eq_true, eq_self_iff_true]
    have hfind : registry.findRec
        (registry.setRecords
          (registry.setRecords s.m_records (a.swap_back r.index).1
            (fun rd => { rd with index := r.index })) e
          (fun _ => { name := "", arch := none, index := 0 })) e
        = some { name := "", arch := none, index := 0 } := by
      rw [findRec_setRecords, if_pos rfl, findRec_setRecords]
      by_cases hsw : e = (a.swap_back r.index).1
      · rw [if_pos hsw, hfr]
        rfl
      · rw [if_neg hsw, hfr]
        rfl
    refine ⟨trivial, hfind, ?_, ?_⟩
    · simp [registry.contains, registry.findRecord, hfind]
    · simp [registry.name, registry.findRecord, hfind]

/-- C2 witness: the amended theorem applied to the fixture where entity 1 has
exactly component 0 attached and is named "entity_1". -/
theorem C2_witness :
    exS2.findRecord exE1 = some ⟨"entity_1", some ⟨[0]⟩, 0⟩ ∧
    ((exS2.detach exE1 [0]).1 = true ∧
     ((exS2.detach exE1 [0]).2).findRecord exE1 = some { name := "", arch := none, index := 0 } ∧
     ((exS2.detach exE1 [0]).2).contains exE1 = true ∧
     ((exS2.detach exE1 [0]).2).name exE1 = "") :=
  ⟨by decide, C2_detach_single_type_resets_record exS2 exE1 ⟨"entity_1", some ⟨[0]⟩, 0⟩ ⟨[0]⟩
    ⟨⟨[0]⟩, [exE1], [⟨0, [7]⟩]⟩ 0 (by decide) (by decide) rfl (by decide) rfl⟩

theorem findRec_mem {recs : List (entity × record)} {e : entity} {r : record}
    (h : registry.findRec recs e = some r) : (e, r) ∈ recs := by
  unfold registry.findRec at h
  cases hf : recs.find? (fun p => p.1 == e) with
  | none => rw [hf] at h; simp at h
  | some p =>
    rw [hf] at h
    simp only [Option.map_some'] at h
    have hp1 : p.1 = e := by simpa [beq_iff_eq] using List.find?_some hf
    have hmem := List.mem_of_find?_eq_some hf
    have hpe : p = (e, r) := by
      cases p
      simp_all
    rw [← hpe]
    exact hmem

/-! ## Claim C3 -/

/-- C3: for every entity that already has a component of type `T` attached,
`attach<T>(e, v2)` overwrites the stored value in place (move-assignment,
registry.hpp line 213): afterwards `get/find<T>(e)` yields `v2`, the record
table is completely unchanged (hence the record's archetype pointer and row
are unchanged and no migration occurs), and the set of archetype ids in the
map is unchanged. -/
theorem C3_reattach_overwrites_in_place (s : registry) (e : entity) (sg : Sig) (v2 : Value)
    (hInv : Inv s) (hatt : s.attached e sg = true) :
    (s.attach e sg v2).m_records = s.m_records ∧
    (s.attach e sg v2).m_map.map archetype.id = s.m_map.map archetype.id ∧
    (s.attach e sg v2).find e sg = some v2 := by
  unfold registry.attached at hatt
  cases hr : s.findRecord e with
  | none => rw [hr] at hatt; simp at hatt
  | some r =>
  simp only [hr] at hatt
  cases hk : r.arch with
  | none => simp only [hk] at hatt; simp at hatt
  | some k =>
  simp only [hk] at hatt
  cases ha : lookupArch s.m_map k with
  | none => simp only [ha] at hatt; simp at hatt
  | some a =>
  simp only [ha] at hatt
  have hfr : registry.findRec s.m_records e = some r := hr
  obtain ⟨c, hc⟩ := Option.isSome_iff_exists.mp hatt
  unfold registry.attach registry.get_or_make
  simp only [registry.findRecord, hfr, Option.isSome_some, if_true, hk, ha, hatt]
  refine ⟨trivial, ?_, ?_⟩
  · exact updateArch_ids s.m_map k _ (fun a0 _ => set_val_id a0 sg r.index v2)
  · have hmem := lookupArch_eq_some ha
    have hWFa := hInv.1 a hmem.1
    have hI2 := (I2P_iff s).mp hInv.2.2.2.1 (e, r) (findRec_mem hfr) k hk
    rcases hI2 with ⟨a', ha', hidx, hent⟩
    rw [ha] at ha'
    cases ha'
    have hcmem := List.mem_of_find?_eq_some hc
    have hclen : c.values.length = a.entities.length := hWFa.2.2 c hcmem
    have hlook : lookupArch (updateArch s.m_map k (fun a0 => a0.set_val sg r.index v2)) k =
        some (a.set_val sg r.index v2) := by
      rw [lookupArch_updateArch _ _ _ _ (fun a0 _ => set_val_id a0 sg r.index v2), if_pos rfl, ha]
      rfl
    simp only [registry.find, registry.findRecord, hfr, hk, hlook]
    rw [find_set_val, hc]
    simp only [Option.map_some']
    exact List.getElem?_set_self (by rw [hclen]; exact hidx)

/-- C3 witness: re-attaching component 0 with value 9 to entity 1 of the
fixture (its stored value was 7). -/
theorem C3_witness :
    (Inv exS2 ∧ exS2.attached exE1 0 = true) ∧
    ((exS2.attach exE1 0 9).m_records = exS2.m_records ∧
     (exS2.attach exE1 0 9).m_map.map archetype.id = exS2.m_map.map archetype.id ∧
     (exS2.attach exE1 0 9).find exE1 0 = some 9) :=
  ⟨⟨by decide, by decide⟩,
   C3_reattach_overwrites_in_place exS2 exE1 0 9 (by decide) (by decide)⟩

/-! ## Claim C7 -/

/-- Under the registry invariant, `find` succeeds exactly when `attached`
holds, and `attached` agrees with the singleton `all_attached` (the former
tests column presence, the latter membership of the signature in the
archetype id). -/
theorem queryAgree (s : registry) (e : entity) (sg : Sig) (hInv : Inv s) :
    ((s.find e sg).isSome ↔ s.attached e sg = true) ∧
    (s.attached e sg = true ↔ s.all_attached e [sg] = true) := by
  unfold registry.find registry.attached registry.all_attached
  cases hr : s.findRecord e with
  | none => simp
  | some r =>
  cases hk : r.arch with
  | none => simp [hk]
  | some k =>
  cases ha : lookupArch s.m_map k with
  | none => simp [hk, ha]
  | some a =>
  simp only [hk, ha]
  have hmem := lookupArch_eq_some ha
  have hWFa := hInv.1 a hmem.1
  constructor
  · have hI2 := (I2P_iff s).mp hInv.2.2.2.1 (e, r) (findRec_mem hr) k hk
    rcases hI2 with ⟨a', ha', hidx, hent⟩
    rw [ha] at ha'
    cases ha'
    cases hc : a.find sg with
    | none => simp
    | some c =>
      have hcmem := List.mem_of_find?_eq_some hc
      have hclen : c.values.length = a.entities.length := hWFa.2.2 c hcmem
      simp only [Option.isSome_some, iff_true]
      have hsome : c.values[r.index]?.isSome := by
        rw [List.getElem?_eq_some_iff.mpr ⟨by rw [hclen]; exact hidx, rfl⟩]
        rfl
      simpa using hsome
  · unfold archetype.has_all
    simp only [List.all_cons, List.all_nil, Bool.and_true]
    constructor
    · intro h
      obtain ⟨c, hc⟩ := Option.isSome_iff_exists.mp h
      have hcmem := List.mem_of_find?_eq_some hc
      have hcs : c.sign = sg := by simpa [beq_iff_eq] using List.find?_some hc
      have hmemt : sg ∈ a.id.types := by
        rw [← hWFa.2.1]
        exact hcs ▸ List.mem_map_of_mem column.sign hcmem
      simpa [List.elem_iff] using hmemt
    · intro h
      have hm : sg ∈ a.id.types := by simpa [List.elem_iff] using h
      obtain ⟨c, hc, _⟩ := find_isSome_of_sign_mem hWFa.2.1 hm
      rw [hc]
      rfl

/-- C7: for every entity `e` and component type `T`, the three predicates
agree: `find<T>(e)` is non-null iff `attached<T>(e)` iff `all_attached<T>(e)`;
in particular all three yield none/false when `e` has no record or its record
has no archetype. -/
theorem C7_find_attached_all_attached_agree (s : registry) (e : entity) (sg : Sig)
    (hInv : Inv s) :
    ((s.find e sg).isSome ↔ s.attached e sg = true) ∧
    (s.attached e sg = true ↔ s.all_attached e [sg] = true) ∧
    (s.findRecord e = none →
      s.find e sg = none ∧ s.attached e sg = false ∧ s.all_attached e [sg] = false) ∧
    (∀ r, s.findRecord e = some r → r.arch = none →
      s.find e sg = none ∧ s.attached e sg = false ∧ s.all_attached e [sg] = false) := by
  have hmain := queryAgree s e sg hInv
  refine ⟨hmain.1, hmain.2, ?_, ?_⟩
  · intro h
    unfold registry.find registry.attached registry.all_attached
    simp [h]
  · intro r h hk
    unfold registry.find registry.attached registry.all_attached
    simp [h, hk]

/-- C7 witness: the agreement evaluated on the fixture at entity 1 and
component 0. -/
theorem C7_witness :
    Inv exS2 ∧
    (((exS2.find exE1 0).isSome ↔ exS2.attached exE1 0 = true) ∧
     (exS2.attached exE1 0 = true ↔ exS2.all_attached exE1 [0] = true) ∧
     (exS2.findRecord exE1 = none →
       exS2.find exE1 0 = none ∧ exS2.attached exE1 0 = false ∧
       exS2.all_attached exE1 [0] = false) ∧
     (∀ r, exS2.findRecord exE1 = some r → r.arch = none →
       exS2.find exE1 0 = none ∧ exS2.attached exE1 0 = false ∧
       exS2.all_attached exE1 [0] = false)) :=
  ⟨by decide, C7_find_attached_all_attached_agree exS2 exE1 0 (by decide)⟩

/-! ## Claim C6 -/


theorem mem_id_eq (m : List archetype) (hnd : (m.map archetype.id).Nodup)
    {a b : archetype} (ha : a ∈ m) (hb : b ∈ m) (hid : a.id = b.id) : a = b := by
  have h1 := lookupArch_of_mem hnd ha
  have h2 := lookupArch_of_mem hnd hb
  rw [hid] at h1
  rw [h1] at h2
  exact Option.some.inj h2

theorem unique_position (s : registry) (hInv : Inv s) {e : entity} {r : record}
    {k : archetype_id} (hr : s.findRecord e = some r) (hrk : r.arch = some k) :
    ∀ b ∈ s.m_map, ∀ j, b.entities[j]? = some e → b.id = k ∧ j = r.index := by
  intro b hb j hj
  rcases (backlinkP_iff s).mp hInv.2.2.2.2 b hb j e hj with ⟨r', hr', hra', hri'⟩
  rw [hr] at hr'
  injection hr' with hrr
  subst hrr
  rw [hrk] at hra'
  injection hra' with hkk
  exact ⟨hkk.symm, hri'.symm⟩

theorem send_to_back_findRecord_self (s : registry) (e : entity) (r : record)
    (hr : s.findRecord e = some r) :
    (s.send_to_back e).findRecord e = some r := by
  unfold registry.send_to_back
  simp only [hr]
  cases hk : r.arch with
  | none => simp only [hk]; exact hr
  | some k =>
    simp only [hk]
    cases ha : lookupArch s.m_map k with
    | none => simp only [ha]; exact hr
    | some a =>
      simp only [ha]
      by_cases hlast : a.is_last r.index
      · rw [if_pos hlast]
        exact hr
      · rw [if_neg hlast]
        show registry.findRec (registry.setRecords s.m_records (a.swap_back r.index).1
          (fun rd => { rd with index := r.index })) e = some r
        rw [findRec_setRecords]
        by_cases hsw : e = (a.swap_back r.index).1
        · rw [if_pos hsw]
          have hfr : registry.findRec s.m_records e = some r := hr
          rw [hfr]
          rfl
        · rw [if_neg hsw]
          exact hr



theorem is_last_iff (a : archetype) (i : Nat) :
    a.is_last i = true ↔ i + 1 = a.entities.length := by
  unfold archetype.is_last
  exact beq_iff_eq

theorem migrate_back_none_src_entities (a : archetype) :
    (a.migrate_back none).2.1.entities = a.entities.dropLast := rfl

theorem migrate_to_none_not_mem (s : registry) (e : entity) (r : record) (k : archetype_id)
    (hInv : Inv s)
    (hr : s.findRecord e = some r) (hrk : r.arch = some k) :
    ∀ a' ∈ (s.migrate_to e none).m_map, e ∉ a'.entities := by
  rcases (I2P_iff s).mp hInv.2.2.2.1 (e, r) (findRec_mem hr) k hrk with ⟨a, ha, hidx, hent⟩
  have huni := unique_position s hInv hr hrk
  have haid := (lookupArch_eq_some ha).2
  have hamem := (lookupArch_eq_some ha).1
  have hlen0 : 0 < a.entities.length := Nat.lt_of_le_of_lt (Nat.zero_le _) hidx
  unfold registry.migrate_to registry.send_to_back
  simp only [hr, hrk, ha]
  by_cases hlast : a.is_last r.index
  · rw [if_pos hlast]
    simp only [hr, hrk, ha, Option.none_bind]
    intro a' ha' hcon
    rcases mem_updateArch ha' with ⟨b, hb, hbe⟩
    by_cases hbk : b.id = k
    · rw [if_pos hbk] at hbe
      have hba : b = a := mem_id_eq s.m_map hInv.2.1 hb hamem (hbk.trans haid.symm)
      subst hba
      rw [hbe] at hcon
      rw [migrate_back_none_src_entities] at hcon
      rcases List.mem_iff_getElem?.mp hcon with ⟨j, hj⟩
      rw [List.getElem?_dropLast] at hj
      by_cases hjlt : j < b.entities.length - 1
      · rw [if_pos hjlt] at hj
        have := (huni b hb j hj).2
        subst this
        have hl := (is_last_iff b r.index).mp hlast
        omega
      · rw [if_neg hjlt] at hj
        cases hj
    · rw [if_neg hbk] at hbe
      subst hbe
      rcases List.mem_iff_getElem?.mp hcon with ⟨j, hj⟩
      exact hbk (huni a' hb j hj).1
  · rw [if_neg hlast]
    have hfr : registry.findRec s.m_records e = some r := hr
    have hfr1 : registry.findRec (registry.setRecords s.m_records (a.swap_back r.index).1
        (fun rd => { rd with index := r.index })) e = some r := by
      rw [findRec_setRecords]
      by_cases hsw : e = (a.swap_back r.index).1
      · rw [if_pos hsw, hfr]
        rfl
      · rw [if_neg hsw]
        exact hfr
    have hconst : ∀ b : archetype, b.id = k →
        ((fun _ : archetype => (a.swap_back r.index).2) b).id = b.id := by
      intro b hbk
      show (a.swap_back r.index).2.id = b.id
      rw [swap_back_id, haid, hbk]
    have hlook1 : lookupArch (updateArch s.m_map k (fun _ => (a.swap_back r.index).2)) k =
        some (a.swap_back r.index).2 := by
      rw [lookupArch_updateArch _ _ _ _ hconst, if_pos rfl, ha]
      rfl
    simp only [registry.findRecord, hfr1, hrk, hlook1, Option.none_bind]
    intro a' ha' hcon
    rcases mem_updateArch ha' with ⟨b1, hb1, hbe1⟩
    rcases mem_updateArch hb1 with ⟨b, hb, hbe0⟩
    by_cases hbk : b.id = k
    · rw [if_pos hbk] at hbe0
      have hb1k : b1.id = k := by rw [hbe0, swap_back_id, haid]
      rw [if_pos hb1k] at hbe1
      rw [hbe1] at hcon
      rw [migrate_back_none_src_entities] at hcon
      rcases List.mem_iff_getElem?.mp hcon with ⟨j, hj⟩
      rw [List.getElem?_dropLast] at hj
      have hswlen : (a.swap_back r.index).2.entities.length = a.entities.length := by
        show (swapIdx a.entities r.index (a.entities.length - 1)).length = _
        exact swapIdx_length a.entities r.index (a.entities.length - 1)
      by_cases hjlt : j < (a.swap_back r.index).2.entities.length - 1
      · rw [if_pos hjlt] at hj
        rw [hswlen] at hjlt
        have hjval : (swapIdx a.entities r.index (a.entities.length - 1))[j]? = some e := hj
        rw [swapIdx_getElem? a.entities j hidx (by omega)] at hjval
        by_cases hjl : j = a.entities.length - 1
        · omega
        · rw [if_neg hjl] at hjval
          by_cases hji : j = r.index
          · rw [if_pos hji] at hjval
            have := (huni a hamem _ hjval).2
            have hl := (is_last_iff a r.index).mp
            have : r.index + 1 = a.entities.length := by omega
            exact hlast ((is_last_iff a r.index).mpr this)
          · rw [if_neg hji] at hjval
            exact hji (huni a hamem j hjval).2
      · rw [if_neg hjlt] at hj
        cases hj
    · rw [if_neg hbk] at hbe0
      have hb1k : ¬ b1.id = k := by rw [hbe0]; exact hbk
      rw [if_neg hb1k] at hbe1
      rcases List.mem_iff_getElem?.mp hcon with ⟨j, hj⟩
      rw [hbe1, hbe0] at hj
      exact hbk (huni b hb j hj).1



/-- C6: `destroy(e)` returns true iff a record for `e` existed; it drops all
of `e`'s components (afterwards `e` occupies no row of any archetype) and
removes the record, so `contains e` is false and `find`/`attached`/
`all_attached` behave as for an unknown entity; when no record existed the
registry state is unchanged and false is returned. -/
theorem C6_destroy_removes_entity (s : registry) (e : entity) (hInv : Inv s) :
    ((s.destroy e).1 = true ↔ (s.findRecord e).isSome) ∧
    ((s.destroy e).2).findRecord e = none ∧
    ((s.destroy e).2).contains e = false ∧
    (∀ sg, ((s.destroy e).2).find e sg = none) ∧
    (∀ sg, ((s.destroy e).2).attached e sg = false) ∧
    (∀ sgs, ((s.destroy e).2).all_attached e sgs = false) ∧
    (∀ a ∈ ((s.destroy e).2).m_map, e ∉ a.entities) ∧
    (s.findRecord e = none → (s.destroy e).2 = s ∧ (s.destroy e).1 = false) := by
  have hρ : ((s.destroy e).2).findRecord e = none := by
    unfold registry.destroy
    cases hr : s.findRecord e with
    | none =>
      simp only [hr]
    | some r =>
      simp only [hr]
      exact findRec_filter_self _ e
  refine ⟨?_, hρ, ?_, ?_, ?_, ?_, ?_, ?_⟩
  · unfold registry.destroy
    cases hr : s.findRecord e with
    | none => simp [hr]
    | some r => simp [hr]
  · simp [registry.contains, hρ]
  · intro sg
    simp only [registry.find, hρ]
  · intro sg
    simp only [registry.attached, hρ]
  · intro sgs
    simp only [registry.all_attached, hρ]
  · unfold registry.destroy
    cases hr : s.findRecord e with
    | none =>
      simp only [hr]
      intro a ha hcon
      rcases List.mem_iff_getElem?.mp hcon with ⟨j, hj⟩
      rcases (backlinkP_iff s).mp hInv.2.2.2.2 a ha j e hj with ⟨r', hr', _, _⟩
      rw [hr] at hr'
      cases hr'
    | some r =>
      simp only [hr]
      cases hk : r.arch with
      | none =>
        simp only [hk, Option.isSome_none, Bool.false_eq_true, if_false]
        intro a ha hcon
        rcases List.mem_iff_getElem?.mp hcon with ⟨j, hj⟩
        rcases (backlinkP_iff s).mp hInv.2.2.2.2 a ha j e hj with ⟨r', hr', hra', _⟩
        rw [hr] at hr'
        injection hr' with hrr
        rw [← hrr, hk] at hra'
        cases hra'
      | some k =>
        simp only [hk, Option.isSome_some, if_true]
        exact fun a ha => migrate_to_none_not_mem s e r k hInv hr hk a ha
  · intro hno
    unfold registry.destroy
    simp [hno]


/-- C6 witness: destroying entity 1 of the fixture `exS5`. -/
theorem C6_witness :
    Inv exS5 ∧
    (((exS5.destroy exE1).1 = true ↔ (exS5.findRecord exE1).isSome) ∧
     ((exS5.destroy exE1).2).findRecord exE1 = none ∧
     ((exS5.destroy exE1).2).contains exE1 = false ∧
     (∀ sg, ((exS5.destroy exE1).2).find exE1 sg = none) ∧
     (∀ sg, ((exS5.destroy exE1).2).attached exE1 sg = false) ∧
     (∀ sgs, ((exS5.destroy exE1).2).all_attached exE1 sgs = false) ∧
     (∀ a ∈ ((exS5.destroy exE1).2).m_map, exE1 ∉ a.entities) ∧
     (exS5.findRecord exE1 = none → (exS5.destroy exE1).2 = exS5 ∧ (exS5.destroy exE1).1 = false)) :=
  ⟨by decide, C6_destroy_removes_entity exS5 exE1 (by decide)⟩

/-! ## Toward invariant preservation (claim C4) -/


theorem findRec_of_mem {recs : List (entity × record)} (hnd : (recs.map Prod.fst).Nodup)
    {x : entity} {rx : record} (h : (x, rx) ∈ recs) :
    registry.findRec recs x = some rx := by
  induction recs with
  | nil => cases h
  | cons p rest ih =>
    rw [List.map_cons, List.nodup_cons] at hnd
    rcases List.mem_cons.mp h with rfl | h'
    · unfold registry.findRec
      rw [List.find?_cons_of_pos _ (by simp)]
      rfl
    · unfold registry.findRec
      by_cases hp : p.1 = x
      · exfalso
        apply hnd.1
        rw [hp]
        exact List.mem_map_of_mem Prod.fst h'
      · rw [List.find?_cons_of_neg _ (by simp [hp])]
        exact ih hnd.2 h'

theorem updateArch_self {m : List archetype} {k : archetype_id} {a : archetype}
    (hnd : (m.map archetype.id).Nodup) (ha : lookupArch m k = some a) :
    updateArch m k (fun _ => a) = m := by
  unfold updateArch
  have : ∀ b ∈ m, (if b.id = k then a else b) = b := by
    intro b hb
    by_cases hbk : b.id = k
    · rw [if_pos hbk]
      exact (mem_id_eq m hnd (lookupArch_eq_some ha).1 hb
        ((lookupArch_eq_some ha).2.trans hbk.symm)).symm ▸ rfl
    · rw [if_neg hbk]
  calc m.map (fun b => if b.id = k then a else b) = m.map id := List.map_congr_left this
    _ = m := List.map_id m

theorem archWF_swap_back {a : archetype} (h : archWF a) (i : Nat) :
    archWF (a.swap_back i).2 := by
  rcases h with ⟨h1, h2, h3⟩
  refine ⟨h1, ?_, ?_⟩
  · show (a.columns.map _).map column.sign = a.id.types
    rw [List.map_map]
    rw [← h2]
    congr 1
  · intro c hc
    rcases List.mem_map.mp hc with ⟨c0, hc0, rfl⟩
    show (swapIdx c0.values i (a.entities.length - 1)).length =
      (swapIdx a.entities i (a.entities.length - 1)).length
    rw [swapIdx_length, swapIdx_length]
    exact h3 c0 hc0



/-- Everything the swap-with-last step guarantees. -/
theorem swap_step_spec (s : registry) (e : entity) (r : record) (k : archetype_id)
    (a : archetype) (hInv : Inv s) (hr : s.findRecord e = some r) (hrk : r.arch = some k)
    (ha : lookupArch s.m_map k = some a) :
    ∃ a₂ : archetype,
      lookupArch (s.send_to_back e).m_map k = some a₂ ∧
      a₂.id = k ∧ archWF a₂ ∧
      a₂.entities.length = a.entities.length ∧
      a₂.entities[a.entities.length - 1]? = some e ∧
      (s.send_to_back e).m_map = updateArch s.m_map k (fun _ => a₂) ∧
      (s.send_to_back e).m_records.map Prod.fst = s.m_records.map Prod.fst ∧
      (s.send_to_back e).findRecord e = some r ∧
      archesWF (s.send_to_back e) ∧
      (∀ p ∈ (s.send_to_back e).m_records, p.1 ≠ e → ∀ kk, p.2.arch = some kk →
        ∃ b, lookupArch (s.send_to_back e).m_map kk = some b ∧
          p.2.index < b.entities.length ∧ b.entities[p.2.index]? = some p.1) ∧
      (∀ b ∈ (s.send_to_back e).m_map, ∀ j x, b.entities[j]? = some x →
        ¬(b.id = k ∧ j = a.entities.length - 1) →
        ∃ r', (s.send_to_back e).findRecord x = some r' ∧ r'.arch = some b.id ∧ r'.index = j) ∧
      (∀ b ∈ (s.send_to_back e).m_map, ∀ j, b.entities[j]? = some e →
        b.id = k ∧ j = a.entities.length - 1) := by
  rcases (I2P_iff s).mp hInv.2.2.2.1 (e, r) (findRec_mem hr) k hrk with ⟨a1, ha1, hidx0, hent0⟩
  rw [ha] at ha1
  cases ha1
  have hidx : r.index < a.entities.length := hidx0
  have hent : a.entities[r.index]? = some e := hent0
  have huni := unique_position s hInv hr hrk
  have haid := (lookupArch_eq_some ha).2
  have hamem := (lookupArch_eq_some ha).1
  have hlen0 : 0 < a.entities.length := Nat.lt_of_le_of_lt (Nat.zero_le _) hidx
  have hstb : s.send_to_back e = (if a.is_last r.index then s else
      { s with m_map := updateArch s.m_map k (fun _ => (a.swap_back r.index).2),
               m_records := registry.setRecords s.m_records (a.swap_back r.index).1
                 (fun rd => { rd with index := r.index }) }) := by
    unfold registry.send_to_back
    simp only [hr, hrk, ha]
  by_cases hlast : a.is_last r.index
  · rw [hstb, if_pos hlast]
    have hrlast : r.index = a.entities.length - 1 := by
      have := (is_last_iff a r.index).mp hlast
      omega
    refine ⟨a, ha, haid, hInv.1 a hamem, rfl, by rw [← hrlast]; exact hent,
      (updateArch_self hInv.2.1 ha).symm, rfl, hr, hInv.1, ?_, ?_, ?_⟩
    · intro p hp _ kk hkk
      exact (I2P_iff s).mp hInv.2.2.2.1 p hp kk hkk
    · intro b hb j x hj _
      exact (backlinkP_iff s).mp hInv.2.2.2.2 b hb j x hj
    · intro b hb j hj
      have h2 := huni b hb j hj
      exact ⟨h2.1, by rw [h2.2, hrlast]⟩
  · rw [hstb, if_neg hlast]
    have hdlt : a.entities.length - 1 < a.entities.length := by omega
    have hrne : r.index ≠ a.entities.length - 1 := by
      intro hcon
      exact hlast ((is_last_iff a r.index).mpr (by omega))
    have hdsome0 : a.entities[a.entities.length - 1]? =
        some (a.entities.get ⟨a.entities.length - 1, hdlt⟩) :=
      List.getElem?_eq_some_iff.mpr ⟨hdlt, rfl⟩
    set d := a.entities.get ⟨a.entities.length - 1, hdlt⟩ with hd
    have hdsome : a.entities[a.entities.length - 1]? = some d := hdsome0
    have hsw1 : (a.swap_back r.index).1 = d := by
      show (a.entities[a.entities.length - 1]?).getD default = d
      rw [hdsome]
      rfl
    have hdne : d ≠ e := by
      intro hde
      rw [hde] at hdsome
      have h2 := (huni a hamem _ hdsome).2
      exact hrne h2.symm
    rcases (backlinkP_iff s).mp hInv.2.2.2.2 a hamem (a.entities.length - 1) d hdsome
      with ⟨rd, hrd, hrdk, hrdi⟩
    have hswid : (a.swap_back r.index).2.id = k := by rw [swap_back_id, haid]
    have hswlen : (a.swap_back r.index).2.entities.length = a.entities.length := by
      show (swapIdx a.entities r.index (a.entities.length - 1)).length = _
      exact swapIdx_length _ _ _
    have hswget : ∀ n, (a.swap_back r.index).2.entities[n]? =
        if n = a.entities.length - 1 then a.entities[r.index]?
        else if n = r.index then a.entities[a.entities.length - 1]?
        else a.entities[n]? := by
      intro n
      exact swapIdx_getElem? a.entities n hidx hdlt
    have hconst : ∀ b : archetype, b.id = k →
        ((fun _ : archetype => (a.swap_back r.index).2) b).id = b.id := by
      intro b hbk
      rw [hswid, hbk]
    have hlook : lookupArch (updateArch s.m_map k (fun _ => (a.swap_back r.index).2)) k =
        some (a.swap_back r.index).2 := by
      rw [lookupArch_updateArch _ _ _ _ hconst, if_pos rfl, ha]
      rfl
    have hfrd : registry.findRec s.m_records d = some rd := hrd
    have hfre : registry.findRec s.m_records e = some r := hr
    -- the new record table
    set RS := registry.setRecords s.m_records (a.swap_back r.index).1
      (fun rd => { rd with index := r.index }) with hRS
    have hRSd : registry.findRec RS d = some { rd with index := r.index } := by
      rw [hRS, hsw1, findRec_setRecords, if_pos rfl, hfrd]
      rfl
    have hRSne : ∀ x, x ≠ d → registry.findRec RS x = registry.findRec s.m_records x := by
      intro x hx
      rw [hRS, hsw1, findRec_setRecords, if_neg hx]
    have hRSe : registry.findRec RS e = some r := by
      rw [hRSne e (fun hce => hdne hce.symm)]
      exact hfre
    -- record uniqueness in s: a pair in the table is the found record
    have hpair : ∀ p ∈ s.m_records, registry.findRec s.m_records p.1 = some p.2 := by
      intro p hp
      exact findRec_of_mem hInv.2.2.1 hp
    refine ⟨(a.swap_back r.index).2, hlook, hswid,
      archWF_swap_back (hInv.1 a hamem) r.index, hswlen, ?_, rfl, ?_, hRSe, ?_, ?_, ?_, ?_⟩
    · -- e at the last slot
      rw [hswget, if_pos rfl]
      exact hent
    · -- keys preserved
      show RS.map Prod.fst = s.m_records.map Prod.fst
      rw [hRS, hsw1]
      exact setRecords_keys _ _ _
    · -- archesWF
      intro b' hb'
      rcases mem_updateArch hb' with ⟨b, hb, hbe⟩
      by_cases hbk : b.id = k
      · rw [if_pos hbk] at hbe
        rw [hbe]
        exact archWF_swap_back (hInv.1 a hamem) r.index
      · rw [if_neg hbk] at hbe
        rw [hbe]
        exact hInv.1 b hb
    · -- F1
      intro p hp hpe kk hkk
      have hp' : p ∈ RS := hp
      rw [hRS, hsw1] at hp'
      rcases List.mem_map.mp hp' with ⟨p0, hp0, hpe0⟩
      by_cases hp0d : p0.1 = d
      · rw [if_pos hp0d] at hpe0
        have hp1 : p.1 = d := by rw [← hpe0, hp0d]
        have hp02 : p0.2 = rd := by
          have h3 := hpair p0 hp0
          rw [hp0d, hfrd] at h3
          exact (Option.some.inj h3).symm
        have hp2 : p.2 = { rd with index := r.index } := by
          rw [← hpe0, hp02]
        have hkkk : kk = k := by
          rw [hp2] at hkk
          have h5 : rd.arch = some kk := hkk
          rw [hrdk] at h5
          exact (Option.some.inj h5).symm.trans haid
        subst hkkk
        have hip : p.2.index = r.index := by rw [hp2]
        refine ⟨(a.swap_back r.index).2, hlook, ?_, ?_⟩
        · rw [hip, hswlen]
          exact hidx
        · rw [hip, hswget, if_neg hrne, if_pos rfl, hdsome, hp1]
      · rw [if_neg hp0d] at hpe0
        subst hpe0
        have hI2 := (I2P_iff s).mp hInv.2.2.2.1 p0 hp0 kk hkk
        rcases hI2 with ⟨b, hbl, hbi, hbent⟩
        by_cases hkkk : kk = k
        · subst hkkk
          rw [ha] at hbl
          cases hbl
          refine ⟨(a.swap_back r.index).2, hlook, by rw [hswlen]; exact hbi, ?_⟩
          rw [hswget]
          by_cases h1 : p0.2.index = a.entities.length - 1
          · exfalso
            rw [h1, hdsome] at hbent
            exact hp0d (Option.some.inj hbent).symm
          · rw [if_neg h1]
            by_cases h2 : p0.2.index = r.index
            · exfalso
              rw [h2, hent] at hbent
              exact hpe (Option.some.inj hbent).symm
            · rw [if_neg h2]
              exact hbent
        · refine ⟨b, ?_, hbi, hbent⟩
          rw [lookupArch_updateArch _ _ _ _ hconst, if_neg hkkk]
          exact hbl
    · -- F2 : backlink except the last row of the k archetype
      intro b' hb' j x hj hnot
      rcases mem_updateArch hb' with ⟨b, hb, hbe⟩
      by_cases hbk : b.id = k
      · rw [if_pos hbk] at hbe
        rw [hbe] at hj hnot ⊢
        rw [hswget] at hj
        by_cases h1 : j = a.entities.length - 1
        · exact absurd ⟨hswid, h1⟩ hnot
        · rw [if_neg h1] at hj
          by_cases h2 : j = r.index
          · rw [if_pos h2, hdsome] at hj
            have hx : x = d := (Option.some.inj hj).symm
            subst hx
            refine ⟨{ rd with index := r.index }, hRSd, ?_, by rw [h2]⟩
            show rd.arch = some (a.swap_back r.index).2.id
            rw [hrdk, hswid, haid]
          · rw [if_neg h2] at hj
            rcases (backlinkP_iff s).mp hInv.2.2.2.2 a hamem j x hj with ⟨r', hr', hra', hri'⟩
            have hxd : x ≠ d := by
              intro hxd
              subst hxd
              have h4 := Option.some.inj (hrd.symm.trans hr')
              rw [← h4] at hri'
              rw [hrdi] at hri'
              exact h1 hri'.symm
            refine ⟨r', ?_, by rw [hra', hswid, haid], hri'⟩
            show registry.findRec RS x = some r'
            rw [hRSne x hxd]
            exact hr'
      · rw [if_neg hbk] at hbe
        subst hbe
        rcases (backlinkP_iff s).mp hInv.2.2.2.2 b' hb j x hj with ⟨r', hr', hra', hri'⟩
        have hxd : x ≠ d := by
          intro hxd
          subst hxd
          have h4 := Option.some.inj (hrd.symm.trans hr')
          rw [← h4, hrdk] at hra'
          exact hbk (((Option.some.inj hra').symm).trans haid)
        refine ⟨r', ?_, hra', hri'⟩
        show registry.findRec RS x = some r'
        rw [hRSne x hxd]
        exact hr'
    · -- F4 : e only at the last row of the k archetype
      intro b' hb' j hj
      rcases mem_updateArch hb' with ⟨b, hb, hbe⟩
      by_cases hbk : b.id = k
      · rw [if_pos hbk] at hbe
        rw [hbe] at hj ⊢
        rw [hswget] at hj
        by_cases h1 : j = a.entities.length - 1
        · exact ⟨hswid, h1⟩
        · rw [if_neg h1] at hj
          by_cases h2 : j = r.index
          · rw [if_pos h2, hdsome] at hj
            exact absurd (Option.some.inj hj) hdne
          · rw [if_neg h2] at hj
            exact absurd (huni a hamem j hj).2 h2
      · rw [if_neg hbk] at hbe
        subst hbe
        exact absurd (huni b' hb j hj).1 hbk



theorem getOrMake_of_isSome {m : List archetype} {k : archetype_id}
    (h : (lookupArch m k).isSome) : getOrMake m k = m := by
  unfold getOrMake
  rw [if_pos h]

theorem archWF_pop_back {a : archetype} (h : archWF a) : archWF a.pop_back := by
  rcases h with ⟨h1, h2, h3⟩
  refine ⟨h1, ?_, ?_⟩
  · show (a.columns.map _).map column.sign = a.id.types
    rw [List.map_map, ← h2]
    congr 1
  · intro c hc
    rcases List.mem_map.mp hc with ⟨c0, hc0, rfl⟩
    show c0.values.dropLast.length = a.entities.dropLast.length
    rw [List.length_dropLast, List.length_dropLast, h3 c0 hc0]

theorem archWF_migrate_src {a : archetype} (h : archWF a) (t? : Option archetype) :
    archWF (a.migrate_back t?).2.1 := by
  rcases h with ⟨h1, h2, h3⟩
  refine ⟨h1, ?_, ?_⟩
  · show (a.columns.map _).map column.sign = a.id.types
    rw [List.map_map, ← h2]
    congr 1
  · intro c hc
    rcases List.mem_map.mp hc with ⟨c0, hc0, rfl⟩
    show c0.values.dropLast.length = a.entities.dropLast.length
    rw [List.length_dropLast, List.length_dropLast, h3 c0 hc0]

theorem migrate_back_src_entities (a : archetype) (t? : Option archetype) :
    (a.migrate_back t?).2.1.entities = a.entities.dropLast := rfl

theorem migrate_back_fst (a : archetype) (t? : Option archetype) :
    (a.migrate_back t?).1 = a.entities.getLast?.getD default := rfl

theorem migrate_back_tgt_eq (a t : archetype) :
    (a.migrate_back (some t)).2.2 = some
      { t with
         entities := t.entities ++ [a.entities.getLast?.getD default],
         columns := t.columns.map (fun c =>
           match a.find c.sign with
           | some src =>
             match src.values.getLast? with
             | some v => { c with values := c.values ++ [v] }
             | none => c
           | none => c) } := rfl

/-- The migration function on target columns preserves each column's sign. -/
theorem migrate_tgt_cols_signs (a t : archetype) :
    (t.columns.map (fun c =>
      match a.find c.sign with
      | some src =>
        match src.values.getLast? with
        | some v => { c with values := c.values ++ [v] }
        | none => c
      | none => c)).map column.sign = t.columns.map column.sign := by
  rw [List.map_map]
  congr 1
  funext c
  simp only [Function.comp]
  cases hf : a.find c.sign with
  | none => simp only [hf]
  | some src =>
    cases hl : src.values.getLast? with
    | none => simp only [hf, hl]
    | some v => simp only [hf, hl]

/-- When every type of the target also lives in the (nonempty, well-formed)
source, migration fills every column of the target with one new element. -/
theorem migrate_tgt_cols_full {a t : archetype} (ha : archWF a) (hne : 0 < a.entities.length)
    (ht : archWF t) (hsub : ∀ sg ∈ t.id.types, sg ∈ a.id.types) :
    ∀ c ∈ t.columns,
      (match a.find c.sign with
       | some src =>
         match src.values.getLast? with
         | some v => { c with values := c.values ++ [v] }
         | none => c
       | none => c : column).values.length = t.entities.length + 1 := by
  intro c hc
  have hcm : c.sign ∈ t.id.types := by
    rw [← ht.2.1]
    exact List.mem_map_of_mem column.sign hc
  obtain ⟨src, hsrc, hsgn⟩ := find_isSome_of_sign_mem ha.2.1 (hsub _ hcm)
  have hsl : src.values.length = a.entities.length := ha.2.2 src (List.mem_of_find?_eq_some hsrc)
  have hnn : src.values ≠ [] := by
    intro hcon
    rw [hcon] at hsl
    simp at hsl
    omega
  obtain ⟨v, hv⟩ := Option.isSome_iff_exists.mp (by
    rw [List.getLast?_isSome]
    exact hnn)
  simp only [hsrc, hv]
  show (c.values ++ [v]).length = t.entities.length + 1
  rw [List.length_append, List.length_singleton, ht.2.2 c hc]

/-- A target column whose sign the source lacks is untouched by migration. -/
theorem migrate_tgt_col_missing {a : archetype} {c : column} (h : a.find c.sign = none) :
    (match a.find c.sign with
     | some src =>
       match src.values.getLast? with
       | some v => { c with values := c.values ++ [v] }
       | none => c
     | none => c : column) = c := by
  simp only [h]



theorem getElem?_concat_cases (l : List α) (y : α) (j : Nat) :
    (l ++ [y])[j]? = if j < l.length then l[j]?
      else if j = l.length then some y else none := by
  by_cases h1 : j < l.length
  · rw [if_pos h1, List.getElem?_append_left h1]
  · rw [if_neg h1]
    by_cases h2 : j = l.length
    · subst h2
      rw [if_pos rfl]
      exact List.getElem?_concat_length l y
    · rw [if_neg h2, List.getElem?_append_right (Nat.le_of_not_lt h1)]
      rw [List.getElem?_eq_none]
      simp only [List.length_singleton]
      omega

/-- Moving the last row of the `k` archetype (which holds `e`) to the back of
the `k'` archetype, and repointing `e`'s record at the new last row, preserves
the registry invariant.  `MF` is the final archetype map; `tF` the final
`k'` archetype. -/
theorem move_row_inv
    (s₁ : registry) (e : entity) (r : record) (k k' : archetype_id) (a₂ t tF : archetype)
    (MF : List archetype)
    (hkk' : ¬ k' = k)
    (hlook2 : lookupArch s₁.m_map k = some a₂)
    (ha2id : a₂.id = k) (ha2wf : archWF a₂)
    (hlaste : a₂.entities[a₂.entities.length - 1]? = some e)
    (hkeysA : archKeysNodup s₁) (hkeysR : recordKeysNodup s₁)
    (hfre : s₁.findRecord e = some r)
    (hawf : archesWF s₁)
    (hF1 : ∀ p ∈ s₁.m_records, p.1 ≠ e → ∀ kk, p.2.arch = some kk →
      ∃ b, lookupArch s₁.m_map kk = some b ∧ p.2.index < b.entities.length ∧
        b.entities[p.2.index]? = some p.1)
    (hF2 : ∀ b ∈ s₁.m_map, ∀ j x, b.entities[j]? = some x →
      ¬(b.id = k ∧ j = a₂.entities.length - 1) →
      ∃ r', s₁.findRecord x = some r' ∧ r'.arch = some b.id ∧ r'.index = j)
    (hF4 : ∀ b ∈ s₁.m_map, ∀ j, b.entities[j]? = some e →
      b.id = k ∧ j = a₂.entities.length - 1)
    (hlookt : lookupArch s₁.m_map k' = some t)
    (htFid : tF.id = k')
    (htFsigns : tF.columns.map column.sign = k'.types)
    (htFtypes : strictSorted k'.types = true)
    (htFlens : ∀ c ∈ tF.columns, c.values.length = t.entities.length + 1)
    (htFent : tF.entities = t.entities ++ [e])
    (hsrcF : lookupArch MF k = some ((a₂.migrate_back (some t)).2.1))
    (htFlook : lookupArch MF k' = some tF)
    (hMFne : ∀ kk, ¬ kk = k → ¬ kk = k' → lookupArch MF kk = lookupArch s₁.m_map kk)
    (hMFids : MF.map archetype.id = s₁.m_map.map archetype.id)
    (hMFmem : ∀ b ∈ MF, b = (a₂.migrate_back (some t)).2.1 ∨ b = tF ∨
      (b ∈ s₁.m_map ∧ ¬ b.id = k ∧ ¬ b.id = k')) :
    Inv { s₁ with m_map := MF,
                  m_records := registry.setRecords s₁.m_records e
                    (fun rd => { name := rd.name, arch := some k', index := t.entities.length }) } := by
  have htid := (lookupArch_eq_some hlookt).2
  have htmem := (lookupArch_eq_some hlookt).1
  have htwf : archWF t := hawf t htmem
  have hlen0 : 0 < a₂.entities.length := by
    by_contra hcon
    have hnone : a₂.entities[a₂.entities.length - 1]? = none :=
      List.getElem?_eq_none (by omega)
    rw [hnone] at hlaste
    exact Option.noConfusion hlaste
  have hsrcid : (a₂.migrate_back (some t)).2.1.id = a₂.id := migrate_back_src_id a₂ _
  have htFwf : archWF tF := by
    refine ⟨by rw [htFid]; exact htFtypes, by rw [htFid]; exact htFsigns, ?_⟩
    intro c hc
    rw [htFlens c hc, htFent, List.length_append, List.length_singleton]
  have htne : ¬ t.id = k := by rw [htid]; exact hkk'
  have hte : ∀ j : Nat, ¬ t.entities[j]? = some e := by
    intro j hcon
    exact htne (hF4 t htmem j hcon).1
  -- the final record table lookups
  have hRFe : registry.findRec (registry.setRecords s₁.m_records e
      (fun rd => { name := rd.name, arch := some k', index := t.entities.length })) e =
      some { name := r.name, arch := some k', index := t.entities.length } := by
    rw [findRec_setRecords, if_pos rfl]
    have hf : registry.findRec s₁.m_records e = some r := hfre
    rw [hf]
    rfl
  have hRFne : ∀ x, x ≠ e → registry.findRec (registry.setRecords s₁.m_records e
      (fun rd => { name := rd.name, arch := some k', index := t.entities.length })) x =
      registry.findRec s₁.m_records x := by
    intro x hx
    rw [findRec_setRecords, if_neg hx]
  refine ⟨?_, ?_, ?_, ?_, ?_⟩
  · -- archesWF
    intro b hb
    rcases hMFmem b hb with hb1 | hb1 | hb1
    · rw [hb1]
      exact archWF_migrate_src ha2wf _
    · rw [hb1]
      exact htFwf
    · exact hawf b hb1.1
  · -- archKeysNodup
    show (MF.map archetype.id).Nodup
    rw [hMFids]
    exact hkeysA
  · -- recordKeysNodup
    show ((registry.setRecords s₁.m_records e
      (fun rd => { name := rd.name, arch := some k', index := t.entities.length })).map Prod.fst).Nodup
    rw [setRecords_keys]
    exact hkeysR
  · -- I2P
    rw [I2P_iff]
    intro p hp kk hkk
    rcases List.mem_map.mp hp with ⟨p0, hp0, hpe0⟩
    by_cases hp0e : p0.1 = e
    · rw [if_pos hp0e] at hpe0
      have hp2 : p.2 = { name := p0.2.name, arch := some k', index := t.entities.length } := by
        rw [← hpe0]
      have hp1 : p.1 = e := by rw [← hpe0]; exact hp0e
      have hkkk : kk = k' := by
        rw [hp2] at hkk
        exact (Option.some.inj hkk).symm
      subst hkkk
      refine ⟨tF, htFlook, ?_, ?_⟩
      · rw [hp2]
        show t.entities.length < tF.entities.length
        rw [htFent, List.length_append, List.length_singleton]
        omega
      · rw [hp2, htFent, hp1]
        exact List.getElem?_concat_length t.entities e
    · rw [if_neg hp0e] at hpe0
      subst hpe0
      rcases hF1 p0 hp0 hp0e kk hkk with ⟨b, hbl, hbi, hbent⟩
      by_cases hkkk : kk = k
      · subst hkkk
        rw [hlook2] at hbl
        cases hbl
        have hine : p0.2.index ≠ a₂.entities.length - 1 := by
          intro hcon
          rw [hcon, hlaste] at hbent
          exact hp0e (Option.some.inj hbent).symm
        refine ⟨(a₂.migrate_back (some t)).2.1, hsrcF, ?_, ?_⟩
        · rw [migrate_back_src_entities, List.length_dropLast]
          omega
        · rw [migrate_back_src_entities, List.getElem?_dropLast, if_pos (by omega)]
          exact hbent
      · by_cases hkk'' : kk = k'
        · subst hkk''
          rw [hlookt] at hbl
          cases hbl
          refine ⟨tF, htFlook, ?_, ?_⟩
          · rw [htFent, List.length_append, List.length_singleton]
            omega
          · rw [htFent, getElem?_concat_cases, if_pos hbi]
            exact hbent
        · refine ⟨b, ?_, hbi, hbent⟩
          rw [hMFne kk hkkk hkk'']
          exact hbl
  · -- backlink
    rw [backlinkP_iff]
    intro b hb j x hj
    rcases hMFmem b hb with hb1 | hb1 | hb1
    · -- the shrunk source archetype
      rw [hb1] at hj ⊢
      rw [migrate_back_src_entities, List.getElem?_dropLast] at hj
      by_cases hjlt : j < a₂.entities.length - 1
      · rw [if_pos hjlt] at hj
        rcases hF2 a₂ (lookupArch_eq_some hlook2).1 j x hj (by omega) with ⟨r', hr', hra', hri'⟩
        have hxe : x ≠ e := by
          intro hxe
          subst hxe
          have := (hF4 a₂ (lookupArch_eq_some hlook2).1 j hj).2
          omega
        refine ⟨r', ?_, ?_, hri'⟩
        · show registry.findRec _ x = some r'
          rw [hRFne x hxe]
          exact hr'
        · rw [hra', hsrcid]
      · rw [if_neg hjlt] at hj
        exact Option.noConfusion hj
    · -- the grown target archetype
      rw [hb1] at hj ⊢
      rw [htFent, getElem?_concat_cases] at hj
      by_cases hjlt : j < t.entities.length
      · rw [if_pos hjlt] at hj
        rcases hF2 t htmem j x hj (fun hcon => htne hcon.1) with ⟨r', hr', hra', hri'⟩
        have hxe : x ≠ e := by
          intro hxe
          subst hxe
          exact hte j hj
        refine ⟨r', ?_, ?_, hri'⟩
        · show registry.findRec _ x = some r'
          rw [hRFne x hxe]
          exact hr'
        · rw [hra', htid, htFid]
      · rw [if_neg hjlt] at hj
        by_cases hjl : j = t.entities.length
        · rw [if_pos hjl] at hj
          have hx : x = e := (Option.some.inj hj).symm
          subst hx
          refine ⟨{ name := r.name, arch := some k', index := t.entities.length }, hRFe, ?_, hjl.symm⟩
          rw [htFid]
        · rw [if_neg hjl] at hj
          exact Option.noConfusion hj
    · -- untouched archetypes
      rcases hF2 b hb1.1 j x hj (fun hcon => hb1.2.1 hcon.1) with ⟨r', hr', hra', hri'⟩
      have hxe : x ≠ e := by
        intro hxe
        subst hxe
        exact hb1.2.1 (hF4 b hb1.1 j hj).1
      refine ⟨r', ?_, hra', hri'⟩
      show registry.findRec _ x = some r'
      rw [hRFne x hxe]
      exact hr'

/-! ## Claim C5 -/

theorem range_map_getD (l : List α) (d : α) :
    (List.range l.length).map (fun i => l[i]?.getD d) = l := by
  apply List.ext_getElem?
  intro n
  rw [List.getElem?_map]
  by_cases h : n < l.length
  · rw [List.getElem?_range h]
    have hn : l[n]? = some l[n] := List.getElem?_eq_some_iff.mpr ⟨h, rfl⟩
    simp [hn]
  · rw [List.getElem?_eq_none (l := l) (Nat.le_of_not_lt h),
      List.getElem?_eq_none (l := List.range l.length) (by simpa using Nat.le_of_not_lt h)]
    rfl

theorem atRow_fst_map (a : archetype) (req : List Sig) :
    ((List.range a.size).map (fun i => registry.atRow a req i)).map Prod.fst = a.entities := by
  rw [List.map_map]
  have hcomp : (Prod.fst ∘ fun i => registry.atRow a req i) =
      fun i => a.entities[i]?.getD default := rfl
  rw [hcomp]
  exact range_map_getD a.entities default

theorem view_foldl_eq (req excl : List Sig) (m : List archetype) :
    ∀ acc : List (entity × List Value),
    m.foldl (fun out a => if a.has_all req && !(a.has_any excl)
        then registry.append out req a else out) acc
      = acc ++ (m.filter (fun a => a.has_all req && !(a.has_any excl))).flatMap
          (fun a => (List.range a.size).map (fun i => registry.atRow a req i)) := by
  induction m with
  | nil => intro acc; simp
  | cons a rest ih =>
    intro acc
    rw [List.foldl_cons, List.filter_cons]
    by_cases h : (a.has_all req && !(a.has_any excl)) = true
    · rw [if_pos h, if_pos h, ih, List.flatMap_cons]
      unfold registry.append
      rw [List.append_assoc]
    · rw [if_neg h, if_neg h, ih]

theorem view_eq (s : registry) (req excl : List Sig) :
    s.view req excl =
      (s.m_map.filter (fun a => a.has_all req && !(a.has_any excl))).flatMap
        (fun a => (List.range a.size).map (fun i => registry.atRow a req i)) := by
  unfold registry.view
  rw [view_foldl_eq]
  rfl

theorem viewEntities_eq (s : registry) (req excl : List Sig) :
    (s.view req excl).map Prod.fst =
      (s.m_map.filter (fun a => a.has_all req && !(a.has_any excl))).flatMap
        archetype.entities := by
  rw [view_eq, List.map_flatMap]
  congr 1
  funext a
  exact atRow_fst_map a req



theorem mem_entities_record (s : registry) (hInv : Inv s) {a : archetype} {x : entity}
    (ha : a ∈ s.m_map) (hx : x ∈ a.entities) :
    ∃ r, s.findRecord x = some r ∧ r.arch = some a.id := by
  rcases List.mem_iff_getElem?.mp hx with ⟨i, hi⟩
  rcases (backlinkP_iff s).mp hInv.2.2.2.2 a ha i x hi with ⟨r, hr, hra, _⟩
  exact ⟨r, hr, hra⟩

theorem inv_entities_nodup (s : registry) (hInv : Inv s) {a : archetype} (ha : a ∈ s.m_map) :
    a.entities.Nodup := by
  rw [List.nodup_iff_injective_get]
  intro i j hij
  have hi : a.entities[i.1]? = some (a.entities.get i) :=
    List.getElem?_eq_some_iff.mpr ⟨i.2, rfl⟩
  have hj : a.entities[j.1]? = some (a.entities.get j) :=
    List.getElem?_eq_some_iff.mpr ⟨j.2, rfl⟩
  rcases (backlinkP_iff s).mp hInv.2.2.2.2 a ha i.1 _ hi with ⟨r, hr, hra, hri⟩
  rcases (backlinkP_iff s).mp hInv.2.2.2.2 a ha j.1 _ hj with ⟨r', hr', hra', hrj⟩
  rw [hij] at hr
  rw [hr] at hr'
  injection hr' with hrr
  apply Fin.ext
  rw [← hri, ← hrj, hrr]

theorem inv_pairwise_disjoint (s : registry) (hInv : Inv s) :
    s.m_map.Pairwise (fun a b => a.entities.Disjoint b.entities) := by
  rw [List.pairwise_iff_getElem]
  intro i j hi hj hij
  intro x hxa hxb
  obtain ⟨r, hr, hra⟩ := mem_entities_record s hInv (s.m_map.getElem_mem hi) hxa
  obtain ⟨r', hr', hrb⟩ := mem_entities_record s hInv (s.m_map.getElem_mem hj) hxb
  rw [hr] at hr'
  injection hr' with hrr
  rw [hrr, hrb] at hra
  injection hra with hids
  have hnd := hInv.2.1
  unfold archKeysNodup at hnd
  rw [List.nodup_iff_injective_get] at hnd
  have h1 : (s.m_map.map archetype.id).get ⟨i, by simpa using hi⟩ =
      (s.m_map.map archetype.id).get ⟨j, by simpa using hj⟩ := by
    simp only [List.get_eq_getElem, List.getElem_map]
    exact hids.symm
  have := hnd h1
  simp only [Fin.mk.injEq] at this
  exact absurd this (Nat.ne_of_lt hij)

theorem componentsOf_eq (s : registry) (hInv : Inv s) {x : entity} {r : record} {a : archetype}
    (hr : s.findRecord x = some r) (hra : r.arch = some a.id) (ha : a ∈ s.m_map) :
    s.componentsOf x = a.id.types := by
  unfold registry.componentsOf
  simp [hr, hra, lookupArch_of_mem hInv.2.1 ha]



/-- C5 (amended): for every registry state satisfying the invariant and type
lists Required… (nonempty) and Excluded…, `view` yields exactly the entities
whose attached component set is a superset of {Required…} and disjoint from
{Excluded…}, each exactly once; an archetype is included iff it has all
required signatures and none of the excluded ones, and within each included
archetype rows are appended in ascending order 0..size (the yielded entity
sequence is the concatenation of the included archetypes' row-ordered entity
lists). -/
theorem C5_view_yields_exactly_matching_entities (s : registry) (req excl : List Sig) (hInv : Inv s) (hne : req ≠ []) :
    ((s.view req excl).map Prod.fst).Nodup ∧
    (∀ e : entity, e ∈ (s.view req excl).map Prod.fst ↔
      ((∀ sg ∈ req, sg ∈ s.componentsOf e) ∧ (∀ sg ∈ excl, sg ∉ s.componentsOf e))) ∧
    ((s.view req excl).map Prod.fst =
      (s.m_map.filter (fun a => a.has_all req && !(a.has_any excl))).flatMap
        archetype.entities) := by
  have hveq := viewEntities_eq s req excl
  refine ⟨?_, ?_, hveq⟩
  · rw [hveq, List.nodup_flatMap]
    constructor
    · intro a haf
      exact inv_entities_nodup s hInv (List.mem_of_mem_filter haf)
    · exact (inv_pairwise_disjoint s hInv).sublist (List.filter_sublist _)
  · intro e
    rw [hveq, List.mem_flatMap]
    constructor
    · rintro ⟨a, haf, hea⟩
      have ham := List.mem_of_mem_filter haf
      have hcond := List.of_mem_filter haf
      obtain ⟨r, hr, hra⟩ := mem_entities_record s hInv ham hea
      have hcomp := componentsOf_eq s hInv hr hra ham
      rw [hcomp]
      rw [Bool.and_eq_true, Bool.not_eq_true'] at hcond
      constructor
      · intro sg hsg
        have hall := hcond.1
        unfold archetype.has_all at hall
        rw [List.all_eq_true] at hall
        simpa [List.elem_iff] using hall sg hsg
      · intro sg hsg hmem
        have hany := hcond.2
        unfold archetype.has_any at hany
        rw [List.any_eq_false] at hany
        exact hany sg hsg (by simpa [List.elem_iff] using hmem)
    · rintro ⟨hreq, hexcl⟩
      obtain ⟨sg0, hsg0⟩ := List.exists_mem_of_ne_nil req hne
      have hc0 := hreq sg0 hsg0
      cases hrec : s.findRecord e with
      | none =>
        unfold registry.componentsOf at hc0
        rw [hrec] at hc0
        cases hc0
      | some r =>
      cases hrk : r.arch with
      | none =>
        unfold registry.componentsOf at hc0
        rw [hrec] at hc0
        simp only [hrk] at hc0
        cases hc0
      | some k =>
      cases hla : lookupArch s.m_map k with
      | none =>
        unfold registry.componentsOf at hc0
        rw [hrec] at hc0
        simp only [hrk, hla] at hc0
        cases hc0
      | some a =>
      have hcomp : s.componentsOf e = a.id.types := by
        unfold registry.componentsOf
        rw [hrec]
        simp [hrk, hla]
      have hmemA := (lookupArch_eq_some hla).1
      have hI2 := (I2P_iff s).mp hInv.2.2.2.1 (e, r) (findRec_mem hrec) k hrk
      rcases hI2 with ⟨a', ha', hidx, hent⟩
      rw [hla] at ha'
      cases ha'
      have hea : e ∈ a.entities := List.mem_iff_getElem?.mpr ⟨r.index, hent⟩
      refine ⟨a, List.mem_filter.mpr ⟨hmemA, ?_⟩, hea⟩
      rw [Bool.and_eq_true, Bool.not_eq_true']
      constructor
      · unfold archetype.has_all
        rw [List.all_eq_true]
        intro sg hsg
        have hmm := hreq sg hsg
        rw [hcomp] at hmm
        simpa [List.elem_iff] using hmm
      · unfold archetype.has_any
        rw [List.any_eq_false]
        intro sg hsg
        have hmm := hexcl sg hsg
        rw [hcomp] at hmm
        simpa [List.elem_iff] using hmm

/-- C5: counterexample to the claim as stated, at the empty Required… list.
In fixture `exS1`, entity 1 exists but has no components: its attached
component set is a superset of {} and disjoint from {}, so the claim says
`view<>(exclude<>)` must yield it; the code yields only rows of stored
archetypes, and an entity with no components is in none, so it is absent. -/
theorem C5_counterexample :
    (∀ sg ∈ ([] : List Sig), sg ∈ exS1.componentsOf exE1) ∧
    (∀ sg ∈ ([] : List Sig), sg ∉ exS1.componentsOf exE1) ∧
    exS1.contains exE1 = true ∧
    exE1 ∉ (exS1.view [] []).map Prod.fst := by decide

/-- C5 witness: the amended theorem applied to the fixture `exS5` with
Required = {0} and Excluded = {5} (it selects exactly entity 2). -/
theorem C5_witness :
    (Inv exS5 ∧ ([0] : List Sig) ≠ []) ∧
    (((exS5.view [0] [5]).map Prod.fst).Nodup ∧
     (∀ e : entity, e ∈ (exS5.view [0] [5]).map Prod.fst ↔
       ((∀ sg ∈ ([0] : List Sig), sg ∈ exS5.componentsOf e) ∧
        (∀ sg ∈ ([5] : List Sig), sg ∉ exS5.componentsOf e))) ∧
     ((exS5.view [0] [5]).map Prod.fst =
       (exS5.m_map.filter (fun a => a.has_all [0] && !(a.has_any [5]))).flatMap
         archetype.entities)) :=
  ⟨⟨by decide, by decide⟩,
   C5_view_yields_exactly_matching_entities exS5 [0] [5] (by decide) (by decide)⟩


/-! ## Claim C9 -/

/-- C9: calling attach with a null entity (id == 0) or an entity whose
registry_id differs from the registry's id, or calling get<T> on an entity
that does not have T attached, triggers the fatal assertion (modelled: the
checked operation returns none); under the stated preconditions (non-null
entity, matching registry_id, and for get<T> the component attached) the
assertion branches in attach and get are unreachable (the checked operations
succeed). -/
theorem C9_assert_preconditions (s : registry) (e : entity) (sg : Sig) (v : Value)
    (hInv : Inv s) :
    ((s.attachChecked e sg v).isSome ↔ (e.id > null_id ∧ e.registry_id = s.m_id)) ∧
    ((s.getChecked e sg).isSome ↔
      (e.id > null_id ∧ e.registry_id = s.m_id ∧ s.attached e sg = true)) := by
  constructor
  · unfold registry.attachChecked
    by_cases h : e.id > null_id ∧ e.registry_id = s.m_id <;> simp [h]
  · unfold registry.getChecked
    by_cases h : e.id > null_id ∧ e.registry_id = s.m_id
    · rw [if_pos h, (queryAgree s e sg hInv).1]
      simp [h.1, h.2]
    · rw [if_neg h]
      simp only [Option.isSome_none, Bool.false_eq_true, false_iff]
      intro hcon
      exact h ⟨hcon.1, hcon.2.1⟩

/-- C9 witness: the checked attach and get evaluated on the fixture at
entity 1 (which has component 0 attached). -/
theorem C9_witness :
    Inv exS2 ∧
    (((exS2.attachChecked exE1 0 5).isSome ↔
       (exE1.id > null_id ∧ exE1.registry_id = exS2.m_id)) ∧
     ((exS2.getChecked exE1 0).isSome ↔
       (exE1.id > null_id ∧ exE1.registry_id = exS2.m_id ∧ exS2.attached exE1 0 = true))) :=
  ⟨by decide, C9_assert_preconditions exS2 exE1 0 5 (by decide)⟩

/-! ## Claim C10 -/

/-- C10: for every entity handle `e` with `e.id > 0` and `e.registry_id`
equal to the registry's id that has no record, `attach<T>(e, v)` silently
creates a fresh record for `e` (`get_or_make`, registry.hpp lines 279-286):
afterwards `contains e` is true, `size` has increased by one, `get/find<T>(e)`
yields `v`, and `name e` returns the empty string (the fresh record's name is
default-constructed, not auto-generated). -/
theorem C10_attach_unknown_record_creates
    (s : registry) (e : entity) (sg : Sig) (v : Value)
    (hWF : archesWF s)
    (hid : e.id > null_id)
    (hrid : e.registry_id = s.m_id)
    (hno : s.findRecord e = none) :
    (s.attach e sg v).contains e = true ∧
    (s.attach e sg v).size = s.size + 1 ∧
    (s.attach e sg v).find e sg = some v ∧
    (s.attach e sg v).name e = "" := by
  have hfr : registry.findRec s.m_records e = none := hno
  have h1 := findRec_append_self s.m_records e ⟨"", none, 0⟩ hno
  unfold registry.attach registry.get_or_make registry.pushVal
  simp only [registry.findRecord, hfr, Option.isSome_none, Bool.false_eq_true, if_false, h1]
  set K : archetype_id := ⟨canon [sg]⟩ with hKdef
  have hsgK : sg ∈ K.types := mem_canon.mpr (List.mem_singleton.mpr rfl)
  have ha0 : lookupArch (getOrMake s.m_map K) K =
      some ((lookupArch s.m_map K).getD (archetype.create K)) :=
    lookupArch_getOrMake_self s.m_map K
  have hpush : lookupArch (updateArch (getOrMake s.m_map K) K (fun a => a.push_back e)) K =
      some (((lookupArch s.m_map K).getD (archetype.create K)).push_back e) := by
    rw [lookupArch_updateArch _ _ _ _ (fun a _ => push_back_id a e), if_pos rfl, ha0]
    rfl
  have hM : lookupArch (updateArch (updateArch (getOrMake s.m_map K) K (fun a => a.push_back e))
        K (fun a => a.emplace_back sg v)) K =
      some ((((lookupArch s.m_map K).getD (archetype.create K)).push_back e).emplace_back sg v) := by
    rw [lookupArch_updateArch _ _ _ _ (fun a _ => emplace_back_id a sg v), if_pos rfl, hpush]
    rfl
  obtain ⟨c0, hc0, hc0sign⟩ :
      ∃ c, ((lookupArch s.m_map K).getD (archetype.create K)).find sg = some c ∧ c.sign = sg := by
    cases hl : lookupArch s.m_map K with
    | none =>
      simp only [Option.getD_none]
      exact ⟨⟨sg, []⟩, find_create hsgK, rfl⟩
    | some a00 =>
      simp only [Option.getD_some]
      have hmem := lookupArch_eq_some hl
      exact find_isSome_of_sign_mem (hWF a00 hmem.1).2.1 (hmem.2 ▸ hsgK)
  have hfindA : ((((lookupArch s.m_map K).getD (archetype.create K)).push_back e).emplace_back
      sg v).find sg = some { c0 with values := c0.values ++ [v] } := by
    rw [find_emplace_back, find_push_back, hc0]
    rfl
  have hlen : ((((lookupArch s.m_map K).getD (archetype.create K)).push_back e).emplace_back
      sg v).colLen sg = c0.values.length + 1 := by
    unfold archetype.colLen
    rw [hfindA]
    simp
  rw [hM]
  simp only [hlen]
  have hrec2 : registry.findRec
      (registry.setRecords
        (registry.setRecords (s.m_records ++ [(e, { name := "", arch := none, index := 0 })]) e
          (fun rd => { rd with arch := some K }))
        e (fun rd => { rd with index := c0.values.length + 1 - 1 })) e =
      some { name := "", arch := some K, index := c0.values.length } := by
    rw [findRec_setRecords, if_pos rfl, findRec_setRecords, if_pos rfl, h1]
    simp
  refine ⟨?_, ?_, ?_, ?_⟩
  · simp only [registry.contains, registry.findRecord, hrec2, Option.isSome_some]
  · simp only [registry.size, setRecords_length, List.length_append, List.length_singleton]
  · simp only [registry.find, registry.findRecord, hrec2, hM, hfindA]
    exact List.getElem?_concat_length c0.values v
  · simp only [registry.name, registry.findRecord, hrec2]

/-- C10 witness: attaching component 3 with value 9 to the unknown handle
`{id := 9, registry_id := 1}` in the fixture `exS2`. -/
theorem C10_witness :
    (archesWF exS2 ∧ (⟨9, 1⟩ : entity).id > null_id ∧
     (⟨9, 1⟩ : entity).registry_id = exS2.m_id ∧ exS2.findRecord ⟨9, 1⟩ = none) ∧
    ((exS2.attach ⟨9, 1⟩ 3 9).contains ⟨9, 1⟩ = true ∧
     (exS2.attach ⟨9, 1⟩ 3 9).size = exS2.size + 1 ∧
     (exS2.attach ⟨9, 1⟩ 3 9).find ⟨9, 1⟩ 3 = some 9 ∧
     (exS2.attach ⟨9, 1⟩ 3 9).name ⟨9, 1⟩ = "") :=
  ⟨⟨by decide, by decide, by decide, by decide⟩,
   C10_attach_unknown_record_creates exS2 ⟨9, 1⟩ 3 9 (by decide) (by decide) (by decide)
     (by decide)⟩

/-! ## Claim C8 -/

/-- C8: `clear` removes all records and all archetypes (`size` becomes 0,
the archetype map becomes empty, and every entity becomes unknown) but leaves
the registry's id and the monotonic entity-id counter unchanged; `make_entity`
after a `clear` issues `m_next_id + 1`, exactly as it would have without the
clear, and every `make_entity` advances the counter, so handles are never
reused within the registry instance. -/
theorem C8_clear_preserves_counters (s : registry) :
    s.clear.size = 0 ∧ s.clear.m_map = [] ∧
    (∀ e, s.clear.contains e = false) ∧
    s.clear.m_id = s.m_id ∧ s.clear.m_next_id = s.m_next_id ∧
    (∀ nm sigs, ((s.clear.make_entity nm sigs).1).id = s.m_next_id + 1 ∧
      ((s.clear.make_entity nm sigs).2).m_next_id = s.m_next_id + 1) ∧
    (∀ nm sigs, ((s.make_entity nm sigs).1).id = s.m_next_id + 1 ∧
      ((s.make_entity nm sigs).2).m_next_id = s.m_next_id + 1) := by
  refine ⟨rfl, rfl, fun e => rfl, rfl, rfl, fun nm sigs => ⟨?_, ?_⟩, fun nm sigs => ⟨?_, ?_⟩⟩
  · rw [make_entity_fst]
    rfl
  · rw [make_entity_m_next_id]
    rfl
  · rw [make_entity_fst]
  · rw [make_entity_m_next_id]

end Dens

namespace Dens

/-- Popping the last row of the `k` archetype (which holds `e`) and resetting
`e`'s record preserves the registry invariant (the single-type branch of
`do_detach`). -/
theorem pop_row_inv
    (s₁ : registry) (e : entity) (k : archetype_id) (a₂ : archetype)
    (hlook2 : lookupArch s₁.m_map k = some a₂)
    (ha2wf : archWF a₂)
    (hlaste : a₂.entities[a₂.entities.length - 1]? = some e)
    (hkeysA : archKeysNodup s₁) (hkeysR : recordKeysNodup s₁)
    (hawf : archesWF s₁)
    (hF1 : ∀ p ∈ s₁.m_records, p.1 ≠ e → ∀ kk, p.2.arch = some kk →
      ∃ b, lookupArch s₁.m_map kk = some b ∧ p.2.index < b.entities.length ∧
        b.entities[p.2.index]? = some p.1)
    (hF2 : ∀ b ∈ s₁.m_map, ∀ j x, b.entities[j]? = some x →
      ¬(b.id = k ∧ j = a₂.entities.length - 1) →
      ∃ r', s₁.findRecord x = some r' ∧ r'.arch = some b.id ∧ r'.index = j)
    (hF4 : ∀ b ∈ s₁.m_map, ∀ j, b.entities[j]? = some e →
      b.id = k ∧ j = a₂.entities.length - 1) :
    Inv { s₁ with
       m_map := updateArch s₁.m_map k (fun a1 => a1.pop_back),
       m_records := registry.setRecords s₁.m_records e
         (fun _ => { name := "", arch := none, index := 0 }) } := by
  have ha2id := (lookupArch_eq_some hlook2).2
  have hfid : ∀ b : archetype, b.id = k → b.pop_back.id = b.id := fun b _ => pop_back_id b
  have hlookP : lookupArch (updateArch s₁.m_map k (fun a1 => a1.pop_back)) k =
      some a₂.pop_back := by
    rw [lookupArch_updateArch s₁.m_map k k _ hfid, if_pos rfl, hlook2]
    rfl
  have hlookNe : ∀ kk, kk ≠ k →
      lookupArch (updateArch s₁.m_map k (fun a1 => a1.pop_back)) kk =
      lookupArch s₁.m_map kk := by
    intro kk hkk
    rw [lookupArch_updateArch s₁.m_map k kk _ hfid, if_neg hkk]
  have hRFne : ∀ x, x ≠ e → registry.findRec (registry.setRecords s₁.m_records e
      (fun _ => { name := "", arch := none, index := 0 })) x =
      registry.findRec s₁.m_records x := by
    intro x hx
    rw [findRec_setRecords, if_neg hx]
  refine ⟨?_, ?_, ?_, ?_, ?_⟩
  · -- archesWF
    intro b hb
    rcases mem_updateArch hb with ⟨b0, hb0, hbe⟩
    by_cases hbk : b0.id = k
    · rw [hbe, if_pos hbk]
      exact archWF_pop_back (hawf b0 hb0)
    · rw [hbe, if_neg hbk]
      exact hawf b0 hb0
  · -- archKeysNodup
    show ((updateArch s₁.m_map k _).map archetype.id).Nodup
    rw [updateArch_ids s₁.m_map k _ hfid]
    exact hkeysA
  · -- recordKeysNodup
    show ((registry.setRecords s₁.m_records e
      (fun _ => { name := "", arch := none, index := 0 })).map Prod.fst).Nodup
    rw [setRecords_keys]
    exact hkeysR
  · -- I2P
    rw [I2P_iff]
    intro p hp kk hkk
    rcases List.mem_map.mp hp with ⟨p0, hp0, hpe0⟩
    by_cases hp0e : p0.1 = e
    · rw [if_pos hp0e] at hpe0
      rw [← hpe0] at hkk
      exact Option.noConfusion hkk
    · rw [if_neg hp0e] at hpe0
      subst hpe0
      rcases hF1 p0 hp0 hp0e kk hkk with ⟨b, hbl, hbi, hbent⟩
      by_cases hkkk : kk = k
      · subst hkkk
        rw [hlook2] at hbl
        cases hbl
        have hine : p0.2.index ≠ a₂.entities.length - 1 := by
          intro hcon
          rw [hcon, hlaste] at hbent
          exact hp0e (Option.some.inj hbent).symm
        refine ⟨a₂.pop_back, hlookP, ?_, ?_⟩
        · show p0.2.index < a₂.entities.dropLast.length
          rw [List.length_dropLast]
          omega
        · show a₂.entities.dropLast[p0.2.index]? = some p0.1
          rw [List.getElem?_dropLast, if_pos (by omega)]
          exact hbent
      · refine ⟨b, ?_, hbi, hbent⟩
        rw [hlookNe kk hkkk]
        exact hbl
  · -- backlink
    rw [backlinkP_iff]
    intro b hb j x hj
    rcases mem_updateArch hb with ⟨b0, hb0, hbe⟩
    by_cases hbk : b0.id = k
    · rw [if_pos hbk] at hbe
      have hb0a : b0 = a₂ :=
        mem_id_eq s₁.m_map hkeysA hb0 (lookupArch_eq_some hlook2).1
          (hbk.trans ha2id.symm)
      rw [hb0a] at hbe
      rw [hbe] at hj ⊢
      have hj' : a₂.entities.dropLast[j]? = some x := hj
      rw [List.getElem?_dropLast] at hj'
      by_cases hjlt : j < a₂.entities.length - 1
      · rw [if_pos hjlt] at hj'
        rcases hF2 a₂ (lookupArch_eq_some hlook2).1 j x hj' (by omega) with ⟨r', hr', hra', hri'⟩
        have hxe : x ≠ e := by
          intro hxe
          subst hxe
          have := (hF4 a₂ (lookupArch_eq_some hlook2).1 j hj').2
          omega
        refine ⟨r', ?_, ?_, hri'⟩
        · show registry.findRec _ x = some r'
          rw [hRFne x hxe]
          exact hr'
        · rw [hra']
          rfl
      · rw [if_neg hjlt] at hj'
        exact Option.noConfusion hj'
    · rw [if_neg hbk] at hbe
      rw [hbe] at hj ⊢
      rcases hF2 b0 hb0 j x hj (fun hcon => hbk hcon.1) with ⟨r', hr', hra', hri'⟩
      have hxe : x ≠ e := by
        intro hxe
        subst hxe
        exact hbk (hF4 b0 hb0 j hj).1
      refine ⟨r', ?_, hra', hri'⟩
      show registry.findRec _ x = some r'
      rw [hRFne x hxe]
      exact hr'

end Dens

namespace Dens

/-- `do_detach` preserves the registry invariant whenever its internal
assertion would not fire. -/
theorem do_detach_inv (s : registry) (e : entity) (sg : Sig) (hInv : Inv s)
    (hok : detachAssertB s e sg = true) :
    Inv (s.do_detach e sg).2 := by
  by_cases hrid : e.registry_id ≠ s.m_id
  · unfold registry.do_detach
    rw [if_pos hrid]
    exact hInv
  cases hr : s.findRecord e with
  | none =>
    unfold registry.do_detach
    rw [if_neg hrid]
    simp only [hr]
    exact hInv
  | some r =>
  cases hrk : r.arch with
  | none =>
    unfold registry.do_detach
    rw [if_neg hrid]
    simp only [hr, hrk]
    exact hInv
  | some k =>
  cases ha : lookupArch s.m_map k with
  | none =>
    unfold registry.do_detach
    rw [if_neg hrid]
    simp only [hr, hrk, ha]
    exact hInv
  | some a =>
  obtain ⟨a₂, hlook2, ha2id, ha2wf, ha2len, ha2last, hmapform, hkeys2, hfre2, hawf2, hF1, hF2, hF4⟩ :=
    swap_step_spec s e r k a hInv hr hrk ha
  rw [← ha2len] at ha2last hF2 hF4
  have hlen0 : 0 < a₂.entities.length := by
    by_contra hcon
    have hnone : a₂.entities[a₂.entities.length - 1]? = none :=
      List.getElem?_eq_none (by omega)
    rw [hnone] at ha2last
    exact Option.noConfusion ha2last
  have hkeysA1 : archKeysNodup (s.send_to_back e) := by
    show ((s.send_to_back e).m_map.map archetype.id).Nodup
    rw [hmapform, updateArch_ids s.m_map k (fun _ => a₂) (fun b hb => by rw [ha2id, hb])]
    exact hInv.2.1
  have hkeysR1 : recordKeysNodup (s.send_to_back e) := by
    show ((s.send_to_back e).m_records.map Prod.fst).Nodup
    rw [hkeys2]
    exact hInv.2.2.1
  have hksort : strictSorted k.types = true := by
    have h1 := ha2wf.1
    rw [ha2id] at h1
    exact h1
  have hstb : (if a.is_last r.index then s else
      { s with m_map := updateArch s.m_map k (fun _ => (a.swap_back r.index).2),
               m_records := registry.setRecords s.m_records (a.swap_back r.index).1
                 (fun rd => { rd with index := r.index }) }) = s.send_to_back e := by
    unfold registry.send_to_back
    simp only [hr, hrk, ha]
  by_cases hone : k.types.length = 1
  · -- single-type branch: pop the row and reset the record
    have heq : (s.do_detach e sg).2 =
        { s.send_to_back e with
           m_map := updateArch (s.send_to_back e).m_map k (fun a1 => a1.pop_back),
           m_records := registry.setRecords (s.send_to_back e).m_records e
             (fun _ => { name := "", arch := none, index := 0 }) } := by
      unfold registry.do_detach
      rw [if_neg hrid]
      simp only [hr, hrk, ha]
      rw [hstb, if_pos hone]
    rw [heq]
    exact pop_row_inv (s.send_to_back e) e k a₂ hlook2 ha2wf ha2last hkeysA1 hkeysR1
      hawf2 hF1 hF2 hF4
  · -- multi-type branch: migrate the row to the archetype without sg
    have hmem : sg ∈ k.types := by
      unfold detachAssertB at hok
      simp only [hr, hrk] at hok
      rw [if_neg hone] at hok
      simpa using hok
    have hk'ne : ¬ (k.make sg) = k := by
      intro hcon
      exact filter_ne_of_mem hmem (congrArg archetype_id.types hcon)
    have hk'sort : strictSorted (k.make sg).types = true := strictSorted_filter _ hksort
    have hk'sub : ∀ x ∈ (k.make sg).types, x ∈ k.types :=
      fun x hx => List.mem_of_mem_filter hx
    have hl2k : lookupArch (getOrMake (s.send_to_back e).m_map (k.make sg)) k = some a₂ := by
      rw [lookupArch_getOrMake_ne _ _ _ (fun hcon => hk'ne hcon.symm)]
      exact hlook2
    obtain ⟨t, hlt⟩ : ∃ t,
        lookupArch (getOrMake (s.send_to_back e).m_map (k.make sg)) (k.make sg) = some t :=
      ⟨_, lookupArch_getOrMake_self _ _⟩
    have htid : t.id = k.make sg := (lookupArch_eq_some hlt).2
    have hawf3 : ∀ b ∈ getOrMake (s.send_to_back e).m_map (k.make sg), archWF b := by
      intro b hb
      rcases mem_getOrMake hb with hb1 | hb1
      · exact hawf2 b hb1
      · rw [hb1]
        exact archWF_create hk'sort
    have htwf : archWF t := hawf3 t (lookupArch_eq_some hlt).1
    have hkeysA2 : ((getOrMake (s.send_to_back e).m_map (k.make sg)).map archetype.id).Nodup := by
      rw [getOrMake_ids]
      by_cases hs : (lookupArch (s.send_to_back e).m_map (k.make sg)).isSome
      · rw [if_pos hs]
        exact hkeysA1
      · rw [if_neg hs]
        rw [List.nodup_append]
        refine ⟨hkeysA1, List.nodup_singleton _, ?_⟩
        intro y hy hy'
        rw [List.mem_singleton] at hy'
        subst hy'
        exact hs (lookupArch_isSome_iff.mpr hy)
    -- transported row/record facts for the getOrMake state
    have hF1b : ∀ p ∈ (s.send_to_back e).m_records, p.1 ≠ e → ∀ kk, p.2.arch = some kk →
        ∃ b, lookupArch (getOrMake (s.send_to_back e).m_map (k.make sg)) kk = some b ∧
          p.2.index < b.entities.length ∧ b.entities[p.2.index]? = some p.1 := by
      intro p hp hpe kk hkk
      rcases hF1 p hp hpe kk hkk with ⟨b, hb, h1, h2⟩
      refine ⟨b, ?_, h1, h2⟩
      by_cases hkkk : kk = k.make sg
      · subst hkkk
        rw [lookupArch_getOrMake_self, hb]
        rfl
      · rw [lookupArch_getOrMake_ne _ _ _ hkkk]
        exact hb
    have hcreate_none : ∀ (j : Nat) (x : entity),
        ¬ (archetype.create (k.make sg)).entities[j]? = some x := by
      intro j x hcon
      have : ([] : List entity)[j]? = some x := hcon
      rw [List.getElem?_nil] at this
      exact Option.noConfusion this
    have hF2b : ∀ b ∈ getOrMake (s.send_to_back e).m_map (k.make sg), ∀ j x,
        b.entities[j]? = some x → ¬(b.id = k ∧ j = a₂.entities.length - 1) →
        ∃ r', (s.send_to_back e).findRecord x = some r' ∧ r'.arch = some b.id ∧ r'.index = j := by
      intro b hb j x hj hne
      rcases mem_getOrMake hb with hb1 | hb1
      · exact hF2 b hb1 j x hj hne
      · rw [hb1] at hj
        exact absurd hj (hcreate_none j x)
    have hF4b : ∀ b ∈ getOrMake (s.send_to_back e).m_map (k.make sg), ∀ j : Nat,
        b.entities[j]? = some e → b.id = k ∧ j = a₂.entities.length - 1 := by
      intro b hb j hj
      rcases mem_getOrMake hb with hb1 | hb1
      · exact hF4 b hb1 j hj
      · rw [hb1] at hj
        exact absurd hj (hcreate_none j e)
    -- the migrated entity is e
    have hme : a₂.entities.getLast?.getD default = e := by
      rw [List.getLast?_eq_getElem?, ha2last]
      rfl
    -- the migrated target archetype
    obtain ⟨t1, ht1⟩ : ∃ t1, (a₂.migrate_back (some t)).2.2 = some t1 :=
      ⟨_, migrate_back_tgt_eq a₂ t⟩
    have ht1eq : t1 = { t with
        entities := t.entities ++ [a₂.entities.getLast?.getD default],
        columns := t.columns.map (fun c =>
          match a₂.find c.sign with
          | some src =>
            match src.values.getLast? with
            | some v => { c with values := c.values ++ [v] }
            | none => c
          | none => c) } :=
      Option.some.inj (ht1.symm.trans (migrate_back_tgt_eq a₂ t))
    have htFid : t1.id = k.make sg := by
      rw [ht1eq]
      exact htid
    have htFsigns : t1.columns.map column.sign = (k.make sg).types := by
      rw [ht1eq]
      show (t.columns.map _).map column.sign = (k.make sg).types
      rw [migrate_tgt_cols_signs a₂ t, htwf.2.1, htid]
    have hsub : ∀ x ∈ t.id.types, x ∈ a₂.id.types := by
      intro x hx
      rw [htid] at hx
      rw [ha2id]
      exact hk'sub x hx
    have htFlens : ∀ c ∈ t1.columns, c.values.length = t.entities.length + 1 := by
      intro c hc
      rw [ht1eq] at hc
      rcases List.mem_map.mp hc with ⟨c0, hc0, rfl⟩
      exact migrate_tgt_cols_full ha2wf hlen0 htwf hsub c0 hc0
    have htFent : t1.entities = t.entities ++ [e] := by
      rw [ht1eq]
      show t.entities ++ [a₂.entities.getLast?.getD default] = t.entities ++ [e]
      rw [hme]
    -- id-preservation of the two map updates
    have hfsrc : ∀ b : archetype, b.id = k →
        ((fun _ : archetype => (a₂.migrate_back (some t)).2.1) b).id = b.id := by
      intro b hb
      show (a₂.migrate_back (some t)).2.1.id = b.id
      rw [migrate_back_src_id, ha2id, hb]
    have hft1 : ∀ b : archetype, b.id = k.make sg →
        ((fun _ : archetype => t1) b).id = b.id := by
      intro b hb
      show t1.id = b.id
      rw [htFid, hb]
    have hsrcF : lookupArch (updateArch (updateArch
        (getOrMake (s.send_to_back e).m_map (k.make sg)) k
        (fun _ => (a₂.migrate_back (some t)).2.1)) (k.make sg) (fun _ => t1)) k =
        some ((a₂.migrate_back (some t)).2.1) := by
      rw [lookupArch_updateArch _ _ _ _ hft1, if_neg (fun hcon => hk'ne hcon.symm)]
      rw [lookupArch_updateArch _ _ _ _ hfsrc, if_pos rfl, hl2k]
      rfl
    have htFlook : lookupArch (updateArch (updateArch
        (getOrMake (s.send_to_back e).m_map (k.make sg)) k
        (fun _ => (a₂.migrate_back (some t)).2.1)) (k.make sg) (fun _ => t1)) (k.make sg) =
        some t1 := by
      rw [lookupArch_updateArch _ _ _ _ hft1, if_pos rfl]
      rw [lookupArch_updateArch _ _ _ _ hfsrc, if_neg hk'ne, hlt]
      rfl
    have hMFne : ∀ kk, ¬ kk = k → ¬ kk = k.make sg →
        lookupArch (updateArch (updateArch
          (getOrMake (s.send_to_back e).m_map (k.make sg)) k
          (fun _ => (a₂.migrate_back (some t)).2.1)) (k.make sg) (fun _ => t1)) kk =
        lookupArch (getOrMake (s.send_to_back e).m_map (k.make sg)) kk := by
      intro kk h1 h2
      rw [lookupArch_updateArch _ _ _ _ hft1, if_neg h2]
      rw [lookupArch_updateArch _ _ _ _ hfsrc, if_neg h1]
    have hMFids : (updateArch (updateArch
        (getOrMake (s.send_to_back e).m_map (k.make sg)) k
        (fun _ => (a₂.migrate_back (some t)).2.1)) (k.make sg) (fun _ => t1)).map archetype.id =
        (getOrMake (s.send_to_back e).m_map (k.make sg)).map archetype.id := by
      rw [updateArch_ids _ _ _ hft1, updateArch_ids _ _ _ hfsrc]
    have hMFmem : ∀ b ∈ updateArch (updateArch
        (getOrMake (s.send_to_back e).m_map (k.make sg)) k
        (fun _ => (a₂.migrate_back (some t)).2.1)) (k.make sg) (fun _ => t1),
        b = (a₂.migrate_back (some t)).2.1 ∨ b = t1 ∨
        (b ∈ getOrMake (s.send_to_back e).m_map (k.make sg) ∧ ¬ b.id = k ∧ ¬ b.id = k.make sg) := by
      intro b hb
      rcases mem_updateArch hb with ⟨b1, hb1, hbe1⟩
      rcases mem_updateArch hb1 with ⟨b0, hb0, hbe0⟩
      by_cases h0k : b0.id = k
      · rw [if_pos h0k] at hbe0
        have hb1id : b1.id = k := by
          rw [hbe0]
          show (a₂.migrate_back (some t)).2.1.id = k
          rw [migrate_back_src_id, ha2id]
        rw [if_neg (by rw [hb1id]; exact fun hcon => hk'ne hcon.symm)] at hbe1
        left
        rw [hbe1, hbe0]
      · rw [if_neg h0k] at hbe0
        by_cases h1k' : b1.id = k.make sg
        · rw [if_pos h1k'] at hbe1
          right; left
          exact hbe1
        · rw [if_neg h1k'] at hbe1
          right; right
          rw [hbe1, hbe0]
          rw [hbe0] at h1k'
          exact ⟨hb0, h0k, h1k'⟩
    have hmain := move_row_inv
      { s.send_to_back e with m_map := getOrMake (s.send_to_back e).m_map (k.make sg) }
      e r k (k.make sg) a₂ t t1
      (updateArch (updateArch (getOrMake (s.send_to_back e).m_map (k.make sg)) k
        (fun _ => (a₂.migrate_back (some t)).2.1)) (k.make sg) (fun _ => t1))
      hk'ne hl2k ha2id ha2wf ha2last hkeysA2 hkeysR1 hfre2 hawf3 hF1b hF2b hF4b
      hlt htFid htFsigns hk'sort htFlens htFent hsrcF htFlook hMFne hMFids hMFmem
    have hsz : t1.size - 1 = t.entities.length := by
      show t1.entities.length - 1 = t.entities.length
      rw [htFent, List.length_append, List.length_singleton]
      omega
    have heq : (s.do_detach e sg).2 =
        { s.send_to_back e with
           m_map := updateArch (updateArch
             (getOrMake (s.send_to_back e).m_map (k.make sg)) k
             (fun _ => (a₂.migrate_back (some t)).2.1)) (k.make sg) (fun _ => t1),
           m_records := registry.setRecords (s.send_to_back e).m_records e
             (fun rd => { name := rd.name, arch := some (k.make sg),
                          index := t.entities.length }) } := by
      unfold registry.do_detach
      rw [if_neg hrid]
      simp only [hr, hrk, ha]
      rw [hstb, if_neg hone]
      simp only [hl2k, hlt, ht1, htFlook, hsz]
    rw [heq]
    exact hmain

end Dens

namespace Dens

theorem updateArch_updateArch {m : List archetype} {k : archetype_id}
    (f g : archetype → archetype) (hf : ∀ a, a.id = k → (f a).id = k) :
    updateArch (updateArch m k f) k g = updateArch m k (fun a => g (f a)) := by
  unfold updateArch
  rw [List.map_map]
  congr 1
  funext a
  by_cases h : a.id = k
  · simp [Function.comp, h, hf a h]
  · simp [Function.comp, h]

theorem setRecords_setRecords (recs : List (entity × record)) (e : entity)
    (f g : record → record) :
    registry.setRecords (registry.setRecords recs e f) e g =
      registry.setRecords recs e (fun rd => g (f rd)) := by
  unfold registry.setRecords
  rw [List.map_map]
  congr 1
  funext p
  by_cases h : p.1 = e
  · simp [Function.comp, h]
  · simp [Function.comp, h]

theorem filter_setRecords (recs : List (entity × record)) (e : entity) (f : record → record) :
    (registry.setRecords recs e f).filter (fun p => !(p.1 == e)) =
      recs.filter (fun p => !(p.1 == e)) := by
  unfold registry.setRecords
  induction recs with
  | nil => rfl
  | cons p rest ih =>
    rw [List.map_cons, List.filter_cons, List.filter_cons]
    by_cases h : p.1 = e
    · simp [h, ih]
    · simp [h, ih]

theorem not_in_rows (s : registry) (hInv : Inv s) {e : entity} {r : record}
    (hr : s.findRecord e = some r) (hra : r.arch = none) :
    ∀ b ∈ s.m_map, ∀ j : Nat, ¬ b.entities[j]? = some e := by
  intro b hb j hj
  rcases (backlinkP_iff s).mp hInv.2.2.2.2 b hb j e hj with ⟨r', h1, h2, _⟩
  rw [hr] at h1
  injection h1 with h1e
  rw [← h1e, hra] at h2
  exact Option.noConfusion h2

theorem not_in_rows_fresh (s : registry) (hInv : Inv s) {e : entity}
    (hfresh : s.findRecord e = none) :
    ∀ b ∈ s.m_map, ∀ j : Nat, ¬ b.entities[j]? = some e := by
  intro b hb j hj
  rcases (backlinkP_iff s).mp hInv.2.2.2.2 b hb j e hj with ⟨r', h1, _, _⟩
  rw [hfresh] at h1
  exact Option.noConfusion h1

theorem migrate_tgt_col_present {a : archetype} (ha : archWF a) (hne : 0 < a.entities.length)
    {c : column} (hsg : c.sign ∈ a.id.types) :
    (match a.find c.sign with
     | some src =>
       match src.values.getLast? with
       | some v => { c with values := c.values ++ [v] }
       | none => c
     | none => c : column).values.length = c.values.length + 1 := by
  rcases find_isSome_of_sign_mem ha.2.1 hsg with ⟨src, hfind, _⟩
  have hfind' : a.columns.find? (fun c0 => c0.sign == c.sign) = some src := hfind
  have hsrcmem : src ∈ a.columns := List.mem_of_find?_eq_some hfind'
  have hlen : src.values.length = a.entities.length := ha.2.2 src hsrcmem
  have hnil : src.values ≠ [] := by
    intro hcon
    rw [hcon] at hlen
    simp at hlen
    omega
  rcases Option.isSome_iff_exists.mp (List.getLast?_isSome.mpr hnil) with ⟨v, hv⟩
  simp only [hfind, hv]
  rw [List.length_append, List.length_singleton]

theorem archWF_set_val {a : archetype} (h : archWF a) (sg : Sig) (i : Nat) (v : Value) :
    archWF (a.set_val sg i v) := by
  rcases h with ⟨h1, h2, h3⟩
  refine ⟨h1, ?_, ?_⟩
  · show (a.columns.map _).map column.sign = a.id.types
    rw [List.map_map, ← h2]
    congr 1
    funext c
    by_cases hc : c.sign = sg <;> simp [Function.comp, hc]
  · intro c hc
    rcases List.mem_map.mp hc with ⟨c0, hc0, rfl⟩
    by_cases hc' : c0.sign = sg
    · rw [if_pos hc']
      show (c0.values.set i v).length = a.entities.length
      rw [List.length_set]
      exact h3 c0 hc0
    · rw [if_neg hc']
      exact h3 c0 hc0

theorem set_val_inv (s : registry) (k : archetype_id) (sg : Sig) (i : Nat) (v : Value)
    (hInv : Inv s) :
    Inv { s with m_map := updateArch s.m_map k (fun a0 => a0.set_val sg i v) } := by
  have hfid : ∀ a : archetype, a.id = k → (a.set_val sg i v).id = a.id := fun a _ => rfl
  obtain ⟨hawf, hkA, hkR, hI2, hbl⟩ := hInv
  refine ⟨?_, ?_, hkR, ?_, ?_⟩
  · intro b hb
    rcases mem_updateArch hb with ⟨b0, hb0, hbe⟩
    by_cases h : b0.id = k
    · rw [hbe, if_pos h]
      exact archWF_set_val (hawf b0 hb0) sg i v
    · rw [hbe, if_neg h]
      exact hawf b0 hb0
  · show ((updateArch s.m_map k _).map archetype.id).Nodup
    rw [updateArch_ids _ _ _ hfid]
    exact hkA
  · rw [I2P_iff] at hI2 ⊢
    intro p hp kk hkk
    rcases hI2 p hp kk hkk with ⟨b, hb, h1, h2⟩
    rw [lookupArch_updateArch _ _ _ _ hfid]
    by_cases h : kk = k
    · rw [if_pos h, hb]
      exact ⟨b.set_val sg i v, rfl, h1, h2⟩
    · rw [if_neg h]
      exact ⟨b, hb, h1, h2⟩
  · rw [backlinkP_iff] at hbl ⊢
    intro b hb j x hj
    rcases mem_updateArch hb with ⟨b0, hb0, hbe⟩
    by_cases h : b0.id = k
    · rw [hbe, if_pos h] at hj ⊢
      rcases hbl b0 hb0 j x hj with ⟨r', h1, h2, h3⟩
      exact ⟨r', h1, by rw [h2]; rfl, h3⟩
    · rw [hbe, if_neg h] at hj ⊢
      exact hbl b0 hb0 j x hj

theorem setRecords_pres_inv (s : registry) (e : entity) (f : record → record)
    (hInv : Inv s)
    (hf1 : ∀ rd, (f rd).arch = rd.arch) (hf2 : ∀ rd, (f rd).index = rd.index) :
    Inv { s with m_records := registry.setRecords s.m_records e f } := by
  obtain ⟨hawf, hkA, hkR, hI2, hbl⟩ := hInv
  refine ⟨hawf, hkA, ?_, ?_, ?_⟩
  · show ((registry.setRecords s.m_records e f).map Prod.fst).Nodup
    rw [setRecords_keys]
    exact hkR
  · rw [I2P_iff] at hI2 ⊢
    intro p hp kk hkk
    rcases List.mem_map.mp hp with ⟨p0, hp0, hpe0⟩
    by_cases hpe : p0.1 = e
    · rw [if_pos hpe] at hpe0
      have hkk0 : p0.2.arch = some kk := by
        rw [← hf1 p0.2]
        rw [← hpe0] at hkk
        exact hkk
      rcases hI2 p0 hp0 kk hkk0 with ⟨b, hb, h1, h2⟩
      refine ⟨b, hb, ?_, ?_⟩
      · rw [← hpe0]
        show (f p0.2).index < b.entities.length
        rw [hf2]
        exact h1
      · rw [← hpe0]
        show b.entities[(f p0.2).index]? = some p0.1
        rw [hf2]
        exact h2
    · rw [if_neg hpe] at hpe0
      rw [← hpe0] at hkk ⊢
      exact hI2 p0 hp0 kk hkk
  · rw [backlinkP_iff] at hbl ⊢
    intro b hb j x hj
    rcases hbl b hb j x hj with ⟨r', h1, h2, h3⟩
    by_cases hxe : x = e
    · refine ⟨f r', ?_, ?_, ?_⟩
      · show registry.findRec (registry.setRecords s.m_records e f) x = some (f r')
        rw [findRec_setRecords, if_pos hxe]
        have h1' : registry.findRec s.m_records x = some r' := h1
        rw [h1']
        rfl
      · rw [hf1]
        exact h2
      · rw [hf2]
        exact h3
    · refine ⟨r', ?_, h2, h3⟩
      show registry.findRec (registry.setRecords s.m_records e f) x = some r'
      rw [findRec_setRecords, if_neg hxe]
      exact h1

theorem rename_inv (s : registry) (e : entity) (nm : String) (hInv : Inv s) :
    Inv (s.rename e nm).2 := by
  unfold registry.rename
  cases hr : s.findRecord e with
  | none => exact hInv
  | some r =>
    exact setRecords_pres_inv s e _ hInv (fun rd => rfl) (fun rd => rfl)

theorem clear_inv (s : registry) : Inv s.clear := by
  refine ⟨?_, ?_, ?_, ?_, ?_⟩
  · intro a ha
    cases ha
  · exact List.nodup_nil
  · exact List.nodup_nil
  · intro p hp
    cases hp
  · intro a ha
    cases ha

theorem record_append_inv (s : registry) (e : entity) (nm : String)
    (hInv : Inv s) (hfresh : s.findRecord e = none) :
    Inv { s with m_records := s.m_records ++ [(e, { name := nm, arch := none, index := 0 })] } := by
  obtain ⟨hawf, hkA, hkR, hI2, hbl⟩ := hInv
  have hnotkey : ∀ p ∈ s.m_records, ¬ p.1 = e := by
    intro p hp hpe
    have hnone : s.m_records.find? (fun q => q.1 == e) = none := by
      cases hf : s.m_records.find? (fun q => q.1 == e) with
      | none => rfl
      | some q =>
        have hq : registry.findRec s.m_records e = some q.2 := by
          unfold registry.findRec
          rw [hf]
          rfl
        have hf2 : registry.findRec s.m_records e = none := hfresh
        rw [hf2] at hq
        exact Option.noConfusion hq
    have := List.find?_eq_none.mp hnone p hp
    simp [hpe] at this
  refine ⟨hawf, hkA, ?_, ?_, ?_⟩
  · show ((s.m_records ++ [(e, _)]).map Prod.fst).Nodup
    rw [List.map_append, List.nodup_append]
    refine ⟨hkR, List.nodup_singleton _, ?_⟩
    intro y hy hy'
    rcases List.mem_map.mp hy with ⟨p, hp, rfl⟩
    rw [List.map_cons, List.map_nil, List.mem_singleton] at hy'
    exact hnotkey p hp hy'
  · rw [I2P_iff] at hI2 ⊢
    intro p hp kk hkk
    rcases List.mem_append.mp hp with hp1 | hp1
    · exact hI2 p hp1 kk hkk
    · rw [List.mem_singleton] at hp1
      rw [hp1] at hkk
      exact Option.noConfusion hkk
  · rw [backlinkP_iff] at hbl ⊢
    intro b hb j x hj
    rcases hbl b hb j x hj with ⟨r', h1, h2, h3⟩
    refine ⟨r', ?_, h2, h3⟩
    show registry.findRec (s.m_records ++ _) x = some r'
    have hxe : x ≠ e := by
      intro hxe
      rw [hxe] at h1
      have h1' : registry.findRec s.m_records e = some r' := h1
      have hf : registry.findRec s.m_records e = none := hfresh
      rw [hf] at h1'
      exact Option.noConfusion h1'
    rw [findRec_append_ne _ _ _ _ hxe]
    exact h1

theorem getOrMake_inv (s : registry) (kk : archetype_id) (hInv : Inv s)
    (hsort : strictSorted kk.types = true) :
    Inv { s with m_map := getOrMake s.m_map kk } := by
  obtain ⟨hawf, hkA, hkR, hI2, hbl⟩ := hInv
  refine ⟨?_, ?_, hkR, ?_, ?_⟩
  · intro b hb
    rcases mem_getOrMake hb with hb1 | hb1
    · exact hawf b hb1
    · rw [hb1]
      exact archWF_create hsort
  · show ((getOrMake s.m_map kk).map archetype.id).Nodup
    rw [getOrMake_ids]
    by_cases hs : (lookupArch s.m_map kk).isSome
    · rw [if_pos hs]
      exact hkA
    · rw [if_neg hs]
      rw [List.nodup_append]
      refine ⟨hkA, List.nodup_singleton _, ?_⟩
      intro y hy hy'
      rw [List.mem_singleton] at hy'
      subst hy'
      exact hs (lookupArch_isSome_iff.mpr hy)
  · rw [I2P_iff] at hI2 ⊢
    intro p hp k2 hk2
    rcases hI2 p hp k2 hk2 with ⟨b, hb, h1, h2⟩
    refine ⟨b, ?_, h1, h2⟩
    by_cases hk : k2 = kk
    · subst hk
      rw [lookupArch_getOrMake_self, hb]
      rfl
    · rw [lookupArch_getOrMake_ne _ _ _ hk]
      exact hb
  · rw [backlinkP_iff] at hbl ⊢
    intro b hb j x hj
    rcases mem_getOrMake hb with hb1 | hb1
    · exact hbl b hb1 j x hj
    · rw [hb1] at hj
      have hnil : ([] : List entity)[j]? = some x := hj
      rw [List.getElem?_nil] at hnil
      exact Option.noConfusion hnil

theorem registry_get_or_make_inv (s : registry) (e : entity) (hInv : Inv s) :
    Inv (s.get_or_make e) := by
  unfold registry.get_or_make
  by_cases h : (s.findRecord e).isSome
  · rw [if_pos h]
    exact hInv
  · rw [if_neg h]
    exact record_append_inv s e "" hInv (Option.not_isSome_iff_eq_none.mp h)

end Dens

namespace Dens

/-- Appending entity `e` (whose record exists but has no archetype) as the new
last row of the `k` archetype and pointing its record there preserves the
invariant.  `f` is the per-archetype update actually applied by the code;
on the stored `k` archetype `t0` it produces `tF`. -/
theorem append_row_inv
    (s₁ : registry) (e : entity) (r0 : record) (k : archetype_id) (t0 tF : archetype)
    (f : archetype → archetype)
    (hInv1 : Inv s₁)
    (hr0 : s₁.findRecord e = some r0) (hr0a : r0.arch = none)
    (hl : lookupArch s₁.m_map k = some t0)
    (hup : f t0 = tF)
    (hfid : ∀ a : archetype, a.id = k → (f a).id = a.id)
    (htFwf : archWF tF)
    (htFent : tF.entities = t0.entities ++ [e]) :
    Inv { s₁ with
       m_map := updateArch s₁.m_map k f,
       m_records := registry.setRecords s₁.m_records e
         (fun rd => { name := rd.name, arch := some k, index := t0.entities.length }) } := by
  obtain ⟨hawf, hkA, hkR, hI2, hbl⟩ := hInv1
  have ht0id := (lookupArch_eq_some hl).2
  have ht0mem := (lookupArch_eq_some hl).1
  have henot : ∀ b ∈ s₁.m_map, ∀ j : Nat, ¬ b.entities[j]? = some e :=
    not_in_rows s₁ ⟨hawf, hkA, hkR, hI2, hbl⟩ hr0 hr0a
  have hmemk : ∀ b ∈ s₁.m_map, b.id = k → b = t0 := by
    intro b hb hbk
    exact mem_id_eq s₁.m_map hkA hb ht0mem (hbk.trans ht0id.symm)
  have hlookF : lookupArch (updateArch s₁.m_map k f) k = some tF := by
    rw [lookupArch_updateArch _ _ _ _ hfid, if_pos rfl, hl]
    show some (f t0) = some tF
    rw [hup]
  have hlookNe : ∀ kk, kk ≠ k →
      lookupArch (updateArch s₁.m_map k f) kk = lookupArch s₁.m_map kk := by
    intro kk hkk
    rw [lookupArch_updateArch _ _ _ _ hfid, if_neg hkk]
  have hRFe : registry.findRec (registry.setRecords s₁.m_records e
      (fun rd => { name := rd.name, arch := some k, index := t0.entities.length })) e =
      some { name := r0.name, arch := some k, index := t0.entities.length } := by
    rw [findRec_setRecords, if_pos rfl]
    have hf : registry.findRec s₁.m_records e = some r0 := hr0
    rw [hf]
    rfl
  have hRFne : ∀ x, x ≠ e → registry.findRec (registry.setRecords s₁.m_records e
      (fun rd => { name := rd.name, arch := some k, index := t0.entities.length })) x =
      registry.findRec s₁.m_records x := by
    intro x hx
    rw [findRec_setRecords, if_neg hx]
  have htFlen : tF.entities.length = t0.entities.length + 1 := by
    rw [htFent, List.length_append, List.length_singleton]
  refine ⟨?_, ?_, ?_, ?_, ?_⟩
  · intro b hb
    rcases mem_updateArch hb with ⟨b0, hb0, hbe⟩
    by_cases h : b0.id = k
    · rw [hbe, if_pos h, hmemk b0 hb0 h, hup]
      exact htFwf
    · rw [hbe, if_neg h]
      exact hawf b0 hb0
  · show ((updateArch s₁.m_map k f).map archetype.id).Nodup
    rw [updateArch_ids _ _ _ hfid]
    exact hkA
  · show ((registry.setRecords s₁.m_records e
      (fun rd => { name := rd.name, arch := some k, index := t0.entities.length })).map Prod.fst).Nodup
    rw [setRecords_keys]
    exact hkR
  · rw [I2P_iff]
    rw [I2P_iff] at hI2
    intro p hp kk hkk
    rcases List.mem_map.mp hp with ⟨p0, hp0, hpe0⟩
    by_cases hp0e : p0.1 = e
    · rw [if_pos hp0e] at hpe0
      have hp2 : p.2 = { name := p0.2.name, arch := some k, index := t0.entities.length } := by
        rw [← hpe0]
      have hp1 : p.1 = e := by
        rw [← hpe0]
        exact hp0e
      have hkkk : kk = k := by
        rw [hp2] at hkk
        exact (Option.some.inj hkk).symm
      subst hkkk
      refine ⟨tF, hlookF, ?_, ?_⟩
      · rw [hp2]
        show t0.entities.length < tF.entities.length
        rw [htFlen]
        omega
      · rw [hp2, htFent, hp1]
        exact List.getElem?_concat_length t0.entities e
    · rw [if_neg hp0e] at hpe0
      subst hpe0
      rcases hI2 p0 hp0 kk hkk with ⟨b, hbl', hbi, hbent⟩
      by_cases hkkk : kk = k
      · subst hkkk
        rw [hl] at hbl'
        cases hbl'
        refine ⟨tF, hlookF, ?_, ?_⟩
        · rw [htFlen]
          omega
        · rw [htFent, List.getElem?_append_left hbi]
          exact hbent
      · refine ⟨b, ?_, hbi, hbent⟩
        rw [hlookNe kk hkkk]
        exact hbl'
  · rw [backlinkP_iff]
    rw [backlinkP_iff] at hbl
    intro b hb j x hj
    rcases mem_updateArch hb with ⟨b0, hb0, hbe⟩
    by_cases h : b0.id = k
    · rw [hbe, if_pos h, hmemk b0 hb0 h, hup] at hj ⊢
      rw [htFent, getElem?_concat_cases] at hj
      by_cases hjlt : j < t0.entities.length
      · rw [if_pos hjlt] at hj
        rcases hbl t0 ht0mem j x hj with ⟨r', hr', hra', hri'⟩
        have hxe : x ≠ e := by
          intro hxe
          subst hxe
          exact henot t0 ht0mem j hj
        refine ⟨r', ?_, ?_, hri'⟩
        · show registry.findRec _ x = some r'
          rw [hRFne x hxe]
          exact hr'
        · rw [hra', ht0id]
          have : tF.id = k := by
            rw [← hup]
            exact hfid t0 ht0id ▸ ht0id
          rw [this]
      · rw [if_neg hjlt] at hj
        by_cases hjl : j = t0.entities.length
        · rw [if_pos hjl] at hj
          have hx : x = e := (Option.some.inj hj).symm
          subst hx
          refine ⟨{ name := r0.name, arch := some k, index := t0.entities.length }, hRFe, ?_, hjl.symm⟩
          have : tF.id = k := by
            rw [← hup]
            exact hfid t0 ht0id ▸ ht0id
          rw [this]
        · rw [if_neg hjl] at hj
          exact Option.noConfusion hj
    · rw [hbe, if_neg h] at hj ⊢
      rcases hbl b0 hb0 j x hj with ⟨r', hr', hra', hri'⟩
      have hxe : x ≠ e := by
        intro hxe
        subst hxe
        exact henot b0 hb0 j hj
      refine ⟨r', ?_, hra', hri'⟩
      show registry.findRec _ x = some r'
      rw [hRFne x hxe]
      exact hr'

end Dens

namespace Dens

theorem filter_keys_nodup {recs : List (entity × record)} (h : (recs.map Prod.fst).Nodup)
    (e : entity) :
    ((recs.filter (fun p => !(p.1 == e))).map Prod.fst).Nodup :=
  List.Nodup.sublist (List.Sublist.map Prod.fst (List.filter_sublist recs)) h

/-- Dropping the last row of the `k` archetype (which holds `e`) and erasing
`e`'s record (the tail of `destroy`) preserves the invariant. -/
theorem drop_row_inv
    (s₁ : registry) (e : entity) (k : archetype_id) (a₂ : archetype)
    (hlook2 : lookupArch s₁.m_map k = some a₂)
    (ha2wf : archWF a₂)
    (hlaste : a₂.entities[a₂.entities.length - 1]? = some e)
    (hkeysA : archKeysNodup s₁) (hkeysR : recordKeysNodup s₁)
    (hawf : archesWF s₁)
    (hF1 : ∀ p ∈ s₁.m_records, p.1 ≠ e → ∀ kk, p.2.arch = some kk →
      ∃ b, lookupArch s₁.m_map kk = some b ∧ p.2.index < b.entities.length ∧
        b.entities[p.2.index]? = some p.1)
    (hF2 : ∀ b ∈ s₁.m_map, ∀ j x, b.entities[j]? = some x →
      ¬(b.id = k ∧ j = a₂.entities.length - 1) →
      ∃ r', s₁.findRecord x = some r' ∧ r'.arch = some b.id ∧ r'.index = j)
    (hF4 : ∀ b ∈ s₁.m_map, ∀ j, b.entities[j]? = some e →
      b.id = k ∧ j = a₂.entities.length - 1) :
    Inv { s₁ with
       m_map := updateArch s₁.m_map k (fun _ => (a₂.migrate_back none).2.1),
       m_records := s₁.m_records.filter (fun p => !(p.1 == e)) } := by
  have ha2id := (lookupArch_eq_some hlook2).2
  have hfid : ∀ b : archetype, b.id = k → (a₂.migrate_back none).2.1.id = b.id := by
    intro b hb
    rw [migrate_back_src_id, ha2id, hb]
  have hlookP : lookupArch (updateArch s₁.m_map k (fun _ => (a₂.migrate_back none).2.1)) k =
      some (a₂.migrate_back none).2.1 := by
    rw [lookupArch_updateArch _ _ _ _ hfid, if_pos rfl, hlook2]
    rfl
  have hlookNe : ∀ kk, kk ≠ k →
      lookupArch (updateArch s₁.m_map k (fun _ => (a₂.migrate_back none).2.1)) kk =
      lookupArch s₁.m_map kk := by
    intro kk hkk
    rw [lookupArch_updateArch _ _ _ _ hfid, if_neg hkk]
  refine ⟨?_, ?_, ?_, ?_, ?_⟩
  · intro b hb
    rcases mem_updateArch hb with ⟨b0, hb0, hbe⟩
    by_cases h : b0.id = k
    · rw [hbe, if_pos h]
      exact archWF_migrate_src ha2wf none
    · rw [hbe, if_neg h]
      exact hawf b0 hb0
  · show ((updateArch s₁.m_map k _).map archetype.id).Nodup
    rw [updateArch_ids _ _ _ hfid]
    exact hkeysA
  · exact filter_keys_nodup hkeysR e
  · rw [I2P_iff]
    intro p hp kk hkk
    have hp' := List.mem_filter.mp hp
    have hpe : p.1 ≠ e := by
      have := hp'.2
      simpa using this
    rcases hF1 p hp'.1 hpe kk hkk with ⟨b, hbl, hbi, hbent⟩
    by_cases hkkk : kk = k
    · subst hkkk
      rw [hlook2] at hbl
      cases hbl
      have hine : p.2.index ≠ a₂.entities.length - 1 := by
        intro hcon
        rw [hcon, hlaste] at hbent
        exact hpe (Option.some.inj hbent).symm
      refine ⟨(a₂.migrate_back none).2.1, hlookP, ?_, ?_⟩
      · rw [migrate_back_src_entities, List.length_dropLast]
        omega
      · rw [migrate_back_src_entities, List.getElem?_dropLast, if_pos (by omega)]
        exact hbent
    · refine ⟨b, ?_, hbi, hbent⟩
      rw [hlookNe kk hkkk]
      exact hbl
  · rw [backlinkP_iff]
    intro b hb j x hj
    rcases mem_updateArch hb with ⟨b0, hb0, hbe⟩
    by_cases h : b0.id = k
    · rw [hbe, if_pos h] at hj ⊢
      have hj' : a₂.entities.dropLast[j]? = some x := hj
      rw [List.getElem?_dropLast] at hj'
      by_cases hjlt : j < a₂.entities.length - 1
      · rw [if_pos hjlt] at hj'
        rcases hF2 a₂ (lookupArch_eq_some hlook2).1 j x hj' (by omega) with ⟨r', hr', hra', hri'⟩
        have hxe : x ≠ e := by
          intro hxe
          subst hxe
          have := (hF4 a₂ (lookupArch_eq_some hlook2).1 j hj').2
          omega
        refine ⟨r', ?_, ?_, hri'⟩
        · show registry.findRec _ x = some r'
          rw [findRec_filter_ne _ _ _ hxe]
          exact hr'
        · rw [hra']
          show some a₂.id = some (a₂.migrate_back none).2.1.id
          rw [migrate_back_src_id]
      · rw [if_neg hjlt] at hj'
        exact Option.noConfusion hj'
    · rw [hbe, if_neg h] at hj ⊢
      rcases hF2 b0 hb0 j x hj (fun hcon => h hcon.1) with ⟨r', hr', hra', hri'⟩
      have hxe : x ≠ e := by
        intro hxe
        subst hxe
        exact h (hF4 b0 hb0 j hj).1
      refine ⟨r', ?_, hra', hri'⟩
      show registry.findRec _ x = some r'
      rw [findRec_filter_ne _ _ _ hxe]
      exact hr'

theorem filter_records_inv (s : registry) (e : entity) (hInv : Inv s)
    (henot : ∀ b ∈ s.m_map, ∀ j : Nat, ¬ b.entities[j]? = some e) :
    Inv { s with m_records := s.m_records.filter (fun p => !(p.1 == e)) } := by
  obtain ⟨hawf, hkA, hkR, hI2, hbl⟩ := hInv
  refine ⟨hawf, hkA, filter_keys_nodup hkR e, ?_, ?_⟩
  · rw [I2P_iff]
    rw [I2P_iff] at hI2
    intro p hp kk hkk
    exact hI2 p (List.mem_filter.mp hp).1 kk hkk
  · rw [backlinkP_iff]
    rw [backlinkP_iff] at hbl
    intro b hb j x hj
    rcases hbl b hb j x hj with ⟨r', h1, h2, h3⟩
    have hxe : x ≠ e := by
      intro hxe
      subst hxe
      exact henot b hb j hj
    refine ⟨r', ?_, h2, h3⟩
    show registry.findRec _ x = some r'
    rw [findRec_filter_ne _ _ _ hxe]
    exact h1

/-- `destroy` preserves the registry invariant. -/
theorem destroy_inv (s : registry) (e : entity) (hInv : Inv s) :
    Inv (s.destroy e).2 := by
  cases hr : s.findRecord e with
  | none =>
    unfold registry.destroy
    simp only [hr]
    exact hInv
  | some r =>
  cases hrk : r.arch with
  | none =>
    have hiss : r.arch.isSome = false := by rw [hrk]; rfl
    have heq : (s.destroy e).2 =
        { s with m_records := s.m_records.filter (fun p => !(p.1 == e)) } := by
      unfold registry.destroy
      simp only [hr, hiss, Bool.false_eq_true, if_false]
    rw [heq]
    exact filter_records_inv s e hInv (not_in_rows s hInv hr hrk)
  | some k =>
  cases ha : lookupArch s.m_map k with
  | none =>
    exfalso
    rcases (I2P_iff s).mp hInv.2.2.2.1 (e, r) (findRec_mem hr) k hrk with ⟨a1, ha1, _⟩
    rw [ha] at ha1
    exact Option.noConfusion ha1
  | some a =>
  obtain ⟨a₂, hlook2, ha2id, ha2wf, ha2len, ha2last, hmapform, hkeys2, hfre2, hawf2, hF1, hF2, hF4⟩ :=
    swap_step_spec s e r k a hInv hr hrk ha
  rw [← ha2len] at ha2last hF2 hF4
  have hkeysA1 : archKeysNodup (s.send_to_back e) := by
    show ((s.send_to_back e).m_map.map archetype.id).Nodup
    rw [hmapform, updateArch_ids s.m_map k (fun _ => a₂) (fun b hb => by rw [ha2id, hb])]
    exact hInv.2.1
  have hkeysR1 : recordKeysNodup (s.send_to_back e) := by
    show ((s.send_to_back e).m_records.map Prod.fst).Nodup
    rw [hkeys2]
    exact hInv.2.2.1
  have hiss : r.arch.isSome = true := by rw [hrk]; rfl
  have hm22 : (a₂.migrate_back none).2.2 = (none : Option archetype) := rfl
  have heqm : s.migrate_to e none =
      { s.send_to_back e with
         m_map := updateArch (s.send_to_back e).m_map k (fun _ => (a₂.migrate_back none).2.1),
         m_records := registry.setRecords (s.send_to_back e).m_records e
           (fun rd => { rd with arch := none }) } := by
    unfold registry.migrate_to
    simp only [hfre2, hrk, hlook2, Option.none_bind, hm22]
  have heq : (s.destroy e).2 =
      { s.send_to_back e with
         m_map := updateArch (s.send_to_back e).m_map k (fun _ => (a₂.migrate_back none).2.1),
         m_records := (s.send_to_back e).m_records.filter (fun p => !(p.1 == e)) } := by
    unfold registry.destroy
    simp only [hr, hiss, if_true]
    rw [heqm]
    rw [filter_setRecords]
  rw [heq]
  exact drop_row_inv (s.send_to_back e) e k a₂ hlook2 ha2wf ha2last hkeysA1 hkeysR1
    hawf2 hF1 hF2 hF4

/-- `detach` preserves the registry invariant whenever none of its per-type
assertions would fire. -/
theorem detach_inv (s : registry) (e : entity) (sgs : List Sig) :
    Inv s → detachOk s e sgs = true → Inv (s.detach e sgs).2 := by
  induction sgs generalizing s with
  | nil =>
    intro hInv _
    exact hInv
  | cons sg rest ih =>
    intro hInv hok
    unfold detachOk at hok
    rw [Bool.and_eq_true] at hok
    have h1 := hok.1
    have h2 := hok.2
    unfold registry.detach
    by_cases hd : (s.do_detach e sg).1 = true
    · rw [if_pos hd] at h2
      simp only [hd, if_true]
      exact ih (s.do_detach e sg).2 (do_detach_inv s e sg hInv h1) h2
    · have hd' : (s.do_detach e sg).1 = false := by
        cases hv : (s.do_detach e sg).1
        · rfl
        · exact absurd hv hd
      simp only [hd', Bool.false_eq_true, if_false]
      exact do_detach_inv s e sg hInv h1

end Dens

namespace Dens

theorem emplace_back_signs (a : archetype) (sg : Sig) (v : Value) :
    (a.emplace_back sg v).columns.map column.sign = a.columns.map column.sign := by
  show (a.columns.map _).map column.sign = _
  rw [List.map_map]
  apply List.map_congr_left
  intro c hc
  by_cases h : c.sign = sg <;> simp [Function.comp, h]

theorem updateArch_congr_stored {m : List archetype} {k : archetype_id} {t0 : archetype}
    (hnd : (m.map archetype.id).Nodup) (hl : lookupArch m k = some t0)
    (f g : archetype → archetype) (hfg : f t0 = g t0) :
    updateArch m k f = updateArch m k g := by
  unfold updateArch
  apply List.map_congr_left
  intro b hb
  by_cases h : b.id = k
  · have hb0 : b = t0 :=
      mem_id_eq m hnd hb (lookupArch_eq_some hl).1 (h.trans (lookupArch_eq_some hl).2.symm)
    rw [if_pos h, if_pos h, hb0, hfg]
  · rw [if_neg h, if_neg h]

/-- Closed form of the `emplace_back<Types>` fold of `make_entity`: each
processed signature's column gains one default value, the record for `e` is
pointed at row `n0` of the `k` archetype. -/
theorem fold_emplace_spec (e : entity) (k : archetype_id) (n0 : Nat) :
    ∀ (todo : List Sig) (S : registry) (tc : archetype),
    todo ≠ [] →
    todo.Nodup →
    (∀ sg ∈ todo, sg ∈ k.types) →
    archKeysNodup S →
    lookupArch S.m_map k = some tc →
    tc.columns.map column.sign = k.types →
    (∀ c ∈ tc.columns, c.sign ∈ todo → c.values.length = n0) →
    ∃ tF : archetype,
      todo.foldl (fun st sg => st.emplaceDefault e k sg) S =
        { S with
           m_map := updateArch S.m_map k (fun _ => tF),
           m_records := registry.setRecords S.m_records e
             (fun rd => { rd with arch := some k, index := n0 }) } ∧
      tF.id = k ∧
      tF.entities = tc.entities ∧
      tF.columns = tc.columns.map (fun c =>
        if todo.contains c.sign = true then { c with values := c.values ++ [(0 : Value)] } else c) := by
  intro todo
  induction todo with
  | nil =>
    intro S tc hne
    exact absurd rfl hne
  | cons sg rest ih =>
    intro S tc _ hnd hsub hkA hl hsigns hlens
    have htcid := (lookupArch_eq_some hl).2
    have hsgk : sg ∈ k.types := hsub sg (List.mem_cons_self sg rest)
    have hsgnrest : ¬ sg ∈ rest := (List.nodup_cons.mp hnd).1
    have hlen : (match lookupArch S.m_map k with
        | some a => a.colLen sg
        | none => 0) = n0 := by
      rw [hl]
      show tc.colLen sg = n0
      unfold archetype.colLen
      rcases find_isSome_of_sign_mem
        (show tc.columns.map column.sign = tc.id.types by rw [htcid]; exact hsigns)
        (show sg ∈ tc.id.types by rw [htcid]; exact hsgk) with ⟨c, hc, hcs⟩
      have hc' : tc.columns.find? (fun c0 => c0.sign == sg) = some c := hc
      simp only [hc]
      exact hlens c (List.mem_of_find?_eq_some hc')
        (by rw [hcs]; exact List.mem_cons_self sg rest)
    by_cases hrest : rest = []
    · subst hrest
      refine ⟨tc.emplace_back sg 0, ?_, htcid, rfl, ?_⟩
      · show S.emplaceDefault e k sg = _
        unfold registry.emplaceDefault
        simp only [hlen]
        rw [updateArch_congr_stored hkA hl (fun a => a.emplace_back sg 0)
          (fun _ => tc.emplace_back sg 0) rfl]
      · show tc.columns.map _ = tc.columns.map _
        apply List.map_congr_left
        intro c hc
        by_cases h : c.sign = sg
        · simp [h]
        · simp [h]
    · have hl' : lookupArch (S.emplaceDefault e k sg).m_map k = some (tc.emplace_back sg 0) := by
        show lookupArch (updateArch S.m_map k (fun a => a.emplace_back sg 0)) k = _
        rw [lookupArch_updateArch S.m_map k k (fun a => a.emplace_back sg 0) (fun a _ => rfl),
          if_pos rfl, hl]
        rfl
      have hkA' : archKeysNodup (S.emplaceDefault e k sg) := by
        show ((updateArch S.m_map k (fun a => a.emplace_back sg 0)).map archetype.id).Nodup
        rw [updateArch_ids S.m_map k (fun a => a.emplace_back sg 0) (fun a _ => rfl)]
        exact hkA
      have hsigns' : (tc.emplace_back sg 0).columns.map column.sign = k.types := by
        rw [emplace_back_signs]
        exact hsigns
      have hlens' : ∀ c ∈ (tc.emplace_back sg 0).columns, c.sign ∈ rest →
          c.values.length = n0 := by
        intro c hc hcr
        have hc2 : c ∈ tc.columns.map (fun c0 =>
            if c0.sign = sg then { c0 with values := c0.values ++ [(0 : Value)] } else c0) := hc
        rcases List.mem_map.mp hc2 with ⟨c0, hc0, rfl⟩
        by_cases h : c0.sign = sg
        · rw [if_pos h] at hcr
          have hmem : c0.sign ∈ rest := hcr
          rw [h] at hmem
          exact absurd hmem hsgnrest
        · rw [if_neg h] at hcr ⊢
          exact hlens c0 hc0 (List.mem_cons_of_mem sg hcr)
      rcases ih (S.emplaceDefault e k sg) (tc.emplace_back sg 0) hrest
        (List.nodup_cons.mp hnd).2 (fun x hx => hsub x (List.mem_cons_of_mem sg hx))
        hkA' hl' hsigns' hlens' with ⟨tF, hfold, htFid, htFent, htFcols⟩
      refine ⟨tF, ?_, htFid, htFent, ?_⟩
      · show rest.foldl _ (S.emplaceDefault e k sg) = _
        rw [hfold]
        have hmap2 : updateArch (S.emplaceDefault e k sg).m_map k (fun _ => tF) =
            updateArch S.m_map k (fun _ => tF) := by
          show updateArch (updateArch S.m_map k (fun a => a.emplace_back sg 0)) k (fun _ => tF) = _
          rw [updateArch_updateArch (fun a => a.emplace_back sg 0) (fun _ => tF)
            (fun a ha => ha)]
        have hrec2 : registry.setRecords (S.emplaceDefault e k sg).m_records e
            (fun rd => { rd with arch := some k, index := n0 }) =
            registry.setRecords S.m_records e
              (fun rd => { rd with arch := some k, index := n0 }) := by
          simp only [registry.emplaceDefault]
          rw [setRecords_setRecords]
        rw [hmap2, hrec2]
        rfl
      · rw [htFcols]
        show (tc.columns.map _).map _ = tc.columns.map _
        rw [List.map_map]
        apply List.map_congr_left
        intro c hc
        by_cases h : c.sign = sg
        · simp only [Function.comp, if_pos h]
          have h1 : (rest.contains ({ c with values := c.values ++ [(0 : Value)] } : column).sign) =
              false := by
            show (rest.contains c.sign) = false
            rw [h]
            simp [hsgnrest]
          rw [h1]
          have h2 : ((sg :: rest).contains c.sign) = true := by
            rw [h]
            simp
          rw [h2]
          simp
        · simp only [Function.comp, if_neg h]
          have h2 : ((sg :: rest).contains c.sign) = (rest.contains c.sign) := by
            have : (c.sign == sg) = false := by simp [h]
            rw [List.contains_cons, this]
            simp
          rw [h2]

end Dens

namespace Dens

/-- `make_entity` preserves the invariant, provided the fresh handle is not
already in the record table (guaranteed when handles are not forged) and the
component type pack has no duplicates. -/
theorem make_entity_inv (s : registry) (nm : String) (sigs : List Sig) (hInv : Inv s)
    (hnd : sigs.Nodup)
    (hfresh : s.findRecord { id := s.m_next_id + 1, registry_id := s.m_id } = none) :
    Inv (s.make_entity nm sigs).2 := by
  have hInv0 : Inv { s with m_next_id := s.m_next_id + 1 } := hInv
  have h0fresh : ({ s with m_next_id := s.m_next_id + 1 } : registry).findRecord
      { id := s.m_next_id + 1, registry_id := s.m_id } = none := hfresh
  have hInv1 := record_append_inv { s with m_next_id := s.m_next_id + 1 }
    { id := s.m_next_id + 1, registry_id := s.m_id }
    (if nm = "" then registry.make_name (s.m_next_id + 1) else nm) hInv0 h0fresh
  by_cases hemp : sigs.isEmpty = true
  · have heq : (s.make_entity nm sigs).2 =
        { s with
           m_next_id := s.m_next_id + 1,
           m_records := s.m_records ++ [({ id := s.m_next_id + 1, registry_id := s.m_id },
             { name := if nm = "" then registry.make_name (s.m_next_id + 1) else nm,
               arch := none, index := 0 })] } := by
      unfold registry.make_entity
      simp only [h0fresh, Option.isSome_none, Bool.false_eq_true, if_false, hemp, if_true]
    rw [heq]
    exact hInv1
  · have hne : sigs ≠ [] := by
      intro hcon
      rw [hcon] at hemp
      exact hemp rfl
    have hksort : strictSorted (⟨canon sigs⟩ : archetype_id).types = true := strictSorted_canon sigs
    have hInv2 := getOrMake_inv _ ⟨canon sigs⟩ hInv1 hksort
    obtain ⟨t0, hlt0⟩ : ∃ t0,
        lookupArch (getOrMake s.m_map ⟨canon sigs⟩) ⟨canon sigs⟩ = some t0 :=
      ⟨_, lookupArch_getOrMake_self _ _⟩
    have ht0id : t0.id = ⟨canon sigs⟩ := (lookupArch_eq_some hlt0).2
    have ht0wf : archWF t0 := hInv2.1 t0 (lookupArch_eq_some hlt0).1
    have hl3 : lookupArch (updateArch (getOrMake s.m_map ⟨canon sigs⟩) ⟨canon sigs⟩
        (fun a => a.push_back { id := s.m_next_id + 1, registry_id := s.m_id })) ⟨canon sigs⟩ =
        some (t0.push_back { id := s.m_next_id + 1, registry_id := s.m_id }) := by
      rw [lookupArch_updateArch (getOrMake s.m_map ⟨canon sigs⟩) ⟨canon sigs⟩ ⟨canon sigs⟩
        (fun a => a.push_back { id := s.m_next_id + 1, registry_id := s.m_id })
        (fun a _ => rfl), if_pos rfl, hlt0]
      rfl
    have hkA3 : ((updateArch (getOrMake s.m_map ⟨canon sigs⟩) ⟨canon sigs⟩
        (fun a => a.push_back { id := s.m_next_id + 1, registry_id := s.m_id })).map
        archetype.id).Nodup := by
      rw [updateArch_ids (getOrMake s.m_map ⟨canon sigs⟩) ⟨canon sigs⟩
        (fun a => a.push_back { id := s.m_next_id + 1, registry_id := s.m_id })
        (fun a _ => rfl)]
      exact hInv2.2.1
    have hsigns3 :
        (t0.push_back { id := s.m_next_id + 1, registry_id := s.m_id }).columns.map column.sign =
        (⟨canon sigs⟩ : archetype_id).types := by
      show t0.columns.map column.sign = _
      rw [ht0wf.2.1, ht0id]
    rcases fold_emplace_spec { id := s.m_next_id + 1, registry_id := s.m_id } ⟨canon sigs⟩
      t0.entities.length sigs
      { s with
         m_next_id := s.m_next_id + 1,
         m_records := s.m_records ++ [({ id := s.m_next_id + 1, registry_id := s.m_id },
           { name := if nm = "" then registry.make_name (s.m_next_id + 1) else nm,
             arch := none, index := 0 })],
         m_map := updateArch (getOrMake s.m_map ⟨canon sigs⟩) ⟨canon sigs⟩
           (fun a => a.push_back { id := s.m_next_id + 1, registry_id := s.m_id }) }
      (t0.push_back { id := s.m_next_id + 1, registry_id := s.m_id })
      hne hnd (fun x hx => mem_canon.mpr hx) hkA3 hl3 hsigns3
      (fun c hc _ => ht0wf.2.2 c hc)
      with ⟨tF, hfold, htFid, htFent, htFcols⟩
    have htFwf : archWF tF := by
      refine ⟨by rw [htFid]; exact hksort, ?_, ?_⟩
      · rw [htFid, htFcols]
        show ((t0.push_back _).columns.map _).map column.sign = _
        rw [List.map_map]
        calc ((t0.push_back { id := s.m_next_id + 1, registry_id := s.m_id }).columns.map
              (column.sign ∘ (fun c0 => if sigs.contains c0.sign = true
                then { c0 with values := c0.values ++ [(0 : Value)] } else c0))) =
            (t0.push_back { id := s.m_next_id + 1, registry_id := s.m_id }).columns.map
              column.sign := by
              apply List.map_congr_left
              intro c hc
              show (if sigs.contains c.sign = true
                then { c with values := c.values ++ [(0 : Value)] } else c).sign = c.sign
              by_cases h : sigs.contains c.sign = true
              · rw [if_pos h]
              · rw [if_neg h]
          _ = (⟨canon sigs⟩ : archetype_id).types := hsigns3
      · intro c hc
        rw [htFcols] at hc
        rcases List.mem_map.mp hc with ⟨c0, hc0, rfl⟩
        have hc0mem : c0 ∈ t0.columns := hc0
        have hc0sig : c0.sign ∈ (⟨canon sigs⟩ : archetype_id).types := by
          rw [← hsigns3]
          exact List.mem_map_of_mem column.sign hc0
        have hc0sigs : c0.sign ∈ sigs := mem_canon.mp hc0sig
        have hcont : sigs.contains c0.sign = true := by
          rw [List.elem_iff]
          exact hc0sigs
        rw [if_pos hcont]
        show (c0.values ++ [(0 : Value)]).length = tF.entities.length
        rw [List.length_append, List.length_singleton, ht0wf.2.2 c0 hc0mem, htFent]
        show t0.entities.length + 1 = (t0.entities ++ [_]).length
        rw [List.length_append, List.length_singleton]
    have hmap2 : updateArch (updateArch (getOrMake s.m_map ⟨canon sigs⟩) ⟨canon sigs⟩
        (fun a => a.push_back { id := s.m_next_id + 1, registry_id := s.m_id })) ⟨canon sigs⟩
        (fun _ => tF) =
        updateArch (getOrMake s.m_map ⟨canon sigs⟩) ⟨canon sigs⟩ (fun _ => tF) := by
      rw [updateArch_updateArch
        (fun a => a.push_back { id := s.m_next_id + 1, registry_id := s.m_id })
        (fun _ => tF) (fun a ha => ha)]
    have hr0 : ({ s with
        m_next_id := s.m_next_id + 1,
        m_records := s.m_records ++ [({ id := s.m_next_id + 1, registry_id := s.m_id },
          { name := if nm = "" then registry.make_name (s.m_next_id + 1) else nm,
            arch := none, index := 0 })],
        m_map := getOrMake s.m_map ⟨canon sigs⟩ } : registry).findRecord
        { id := s.m_next_id + 1, registry_id := s.m_id } =
        some { name := if nm = "" then registry.make_name (s.m_next_id + 1) else nm,
               arch := none, index := 0 } := by
      show registry.findRec (s.m_records ++ [({ id := s.m_next_id + 1, registry_id := s.m_id },
        { name := if nm = "" then registry.make_name (s.m_next_id + 1) else nm,
          arch := none, index := 0 })]) { id := s.m_next_id + 1, registry_id := s.m_id } = _
      exact findRec_append_self s.m_records _ _ hfresh
    have hfin := append_row_inv
      { s with
         m_next_id := s.m_next_id + 1,
         m_records := s.m_records ++ [({ id := s.m_next_id + 1, registry_id := s.m_id },
           { name := if nm = "" then registry.make_name (s.m_next_id + 1) else nm,
             arch := none, index := 0 })],
         m_map := getOrMake s.m_map ⟨canon sigs⟩ }
      { id := s.m_next_id + 1, registry_id := s.m_id }
      { name := if nm = "" then registry.make_name (s.m_next_id + 1) else nm,
        arch := none, index := 0 }
      ⟨canon sigs⟩ t0 tF (fun _ => tF) hInv2 hr0 rfl hlt0 rfl
      (fun a ha => by rw [htFid, ha]) htFwf
      (by rw [htFent]; rfl)
    have hgoal : (s.make_entity nm sigs).2 =
        sigs.foldl (fun st sg => st.emplaceDefault
          { id := s.m_next_id + 1, registry_id := s.m_id } ⟨canon sigs⟩ sg)
        { s with
           m_next_id := s.m_next_id + 1,
           m_records := s.m_records ++ [({ id := s.m_next_id + 1, registry_id := s.m_id },
             { name := if nm = "" then registry.make_name (s.m_next_id + 1) else nm,
               arch := none, index := 0 })],
           m_map := updateArch (getOrMake s.m_map ⟨canon sigs⟩) ⟨canon sigs⟩
             (fun a => a.push_back { id := s.m_next_id + 1, registry_id := s.m_id }) } := by
      unfold registry.make_entity
      simp only [h0fresh, Option.isSome_none, Bool.false_eq_true, if_false]
      rw [if_neg hemp]
    rw [hgoal, hfold]
    show Inv
      { m_map :=
          updateArch (updateArch (getOrMake s.m_map ⟨canon sigs⟩) ⟨canon sigs⟩
            (fun a => a.push_back { id := s.m_next_id + 1, registry_id := s.m_id })) ⟨canon sigs⟩
            (fun _ => tF),
        m_records :=
          registry.setRecords
            (s.m_records ++ [({ id := s.m_next_id + 1, registry_id := s.m_id },
              { name := if nm = "" then registry.make_name (s.m_next_id + 1) else nm,
                arch := none, index := 0 })])
            { id := s.m_next_id + 1, registry_id := s.m_id }
            (fun rd => { rd with arch := some ⟨canon sigs⟩, index := t0.entities.length }),
        m_next_id := s.m_next_id + 1,
        m_id := s.m_id }
    rw [hmap2]
    exact hfin

end Dens

namespace Dens

theorem find_none_of_sign_not_mem {a : archetype} (h : a.columns.map column.sign = a.id.types)
    {sg : Sig} (hm : ¬ sg ∈ a.id.types) : a.find sg = none := by
  unfold archetype.find
  rw [List.find?_eq_none]
  intro c hc
  simp only [beq_iff_eq]
  intro hcs
  apply hm
  rw [← h, ← hcs]
  exact List.mem_map_of_mem column.sign hc

theorem find?_sign_map (l : List column) (F : column → column)
    (hF : ∀ c, (F c).sign = c.sign) (sg : Sig) :
    (l.map F).find? (fun c => c.sign == sg) = (l.find? (fun c => c.sign == sg)).map F := by
  rw [List.find?_map]
  have hcomp : ((fun c : column => c.sign == sg) ∘ F) = (fun c : column => c.sign == sg) := by
    funext c
    simp [Function.comp, hF]
  rw [hcomp]

theorem migrate_tgt_col_sign (a : archetype) (c : column) :
    (match a.find c.sign with
     | some src =>
       match src.values.getLast? with
       | some v => { c with values := c.values ++ [v] }
       | none => c
     | none => c : column).sign = c.sign := by
  cases hf : a.find c.sign with
  | none => simp only [hf]
  | some src =>
    cases hl : src.values.getLast? with
    | none => simp only [hf, hl]
    | some v => simp only [hf, hl]

end Dens

namespace Dens

end Dens

namespace Dens

/-- The migrate-and-push tail of `attach` (the branch where the entity has an
archetype `k` lacking `sg`) preserves the invariant; `s2` is the state after
`get_or_make` has ensured both the record and the target archetype exist. -/
theorem attach_migrate_inv (s2 : registry) (e : entity) (r : record) (k : archetype_id)
    (a : archetype) (sg : Sig) (v : Value)
    (hInv2 : Inv s2)
    (hr : s2.findRecord e = some r) (hrk : r.arch = some k)
    (ha : lookupArch s2.m_map k = some a)
    (hfd : a.find sg = none)
    (hlt2 : (lookupArch s2.m_map (k.insert sg)).isSome = true) :
    Inv ((s2.migrate_to e (some (k.insert sg))).pushVal e (k.insert sg) sg v) := by
  obtain ⟨t00, hlt0⟩ := Option.isSome_iff_exists.mp hlt2
  have haid := (lookupArch_eq_some ha).2
  have hawfa : archWF a := hInv2.1 a (lookupArch_eq_some ha).1
  have hksort : strictSorted k.types = true := by
    have h1 := hawfa.1
    rw [haid] at h1
    exact h1
  have hsgk : ¬ sg ∈ k.types := by
    intro hm
    rcases find_isSome_of_sign_mem hawfa.2.1 (by rw [haid]; exact hm) with ⟨c, hc, _⟩
    rw [hc] at hfd
    exact Option.noConfusion hfd
  have hk'sort : strictSorted (k.insert sg).types = true := strictSorted_insertSorted hksort
  have hk'ne : ¬ k.insert sg = k := by
    intro hcon
    exact insertSorted_ne_of_not_mem hsgk (congrArg archetype_id.types hcon)
  obtain ⟨a₂, hlook2, ha2id, ha2wf, ha2len, ha2last, hmapform, hkeys2, hfre2, hawf2, hF1, hF2, hF4⟩ :=
    swap_step_spec s2 e r k a hInv2 hr hrk ha
  rw [← ha2len] at ha2last hF2 hF4
  have hlen0 : 0 < a₂.entities.length := by
    by_contra hcon
    have hnone : a₂.entities[a₂.entities.length - 1]? = none :=
      List.getElem?_eq_none (by omega)
    rw [hnone] at ha2last
    exact Option.noConfusion ha2last
  have hkeysA1 : archKeysNodup (s2.send_to_back e) := by
    show ((s2.send_to_back e).m_map.map archetype.id).Nodup
    rw [hmapform, updateArch_ids s2.m_map k (fun _ => a₂) (fun b hb => by rw [ha2id, hb])]
    exact hInv2.2.1
  have hkeysR1 : recordKeysNodup (s2.send_to_back e) := by
    show ((s2.send_to_back e).m_records.map Prod.fst).Nodup
    rw [hkeys2]
    exact hInv2.2.2.1
  have hlt : lookupArch (s2.send_to_back e).m_map (k.insert sg) = some t00 := by
    rw [hmapform]
    rw [lookupArch_updateArch s2.m_map k (k.insert sg) (fun _ => a₂)
      (fun b hb => by rw [ha2id, hb]), if_neg hk'ne]
    exact hlt0
  have htid : t00.id = k.insert sg := (lookupArch_eq_some hlt).2
  have htwf : archWF t00 := hawf2 t00 (lookupArch_eq_some hlt).1
  have hafind : a₂.find sg = none := by
    apply find_none_of_sign_not_mem ha2wf.2.1
    rw [ha2id]
    exact hsgk
  have hme : a₂.entities.getLast?.getD default = e := by
    rw [List.getLast?_eq_getElem?, ha2last]
    rfl
  obtain ⟨t1, ht1⟩ : ∃ t1, (a₂.migrate_back (some t00)).2.2 = some t1 :=
    ⟨_, migrate_back_tgt_eq a₂ t00⟩
  have ht1eq : t1 = { t00 with
      entities := t00.entities ++ [a₂.entities.getLast?.getD default],
      columns := t00.columns.map (fun c0 => match a₂.find c0.sign with
        | some src =>
          match src.values.getLast? with
          | some v0 => { c0 with values := c0.values ++ [v0] }
          | none => c0
        | none => c0) } :=
    Option.some.inj (ht1.symm.trans (migrate_back_tgt_eq a₂ t00))
  have ht1id : t1.id = k.insert sg := by
    rw [ht1eq]
    exact htid
  have ht2id : (t1.emplace_back sg v).id = k.insert sg := ht1id
  have ht1signs : t1.columns.map column.sign = (k.insert sg).types := by
    rw [ht1eq]
    show (t00.columns.map _).map column.sign = _
    rw [migrate_tgt_cols_signs a₂ t00, htwf.2.1, htid]
  have ht2signs : (t1.emplace_back sg v).columns.map column.sign = (k.insert sg).types := by
    rw [emplace_back_signs]
    exact ht1signs
  have ht2lens : ∀ c ∈ (t1.emplace_back sg v).columns,
      c.values.length = t00.entities.length + 1 := by
    intro c hc
    have hc2 : c ∈ t1.columns.map (fun c1 =>
        if c1.sign = sg then { c1 with values := c1.values ++ [v] } else c1) := hc
    rcases List.mem_map.mp hc2 with ⟨c1, hc1, rfl⟩
    rw [ht1eq] at hc1
    have hc1b : c1 ∈ t00.columns.map (fun c0 => match a₂.find c0.sign with
        | some src =>
          match src.values.getLast? with
          | some v0 => { c0 with values := c0.values ++ [v0] }
          | none => c0
        | none => c0) := hc1
    rcases List.mem_map.mp hc1b with ⟨c0, hc0, rfl⟩
    have hsign1 := migrate_tgt_col_sign a₂ c0
    by_cases h0 : c0.sign = sg
    · have hmig := migrate_tgt_col_missing (a := a₂) (c := c0) (by rw [h0]; exact hafind)
      rw [hmig, if_pos h0]
      show (c0.values ++ [v]).length = t00.entities.length + 1
      rw [List.length_append, List.length_singleton, htwf.2.2 c0 hc0]
    · have hc0mem : c0.sign ∈ a₂.id.types := by
        rw [ha2id]
        have h1 : c0.sign ∈ t00.id.types := by
          rw [← htwf.2.1]
          exact List.mem_map_of_mem column.sign hc0
        rw [htid] at h1
        rcases mem_insertSorted.mp h1 with h2 | h2
        · exact absurd h2 h0
        · exact h2
      have hlen1 := migrate_tgt_col_present ha2wf hlen0 hc0mem
      have hns : ¬ (match a₂.find c0.sign with
          | some src =>
            match src.values.getLast? with
            | some v0 => { c0 with values := c0.values ++ [v0] }
            | none => c0
          | none => c0 : column).sign = sg := by
        rw [hsign1]
        exact h0
      rw [if_neg hns]
      rw [hlen1, htwf.2.2 c0 hc0]
  have ht2ent : (t1.emplace_back sg v).entities = t00.entities ++ [e] := by
    show t1.entities = t00.entities ++ [e]
    rw [ht1eq]
    show t00.entities ++ [a₂.entities.getLast?.getD default] = _
    rw [hme]
  have hfsrc : ∀ b : archetype, b.id = k →
      ((fun _ => (a₂.migrate_back (some t00)).2.1) b).id = b.id := by
    intro b hb
    show (a₂.migrate_back (some t00)).2.1.id = b.id
    rw [migrate_back_src_id, ha2id, hb]
  have hft2 : ∀ b : archetype, b.id = k.insert sg →
      ((fun _ : archetype => t1.emplace_back sg v) b).id = b.id := by
    intro b hb
    show (t1.emplace_back sg v).id = b.id
    rw [ht2id, hb]
  have hsrcF : lookupArch (updateArch (updateArch (s2.send_to_back e).m_map k
      (fun _ => (a₂.migrate_back (some t00)).2.1)) (k.insert sg) (fun _ => t1.emplace_back sg v)) k =
      some ((a₂.migrate_back (some t00)).2.1) := by
    rw [lookupArch_updateArch _ _ _ _ hft2, if_neg (fun hcon => hk'ne hcon.symm)]
    rw [lookupArch_updateArch _ _ _ _ hfsrc, if_pos rfl, hlook2]
    rfl
  have htFlook : lookupArch (updateArch (updateArch (s2.send_to_back e).m_map k
      (fun _ => (a₂.migrate_back (some t00)).2.1)) (k.insert sg) (fun _ => t1.emplace_back sg v)) (k.insert sg) =
      some (t1.emplace_back sg v) := by
    rw [lookupArch_updateArch _ _ _ _ hft2, if_pos rfl]
    rw [lookupArch_updateArch _ _ _ _ hfsrc, if_neg hk'ne, hlt]
    rfl
  have hMFne : ∀ kk, ¬ kk = k → ¬ kk = k.insert sg →
      lookupArch (updateArch (updateArch (s2.send_to_back e).m_map k
      (fun _ => (a₂.migrate_back (some t00)).2.1)) (k.insert sg) (fun _ => t1.emplace_back sg v)) kk =
      lookupArch (s2.send_to_back e).m_map kk := by
    intro kk h1 h2
    rw [lookupArch_updateArch _ _ _ _ hft2, if_neg h2]
    rw [lookupArch_updateArch _ _ _ _ hfsrc, if_neg h1]
  have hMFids : (updateArch (updateArch (s2.send_to_back e).m_map k
      (fun _ => (a₂.migrate_back (some t00)).2.1)) (k.insert sg) (fun _ => t1.emplace_back sg v)).map archetype.id =
      (s2.send_to_back e).m_map.map archetype.id := by
    rw [updateArch_ids _ _ _ hft2, updateArch_ids _ _ _ hfsrc]
  have hMFmem : ∀ b ∈ updateArch (updateArch (s2.send_to_back e).m_map k
      (fun _ => (a₂.migrate_back (some t00)).2.1)) (k.insert sg) (fun _ => t1.emplace_back sg v),
      b = (a₂.migrate_back (some t00)).2.1 ∨ b = t1.emplace_back sg v ∨
      (b ∈ (s2.send_to_back e).m_map ∧ ¬ b.id = k ∧ ¬ b.id = k.insert sg) := by
    intro b hb
    rcases mem_updateArch hb with ⟨b1, hb1, hbe1⟩
    rcases mem_updateArch hb1 with ⟨b0, hb0, hbe0⟩
    by_cases h0k : b0.id = k
    · rw [if_pos h0k] at hbe0
      have hb1id : b1.id = k := by
        rw [hbe0]
        show (a₂.migrate_back (some t00)).2.1.id = k
        rw [migrate_back_src_id, ha2id]
      rw [if_neg (by rw [hb1id]; exact fun hcon => hk'ne hcon.symm)] at hbe1
      left
      rw [hbe1, hbe0]
    · rw [if_neg h0k] at hbe0
      by_cases h1k' : b1.id = k.insert sg
      · rw [if_pos h1k'] at hbe1
        right; left
        exact hbe1
      · rw [if_neg h1k'] at hbe1
        right; right
        rw [hbe1, hbe0]
        rw [hbe0] at h1k'
        exact ⟨hb0, h0k, h1k'⟩
  have hmain := move_row_inv (s2.send_to_back e) e r k (k.insert sg) a₂ t00
    (t1.emplace_back sg v)
    (updateArch (updateArch (s2.send_to_back e).m_map k
      (fun _ => (a₂.migrate_back (some t00)).2.1)) (k.insert sg) (fun _ => t1.emplace_back sg v))
    hk'ne hlook2 ha2id ha2wf ha2last hkeysA1 hkeysR1 hfre2 hawf2 hF1 hF2 hF4
    hlt ht2id ht2signs hk'sort ht2lens ht2ent hsrcF htFlook hMFne hMFids hMFmem
  rcases find_isSome_of_sign_mem htwf.2.1 (show sg ∈ t00.id.types by
    rw [htid]; exact mem_insertSorted.mpr (Or.inl rfl)) with ⟨ct, hctf, hcts⟩
  have hctmem : ct ∈ t00.columns := List.mem_of_find?_eq_some
    (show t00.columns.find? (fun c => c.sign == sg) = some ct from hctf)
  have ht1find : t1.find sg = some ct := by
    rw [ht1eq]
    show (t00.columns.map (fun c0 => match a₂.find c0.sign with
        | some src =>
          match src.values.getLast? with
          | some v0 => { c0 with values := c0.values ++ [v0] }
          | none => c0
        | none => c0)).find? (fun c => c.sign == sg) = some ct
    rw [find?_sign_map _ _ (fun c => migrate_tgt_col_sign a₂ c) sg]
    rw [(show t00.columns.find? (fun c => c.sign == sg) = some ct from hctf)]
    have hmig := migrate_tgt_col_missing (a := a₂) (c := ct) (by rw [hcts]; exact hafind)
    show some (match a₂.find ct.sign with
        | some src =>
          match src.values.getLast? with
          | some v0 => { ct with values := ct.values ++ [v0] }
          | none => ct
        | none => ct : column) = some ct
    rw [hmig]
  have ht2find : (t1.emplace_back sg v).find sg =
      some { ct with values := ct.values ++ [v] } := by
    rw [find_emplace_back, ht1find]
    rfl
  have hlen : (match lookupArch (updateArch (updateArch (s2.send_to_back e).m_map k
      (fun _ => (a₂.migrate_back (some t00)).2.1)) (k.insert sg) (fun _ => t1.emplace_back sg v)) (k.insert sg) with
      | some a0 => a0.colLen sg
      | none => 0) = t00.entities.length + 1 := by
    simp only [htFlook]
    show (t1.emplace_back sg v).colLen sg = _
    unfold archetype.colLen
    simp only [ht2find]
    show (ct.values ++ [v]).length = t00.entities.length + 1
    rw [List.length_append, List.length_singleton, htwf.2.2 ct hctmem]
  have hbind : (some (k.insert sg)).bind
      (fun tkey => lookupArch (s2.send_to_back e).m_map tkey) =
      lookupArch (s2.send_to_back e).m_map (k.insert sg) := rfl
  have heqm : s2.migrate_to e (some (k.insert sg)) =
      { s2.send_to_back e with
         m_map := updateArch (updateArch (s2.send_to_back e).m_map k
           (fun _ => (a₂.migrate_back (some t00)).2.1)) (k.insert sg) (fun _ => t1),
         m_records := registry.setRecords (s2.send_to_back e).m_records e
           (fun rd => { rd with arch := some (k.insert sg) }) } := by
    unfold registry.migrate_to
    simp only [hfre2, hrk, hlook2, hbind, hlt, ht1]
  have habs : updateArch (updateArch (updateArch (s2.send_to_back e).m_map k
      (fun _ => (a₂.migrate_back (some t00)).2.1)) (k.insert sg) (fun _ => t1)) (k.insert sg)
      (fun a0 => a0.emplace_back sg v) =
      updateArch (updateArch (s2.send_to_back e).m_map k
      (fun _ => (a₂.migrate_back (some t00)).2.1)) (k.insert sg) (fun _ => t1.emplace_back sg v) := by
    rw [updateArch_updateArch (fun _ => t1) (fun a0 => a0.emplace_back sg v)
      (fun b hb => ht1id)]
  have heq : (s2.migrate_to e (some (k.insert sg))).pushVal e (k.insert sg) sg v =
      { s2.send_to_back e with
         m_map := updateArch (updateArch (s2.send_to_back e).m_map k
      (fun _ => (a₂.migrate_back (some t00)).2.1)) (k.insert sg) (fun _ => t1.emplace_back sg v),
         m_records := registry.setRecords (s2.send_to_back e).m_records e
           (fun rd => { name := rd.name, arch := some (k.insert sg),
                        index := t00.entities.length }) } := by
    rw [heqm]
    unfold registry.pushVal
    rw [habs]
    simp only [hlen]
    rw [setRecords_setRecords]
    rw [Nat.add_sub_cancel]
  rw [heq]
  exact hmain

end Dens

namespace Dens

/-- `attach` preserves the registry invariant. -/
theorem attach_inv (s : registry) (e : entity) (sg : Sig) (v : Value) (hInv : Inv s) :
    Inv (s.attach e sg v) := by
  have hInv1 : Inv (s.get_or_make e) := registry_get_or_make_inv s e hInv
  cases hr : (s.get_or_make e).findRecord e with
  | none =>
    unfold registry.attach
    simp only [hr]
    exact hInv1
  | some r =>
  cases hrk : r.arch with
  | none =>
    -- no existing components: push a fresh row into the single-type archetype
    have hksort : strictSorted (⟨canon [sg]⟩ : archetype_id).types = true :=
      strictSorted_canon [sg]
    have hInv2 := getOrMake_inv (s.get_or_make e) ⟨canon [sg]⟩ hInv1 hksort
    obtain ⟨t0, hlt0⟩ : ∃ t0,
        lookupArch (getOrMake (s.get_or_make e).m_map ⟨canon [sg]⟩) ⟨canon [sg]⟩ = some t0 :=
      ⟨_, lookupArch_getOrMake_self _ _⟩
    have ht0id : t0.id = ⟨canon [sg]⟩ := (lookupArch_eq_some hlt0).2
    have ht0wf : archWF t0 := hInv2.1 t0 (lookupArch_eq_some hlt0).1
    have hsgmem : sg ∈ (⟨canon [sg]⟩ : archetype_id).types :=
      mem_canon.mpr (List.mem_singleton.mpr rfl)
    have htFwf : archWF ((t0.push_back e).emplace_back sg v) := by
      refine ⟨?_, ?_, ?_⟩
      · show strictSorted t0.id.types = true
        rw [ht0id]
        exact hksort
      · show ((t0.push_back e).emplace_back sg v).columns.map column.sign = t0.id.types
        rw [emplace_back_signs]
        show t0.columns.map column.sign = t0.id.types
        exact ht0wf.2.1
      · intro c hc
        have hc2 : c ∈ t0.columns.map (fun c0 =>
            if c0.sign = sg then { c0 with values := c0.values ++ [v] } else c0) := hc
        rcases List.mem_map.mp hc2 with ⟨c0, hc0, rfl⟩
        have hc0sig : c0.sign ∈ t0.id.types := by
          rw [← ht0wf.2.1]
          exact List.mem_map_of_mem column.sign hc0
        have hc0sg : c0.sign = sg := by
          rw [ht0id] at hc0sig
          exact List.mem_singleton.mp (mem_canon.mp hc0sig)
        rw [if_pos hc0sg]
        show (c0.values ++ [v]).length = (t0.entities ++ [e]).length
        rw [List.length_append, List.length_singleton, List.length_append,
          List.length_singleton, ht0wf.2.2 c0 hc0]
    have habsC : updateArch (updateArch (getOrMake (s.get_or_make e).m_map ⟨canon [sg]⟩)
        ⟨canon [sg]⟩ (fun a => a.push_back e)) ⟨canon [sg]⟩ (fun a0 => a0.emplace_back sg v) =
        updateArch (getOrMake (s.get_or_make e).m_map ⟨canon [sg]⟩) ⟨canon [sg]⟩
        (fun a => (a.push_back e).emplace_back sg v) := by
      rw [updateArch_updateArch (fun a => a.push_back e) (fun a0 => a0.emplace_back sg v)
        (fun a ha => ha)]
    have hlookC : lookupArch (updateArch (getOrMake (s.get_or_make e).m_map ⟨canon [sg]⟩)
        ⟨canon [sg]⟩ (fun a => (a.push_back e).emplace_back sg v)) ⟨canon [sg]⟩ =
        some ((t0.push_back e).emplace_back sg v) := by
      rw [lookupArch_updateArch (getOrMake (s.get_or_make e).m_map ⟨canon [sg]⟩) ⟨canon [sg]⟩
        ⟨canon [sg]⟩ (fun a => (a.push_back e).emplace_back sg v) (fun a _ => rfl),
        if_pos rfl, hlt0]
      rfl
    rcases find_isSome_of_sign_mem
      (show t0.columns.map column.sign = t0.id.types from ht0wf.2.1)
      (show sg ∈ t0.id.types by rw [ht0id]; exact hsgmem) with ⟨c0, hc0f, hc0s⟩
    have hc0mem : c0 ∈ t0.columns := List.mem_of_find?_eq_some
      (show t0.columns.find? (fun c => c.sign == sg) = some c0 from hc0f)
    have hlenC : (match lookupArch (updateArch (getOrMake (s.get_or_make e).m_map ⟨canon [sg]⟩)
        ⟨canon [sg]⟩ (fun a => (a.push_back e).emplace_back sg v)) ⟨canon [sg]⟩ with
        | some a0 => a0.colLen sg
        | none => 0) = t0.entities.length + 1 := by
      simp only [hlookC]
      show ((t0.push_back e).emplace_back sg v).colLen sg = t0.entities.length + 1
      unfold archetype.colLen
      have hfind2 : ((t0.push_back e).emplace_back sg v).find sg =
          some { c0 with values := c0.values ++ [v] } := by
        rw [find_emplace_back]
        have hc0f2 : (t0.push_back e).find sg = some c0 := hc0f
        rw [hc0f2]
        rfl
      simp only [hfind2]
      show (c0.values ++ [v]).length = t0.entities.length + 1
      rw [List.length_append, List.length_singleton, ht0wf.2.2 c0 hc0mem]
    have heqC : s.attach e sg v =
        { s.get_or_make e with
           m_map := updateArch (getOrMake (s.get_or_make e).m_map ⟨canon [sg]⟩) ⟨canon [sg]⟩
             (fun a => (a.push_back e).emplace_back sg v),
           m_records := registry.setRecords (s.get_or_make e).m_records e
             (fun rd => { name := rd.name, arch := some ⟨canon [sg]⟩,
                          index := t0.entities.length }) } := by
      unfold registry.attach
      simp only [hr, hrk]
      unfold registry.pushVal
      rw [habsC]
      simp only [hlenC]
      rw [setRecords_setRecords]
      rw [Nat.add_sub_cancel]
    have hfinC := append_row_inv
      { s.get_or_make e with m_map := getOrMake (s.get_or_make e).m_map ⟨canon [sg]⟩ }
      e r ⟨canon [sg]⟩ t0 ((t0.push_back e).emplace_back sg v)
      (fun a => (a.push_back e).emplace_back sg v)
      hInv2 hr hrk hlt0 rfl (fun a _ => rfl) htFwf rfl
    rw [heqC]
    exact hfinC
  | some k =>
  cases ha : lookupArch (s.get_or_make e).m_map k with
  | none =>
    unfold registry.attach
    simp only [hr, hrk, ha]
    exact hInv1
  | some a =>
  by_cases hfd : (a.find sg).isSome = true
  · have heqA : s.attach e sg v =
        { s.get_or_make e with
           m_map := updateArch (s.get_or_make e).m_map k
             (fun a0 => a0.set_val sg r.index v) } := by
      unfold registry.attach
      simp only [hr, hrk, ha, hfd, if_true]
    rw [heqA]
    exact set_val_inv (s.get_or_make e) k sg r.index v hInv1
  · -- T not attached: migrate to the archetype with T added, then push
    have hfd' : a.find sg = none := by
      cases hv : a.find sg with
      | none => rfl
      | some c =>
        rw [hv] at hfd
        exact absurd rfl hfd
    have hawfa : archWF a := hInv1.1 a (lookupArch_eq_some ha).1
    have hksort : strictSorted k.types = true := by
      have h1 := hawfa.1
      rw [(lookupArch_eq_some ha).2] at h1
      exact h1
    have hsgk : ¬ sg ∈ k.types := by
      intro hm
      rcases find_isSome_of_sign_mem hawfa.2.1
        (by rw [(lookupArch_eq_some ha).2]; exact hm) with ⟨c, hc, _⟩
      rw [hc] at hfd'
      exact Option.noConfusion hfd'
    have hk'sort : strictSorted (k.insert sg).types = true := strictSorted_insertSorted hksort
    have hk'ne : ¬ k.insert sg = k := by
      intro hcon
      exact insertSorted_ne_of_not_mem hsgk (congrArg archetype_id.types hcon)
    have hInv2 := getOrMake_inv (s.get_or_make e) (k.insert sg) hInv1 hk'sort
    have ha2 : lookupArch ({ s.get_or_make e with
        m_map := getOrMake (s.get_or_make e).m_map (k.insert sg) } : registry).m_map k =
        some a := by
      show lookupArch (getOrMake (s.get_or_make e).m_map (k.insert sg)) k = some a
      rw [lookupArch_getOrMake_ne _ _ _ (fun hcon => hk'ne hcon.symm)]
      exact ha
    have hlt2 : (lookupArch ({ s.get_or_make e with
        m_map := getOrMake (s.get_or_make e).m_map (k.insert sg) } : registry).m_map
        (k.insert sg)).isSome = true := by
      show (lookupArch (getOrMake (s.get_or_make e).m_map (k.insert sg))
        (k.insert sg)).isSome = true
      rw [lookupArch_getOrMake_self]
      rfl
    have heqB : s.attach e sg v =
        (({ s.get_or_make e with
            m_map := getOrMake (s.get_or_make e).m_map (k.insert sg) } : registry).migrate_to e
          (some (k.insert sg))).pushVal e (k.insert sg) sg v := by
      unfold registry.attach
      simp only [hr, hrk, ha]
      rw [if_neg hfd]
    rw [heqB]
    exact attach_migrate_inv
      { s.get_or_make e with m_map := getOrMake (s.get_or_make e).m_map (k.insert sg) }
      e r k a sg v hInv2 hr hrk ha2 hfd' hlt2


end Dens

namespace Dens

/-! ## Claim C4 -/

/-- C4: Invariant I2 — for every entity `E` whose record `R` has an archetype
`A` set, `A.entities[R.index] = E` — is preserved by every public operation
(`make_entity`, `attach`, `detach`, `destroy`, `rename`, `clear`), assuming the
full registry invariant beforehand, that `make_entity` is called with
pairwise-distinct component types and a genuinely fresh handle (no record was
forged under the next id), and that no `detach` assertion fires (`detachOk`).
In particular, when a mutation swaps another entity into a vacated row, the
displaced entity's record index is updated within the same operation (this is
the `send_to_back` step, whose full postcondition is `swap_step_spec`). -/
theorem C4_I2_preserved_by_public_ops (s : registry) (hInv : Inv s) :
    (∀ nm sigs, sigs.Nodup →
      s.findRecord { id := s.m_next_id + 1, registry_id := s.m_id } = none →
      I2P (s.make_entity nm sigs).2) ∧
    (∀ e sg v, I2P (s.attach e sg v)) ∧
    (∀ e sgs, detachOk s e sgs = true → I2P (s.detach e sgs).2) ∧
    (∀ e, I2P (s.destroy e).2) ∧
    (∀ e nm, I2P (s.rename e nm).2) ∧
    I2P s.clear :=
  ⟨fun nm sigs hnd hfresh => (make_entity_inv s nm sigs hInv hnd hfresh).2.2.2.1,
   fun e sg v => (attach_inv s e sg v hInv).2.2.2.1,
   fun e sgs hok => (detach_inv s e sgs hInv hok).2.2.2.1,
   fun e => (destroy_inv s e hInv).2.2.2.1,
   fun e nm => (rename_inv s e nm hInv).2.2.2.1,
   (clear_inv s).2.2.2.1⟩

/-- C4 witness: the registry invariant holds for the fixture `exS5`, and each
public operation instantiated on it keeps I2. -/
theorem C4_witness :
    Inv exS5 ∧
    I2P (exS5.make_entity "n" [0, 3]).2 ∧
    I2P (exS5.attach exE1 9 5) ∧
    I2P (exS5.detach exE1 [0]).2 ∧
    I2P (exS5.destroy exE2).2 ∧
    I2P (exS5.rename exE1 "z").2 ∧
    I2P exS5.clear := by
  have hInv : Inv exS5 := by decide
  have h := C4_I2_preserved_by_public_ops exS5 hInv
  exact ⟨hInv,
    h.1 "n" [0, 3] (by decide) (by decide),
    h.2.1 exE1 9 5,
    h.2.2.1 exE1 [0] (by decide),
    h.2.2.2.1 exE2,
    h.2.2.2.2.1 exE1 "z",
    h.2.2.2.2.2⟩

end Dens
